import Mathlib

/-!
# socket-lab: RSA chat server (`src/RSA-chat`)

A shallow embedding of `rsa_chat.hpp` and of the session manager of
`server_linux.cpp`, followed by theorems about them.

Conventions of the embedding

* A `std::string` is a list of bytes (`Bytes`); a `long long` is an `Int`,
  products are reduced with `wrap64`, and `%` is `cmod`, which has no value
  where the C++ operation has none (division by zero).
* `std::map<int, ClientSession>` is an association list in ascending key order.
* The results of `send`, `recv` and `pthread_create` are inputs of the
  functions that call them; the system calls a function performs are returned
  as a list of `SysCall`, in program order.  `printf` logging is left out.
-/

namespace RsaChat

/-! ## Strings -/

/-- One `char`, read as `unsigned char`. -/
abbrev Byte := Fin 256

/-- The contents of a `std::string`. -/
abbrev Bytes := List Byte

/-- The bytes of an ASCII string literal of the source. -/
def lit (s : String) : Bytes := s.toList.map (fun c => Fin.ofNat c.toNat)

/-- The C string held in a zero-filled buffer: the bytes before the first NUL. -/
def cstr (buf : Bytes) : Bytes := buf.takeWhile (fun c => c != 0)

/-- `isspace` in the "C" locale: space, `\t`, `\n`, `\v`, `\f`, `\r`. -/
def isspace (c : Byte) : Bool := c.val == 32 || (9 ≤ c.val && c.val ≤ 13)

/-- `isdigit`. -/
def isdigit (c : Byte) : Bool := 48 ≤ c.val && c.val ≤ 57

/-! ## 64-bit integers -/

def INT64_MIN : Int := -9223372036854775808

def INT64_MAX : Int := 9223372036854775807

/-- Reduction of an exact result to the `long long` that stores it. -/
def wrap64 (x : Int) : Int := (x + 9223372036854775808) % 18446744073709551616 - 9223372036854775808

/-- `a % b` on `long long` (remainder of the division truncated towards zero);
no value when `b == 0` or when the quotient overflows. -/
def cmod (a b : Int) : Option Int :=
  if b = 0 ∨ (a = INT64_MIN ∧ b = -1) then none else some (Int.tmod a b)

/-! ## rsa_chat.hpp -/

/-- The `while (exp > 0)` loop of `modexp`; `exp` is halved by each iteration,
so `exp.toNat` iterations are always enough. -/
def modexpLoop : Nat → Int → Int → Int → Int → Option Int
  | 0, result, _, _, _ => some result
  | fuel + 1, result, base, exp, mod =>
    if exp > 0 then
      (if exp % 2 = 1 then cmod (wrap64 (result * base)) mod else some result).bind fun result =>
      (cmod (wrap64 (base * base)) mod).bind fun base =>
      modexpLoop fuel result base (exp / 2) mod
    else some result

/-- `modexp(base, exp, mod)`. -/
def modexp (base exp mod : Int) : Option Int :=
  (cmod base mod).bind fun base => modexpLoop exp.toNat 1 base exp mod

/-- The `for (unsigned char ch : msg)` loop of `encrypt`. -/
def encryptLoop (e n : Int) : Bytes → Option (List Int)
  | [] => some []
  | ch :: rest =>
    (modexp (ch.val : Int) e n).bind fun c =>
    (encryptLoop e n rest).bind fun cs => some (c :: cs)

/-- `encrypt(msg, pub_key)`. -/
def encrypt (msg : Bytes) (pub_key : List Int) : Option (List Int) :=
  match pub_key with
  | e :: n :: _ => encryptLoop e n msg
  | _ => some []

/-- The character `decrypt` appends for one decrypted value. -/
def decryptedChar (decrypted_val : Int) : Byte :=
  if decrypted_val < 0 ∨ decrypted_val > 255 then 63 else Fin.ofNat decrypted_val.toNat

/-- The `for (long long c : cipher)` loop of `decrypt`. -/
def decryptLoop (d n : Int) : List Int → Option Bytes
  | [] => some []
  | c :: rest =>
    (modexp c d n).bind fun decrypted_val =>
    (decryptLoop d n rest).bind fun out => some (decryptedChar decrypted_val :: out)

/-- `decrypt(cipher, priv_key)`. -/
def decrypt (cipher : List Int) (priv_key : List Int) : Option Bytes :=
  match priv_key with
  | d :: n :: _ => decryptLoop d n cipher
  | _ => some []

/-- The character of a decimal digit. -/
def digitChar (d : Nat) : Byte := Fin.ofNat (48 + d)

/-- Decimal digits of `n`, most significant first, in front of `acc`. -/
def natToDecAux : Nat → Nat → Bytes → Bytes
  | 0, _, acc => acc
  | fuel + 1, n, acc =>
    if n / 10 = 0 then digitChar (n % 10) :: acc
    else natToDecAux fuel (n / 10) (digitChar (n % 10) :: acc)

/-- Decimal representation of a natural number. -/
def natToDec (n : Nat) : Bytes := natToDecAux (n + 1) n []

/-- The text `operator<<(long long)` and `std::to_string(int)` produce. -/
def showInt (x : Int) : Bytes :=
  if x < 0 then (45 : Byte) :: natToDec (-x).toNat else natToDec x.toNat

/-- `serialize_ciphertext(cipher)`: the values separated by one space. -/
def serialize_ciphertext : List Int → Bytes
  | [] => []
  | [x] => showInt x
  | x :: y :: rest => showInt x ++ (32 : Byte) :: serialize_ciphertext (y :: rest)

/-- Reads decimal digits, accumulating their value. -/
def readDigits : Bytes → Nat → Nat × Bytes
  | [], acc => (acc, [])
  | c :: cs, acc =>
    if isdigit c then readDigits cs (acc * 10 + (c.val - 48)) else (acc, c :: cs)

/-- Reads an optionally signed decimal integer at the head of `s`: the sign,
the magnitude and the unread rest; `none` when no digit follows the sign. -/
def scanInt (s : Bytes) : Option (Bool × Nat × Bytes) :=
  let neg := s.head? == some (45 : Byte)
  let s1 := if s.head? == some (45 : Byte) || s.head? == some (43 : Byte) then s.tail else s
  match s1 with
  | [] => none
  | c :: _ =>
    if isdigit c then
      let r := readDigits s1 0
      some (neg, r.1, r.2)
    else none

/-- The value of a scanned sign and magnitude. -/
def signedValue (neg : Bool) (v : Nat) : Int := if neg then -(v : Int) else (v : Int)

/-- `iss >> num` for a `long long`: leading white space is skipped; the
extraction fails (`none`) when no integer can be read or when it does not fit. -/
def extractInt (s : Bytes) : Option (Int × Bytes) :=
  match scanInt (s.dropWhile isspace) with
  | none => none
  | some (neg, v, rest) =>
    if INT64_MIN ≤ signedValue neg v ∧ signedValue neg v ≤ INT64_MAX then
      some (signedValue neg v, rest)
    else none

/-- The `while (iss >> num)` loop of `deserialize_ciphertext`; every successful
extraction consumes at least one byte, so `length` iterations are enough. -/
def deserializeLoop : Nat → Bytes → List Int
  | 0, _ => []
  | fuel + 1, s =>
    match extractInt s with
    | none => []
    | some (num, rest) => num :: deserializeLoop fuel rest

/-- `deserialize_ciphertext(serialized_str)`. -/
def deserialize_ciphertext (serialized_str : Bytes) : List Int :=
  if serialized_str.isEmpty then [] else deserializeLoop serialized_str.length serialized_str

/-! ## server_linux.cpp: data -/

/-- The `struct ClientSession`; `thread == 0` stands for "no thread". -/
structure ClientSession where
  socket : Int
  public_key : List Int
  thread : Nat
  user_id : Bytes
  connected : Bool
deriving DecidableEq, Repr

/-- A value-initialised `ClientSession`, as `operator[]` inserts for a new key. -/
def ClientSession.zero : ClientSession := ⟨0, [], 0, [], false⟩

/-- The `std::map<int, ClientSession>`: (key, value) pairs, ascending in the key
when built with `assign` and `erase` from the empty map. -/
abbrev ClientMap := List (Int × ClientSession)

/-- `m.find(k)`: the session stored under `k`, `none` for `m.end()`. -/
def ClientMap.find : ClientMap → Int → Option ClientSession
  | [], _ => none
  | (k1, v) :: rest, k => if k1 = k then some v else ClientMap.find rest k

/-- `m[k] = v`: replaces the value under `k`, or inserts it at its place in key order. -/
def ClientMap.assign : ClientMap → Int → ClientSession → ClientMap
  | [], k, v => [(k, v)]
  | (k1, v1) :: rest, k, v =>
    if k1 = k then (k, v) :: rest
    else if k < k1 then (k, v) :: (k1, v1) :: rest
    else (k1, v1) :: ClientMap.assign rest k v

/-- The session `m[k]` refers to: the stored one, a value-initialised one when absent. -/
def ClientMap.at (m : ClientMap) (k : Int) : ClientSession := (m.find k).getD ClientSession.zero

/-- `m.erase(it)` for `it = m.find(k)`: the map without key `k`. -/
def ClientMap.erase (m : ClientMap) (k : Int) : ClientMap := m.filter (fun p => p.1 != k)

/-- The members of `ChatServer` that change after construction. The two keys
and the port are fixed by the constructor; the keys are constants below. -/
structure ChatServer where
  m_running : Bool
  m_server_socket : Int
  m_clients : ClientMap
deriving DecidableEq, Repr

/-- `m_server_public_key({5, 323})`. -/
def m_server_public_key : List Int := [5, 323]

/-- `m_server_private_key({173, 323})`. -/
def m_server_private_key : List Int := [173, 323]

/-- The system calls of the session manager that act on a connection or a thread. -/
inductive SysCall where
  | send (fd : Int) (data : Bytes)
  | shutdown (fd : Int)
  | close (fd : Int)
  | pthread_create (clientSocket : Int)
  | pthread_join (thread : Nat)
  | pthread_detach (thread : Nat)
deriving DecidableEq, Repr

/-- What `send(fd, data, len, 0)` returns, for every socket and payload. -/
abbrev SendFn := Int → Bytes → Int

/-- What one `recv` call yields: `-1`, `0` (peer closed), or the bytes stored in
the buffer (their number is the return value). -/
inductive RecvResult where
  | error
  | closed
  | data (bytes : Bytes)
deriving DecidableEq, Repr

/-- The return value of `recv`. -/
def RecvResult.len : RecvResult → Int
  | .error => -1
  | .closed => 0
  | .data bytes => bytes.length

/-- The buffer after `recv`, read as a C string. -/
def RecvResult.text : RecvResult → Bytes
  | .data bytes => cstr bytes
  | _ => []

/-! ## server_linux.cpp: handshake -/

/-- The saturation of glibc's `%lld` conversion on an out-of-range value. -/
def saturate (x : Int) : Int := if x < INT64_MIN then INT64_MIN else if x > INT64_MAX then INT64_MAX else x

/-- One `%lld` directive of `sscanf`: white space is skipped, then an
optionally signed decimal integer is read. -/
def scanLL (s : Bytes) : Option (Int × Bytes) :=
  match scanInt (s.dropWhile isspace) with
  | none => none
  | some (neg, v, rest) => some (saturate (signedValue neg v), rest)

/-- The `%255s` directive: white space is skipped, then at most 255 bytes that
are not white space are stored. -/
def scanToken (s : Bytes) : Bytes := ((s.dropWhile isspace).takeWhile (fun c => !isspace c)).take 255

/-- The outcome of `sscanf(comm_buffer, "%lld %lld %255s", ...)`: the number of
items assigned (an `EOF` return counts as 0: the caller tests `>= 2`), and the
three items; `user` stays the zero-filled buffer when it is not assigned. -/
structure KeyScan where
  assigned : Nat
  client_e : Int
  client_n : Int
  user : Bytes
deriving DecidableEq, Repr

/-- The call `sscanf(comm_buffer, "%lld %lld %255s", &client_e, &client_n, client_user_id_c_str)`. -/
def sscanfKey (comm_buffer : Bytes) : KeyScan :=
  match scanLL comm_buffer with
  | none => ⟨0, 0, 0, []⟩
  | some (e, r1) =>
    match scanLL r1 with
    | none => ⟨1, e, 0, []⟩
    | some (n, r2) =>
      if (scanToken r2).isEmpty then ⟨2, e, n, []⟩ else ⟨3, e, n, scanToken r2⟩

/-- The `user_id_str` of `exchangeKeys`: the scanned token, `"(unknown)"` when
the buffer is still empty. -/
def handshakeUserId (scan : KeyScan) : Bytes :=
  if scan.user.length > 0 then scan.user else lit "(unknown)"

/-- The text `exchangeKeys` sends first: `"%lld %lld"` of the server's public key. -/
def serverKeyMessage : Bytes :=
  showInt (m_server_public_key.getD 0 0) ++ lit " " ++ showInt (m_server_public_key.getD 1 0)

/-- The duplicate check of `exchangeKeys`: some entry is connected under `user_id_str`. -/
def userConnected (m : ClientMap) (user_id_str : Bytes) : Bool :=
  m.any (fun pair => pair.2.connected && pair.2.user_id == user_id_str)

/-- `ChatServer::exchangeKeys(clientSocket)`, with the result of its `recv` call.
Every `throw` is caught inside the function and makes it return `false`; the
handler sends the plain-text notice for the duplicate-user error only. -/
def exchangeKeys (s : ChatServer) (send : SendFn) (recv : RecvResult) (clientSocket : Int) :
    Bool × ChatServer × List SysCall :=
  if send clientSocket serverKeyMessage ≤ 0 then (false, s, [.send clientSocket serverKeyMessage])
  else if recv.len ≤ 0 then (false, s, [.send clientSocket serverKeyMessage])
  else
    let scan := sscanfKey recv.text
    if scan.assigned ≥ 2 then
      let client_public_key := [scan.client_e, scan.client_n]
      let user_id_str := handshakeUserId scan
      if userConnected s.m_clients user_id_str then
        (false, s, [.send clientSocket serverKeyMessage,
                    .send clientSocket (lit "Error: User ID already in use.")])
      else
        let m1 := s.m_clients.assign clientSocket
          { s.m_clients.at clientSocket with public_key := client_public_key }
        let m2 := m1.assign clientSocket { m1.at clientSocket with user_id := user_id_str }
        (true, { s with m_clients := m2 }, [.send clientSocket serverKeyMessage])
    else (false, s, [.send clientSocket serverKeyMessage])

/-! ## server_linux.cpp: routing -/

/-- `ChatServer::sendErrorToClient(clientSocket, error_message)`. -/
def sendErrorToClient (s : ChatServer) (send : SendFn) (clientSocket : Int) (error_message : Bytes) :
    Option (Bool × List SysCall) :=
  match s.m_clients.find clientSocket with
  | none => some (false, [])
  | some session =>
    if !session.connected || session.public_key.isEmpty then some (false, [])
    else
      (encrypt error_message session.public_key).bind fun ciphertext =>
      let serialized_ciphertext := serialize_ciphertext ciphertext
      some (decide (¬ send clientSocket serialized_ciphertext ≤ 0),
            [.send clientSocket serialized_ciphertext])

/-- The scan of `forwardMessageToClient`: the first entry, in key order, that
is connected under `recipient_id`. -/
def findRecipient : ClientMap → Bytes → Option (Int × List Int)
  | [], _ => none
  | (k, v) :: rest, recipient_id =>
    if v.user_id == recipient_id && v.connected then some (k, v.public_key)
    else findRecipient rest recipient_id

/-- `ChatServer::forwardMessageToClient(recipient_id, sender_id, message, senderSocket)`. -/
def forwardMessageToClient (s : ChatServer) (send : SendFn) (recipient_id sender_id message : Bytes)
    (senderSocket : Int) : Option (Bool × List SysCall) :=
  let not_found := sendErrorToClient s send senderSocket
    (lit "Error: User '" ++ recipient_id ++ lit "' not found or not connected.")
  match findRecipient s.m_clients recipient_id with
  | none => not_found.map fun r => (false, r.2)
  | some (recipient_socket, recipient_public_key) =>
    if recipient_socket = -1 ∨ recipient_public_key.isEmpty then not_found.map fun r => (false, r.2)
    else
      let formatted_message := lit "[DM from " ++ sender_id ++ lit "]: " ++ message
      (encrypt formatted_message recipient_public_key).bind fun ciphertext =>
      let serialized_ciphertext := serialize_ciphertext ciphertext
      if send recipient_socket serialized_ciphertext ≤ 0 then
        (sendErrorToClient s send senderSocket
          (lit "Error: Failed to deliver message to '" ++ recipient_id ++
            lit "'. They may have disconnected.")).map
          fun r => (false, SysCall.send recipient_socket serialized_ciphertext :: r.2)
      else some (true, [.send recipient_socket serialized_ciphertext])

/-- The characters the trim of `handleReceivedMessage` removes: `" \t\r\n"`. -/
def isTrimChar (c : Byte) : Bool := c.val == 32 || c.val == 9 || c.val == 13 || c.val == 10

/-- The two `erase` calls that trim `recipient_id`. -/
def trim (t : Bytes) : Bytes := ((t.dropWhile isTrimChar).reverse.dropWhile isTrimChar).reverse

/-- The byte `'/'`. -/
def slash : Byte := 47

/-- The `sender_id` of `handleReceivedMessage`: the user id registered for the
socket, `"UnknownClient(<socket>)"` when it has no entry. -/
def senderIdOf (m : ClientMap) (clientSocket : Int) : Bytes :=
  match m.find clientSocket with
  | some session => session.user_id
  | none => lit "UnknownClient(" ++ showInt clientSocket ++ lit ")"

/-- `ChatServer::handleReceivedMessage(clientSocket, received_serialized)`:
the server afterwards and the system calls made; `none` when an operation
without a value is reached. -/
def handleReceivedMessage (s : ChatServer) (send : SendFn) (clientSocket : Int)
    (received_serialized : Bytes) : Option (ChatServer × List SysCall) :=
  let ciphertext := deserialize_ciphertext received_serialized
  if ciphertext.isEmpty then some (s, [])
  else
    (decrypt ciphertext m_server_private_key).bind fun decrypted_message =>
    let sender_id := senderIdOf s.m_clients clientSocket
    if decrypted_message = lit "exit" then some (s, [])
    else if decrypted_message.contains slash then
      let recipient_id := trim (decrypted_message.takeWhile (fun c => c != slash))
      let message_content := (decrypted_message.dropWhile (fun c => c != slash)).tail
      (forwardMessageToClient s send recipient_id sender_id message_content clientSocket).map
        fun r => (s, r.2)
    else some (s, [])

/-! ## server_linux.cpp: worker start, teardown, shutdown -/

/-- `ChatServer::startClientReceiver(clientSocket)`; `created` is the thread id
stored by `pthread_create`, `none` when it fails. -/
def startClientReceiver (s : ChatServer) (created : Option Nat) (clientSocket : Int) :
    Bool × ChatServer × List SysCall :=
  match created with
  | none => (false, s, [.pthread_create clientSocket])
  | some client_thread_id =>
    match s.m_clients.find clientSocket with
    | some session =>
      (true,
       { s with m_clients := (s.m_clients.assign clientSocket
           { session with thread := client_thread_id, connected := true }) },
       [.pthread_create clientSocket])
    | none => (false, s, [.pthread_create clientSocket, .pthread_detach client_thread_id])

/-- `ChatServer::cleanupClient(clientSocket, was_graceful_disconnect)`, called
by the thread `self`. The flag only selects what is logged. -/
def cleanupClient (s : ChatServer) (self : Nat) (clientSocket : Int)
    (_was_graceful_disconnect : Bool) : ChatServer × List SysCall :=
  match s.m_clients.find clientSocket with
  | none => (s, [])
  | some session =>
    ({ s with m_clients := s.m_clients.erase clientSocket },
     (if clientSocket ≠ -1 then [SysCall.shutdown clientSocket, SysCall.close clientSocket] else []) ++
     (if session.thread ≠ 0 then
        (if self ≠ session.thread then [SysCall.pthread_join session.thread]
         else [SysCall.pthread_detach session.thread])
      else []))

/-- The `for (int sock : client_sockets_to_clean)` loop of `cleanupAllClients`. -/
def cleanupEach (s : ChatServer) (self : Nat) : List Int → ChatServer × List SysCall
  | [] => (s, [])
  | sock :: rest =>
    let r := cleanupClient s self sock false
    let r2 := cleanupEach r.1 self rest
    (r2.1, r.2 ++ r2.2)

/-- `ChatServer::cleanupAllClients()`. -/
def cleanupAllClients (s : ChatServer) (self : Nat) : ChatServer × List SysCall :=
  let client_sockets_to_clean := s.m_clients.map (fun client_pair => client_pair.1)
  let r := cleanupEach s self client_sockets_to_clean
  ({ r.1 with m_clients := [] }, r.2)

/-- `ChatServer::stopServer()`. -/
def stopServer (s : ChatServer) (self : Nat) : ChatServer × List SysCall :=
  if !s.m_running then (s, [])
  else
    let s1 := { s with m_running := false }
    let closing := if s1.m_server_socket ≠ -1 then [SysCall.close s1.m_server_socket] else []
    let s2 := { s1 with m_server_socket := -1 }
    let r := cleanupAllClients s2 self
    (r.1, closing ++ r.2)

/-! ## server_linux.cpp: the two loops -/

/-- How one iteration of the `while (server->m_running)` loop of
`clientReceiverThreadFunc` ends: back to `recv`, or out of the loop with the
value of `graceful_disconnect`. -/
inductive LoopStep where
  | again
  | leave (graceful_disconnect : Bool)
deriving DecidableEq, Repr

/-- One iteration of the receive loop of `clientReceiverThreadFunc`, for the
result of its `recv` call. -/
def receiverIteration (s : ChatServer) (send : SendFn) (clientSocket : Int) (recv : RecvResult) :
    Option (ChatServer × List SysCall × LoopStep) :=
  if recv.len > 0 then
    (handleReceivedMessage s send clientSocket recv.text).map fun r => (r.1, r.2, LoopStep.again)
  else if recv.len = 0 then some (s, [], LoopStep.leave true)
  else some (s, [], LoopStep.leave false)

/-- The session `acceptClientsLoop` registers for a new socket. -/
def newSession (new_client_socket : Int) : ClientSession := ⟨new_client_socket, [], 0, [], false⟩

/-- The body of `acceptClientsLoop` once `accept` has returned
`new_client_socket`, run by the thread `self`. -/
def acceptClient (s : ChatServer) (send : SendFn) (recv : RecvResult) (created : Option Nat)
    (self : Nat) (new_client_socket : Int) : ChatServer × List SysCall :=
  if new_client_socket = -1 then (s, [])
  else
    let s0 := { s with m_clients := s.m_clients.assign new_client_socket (newSession new_client_socket) }
    let keys := exchangeKeys s0 send recv new_client_socket
    if keys.1 then
      let started := startClientReceiver keys.2.1 created new_client_socket
      if !started.1 then
        let cleaned := cleanupClient started.2.1 self new_client_socket false
        (cleaned.1, keys.2.2 ++ started.2.2 ++ cleaned.2)
      else (started.2.1, keys.2.2 ++ started.2.2)
    else
      let cleaned := cleanupClient keys.2.1 self new_client_socket false
      (cleaned.1, keys.2.2 ++ cleaned.2)

/-! ## The server as a transition system

The accept loop runs in one thread: it registers a connection, exchanges keys
with it, and starts its receiver or cleans it up, before it accepts the next
one. Receiver threads run beside it and call `cleanupClient` when they end. -/

/-- Where the accept loop stands with the connection it is serving. -/
inductive AcceptStage where
  | idle
  | accepted (new_client_socket : Int)
  | exchanged (new_client_socket : Int)
  | failed (new_client_socket : Int)
deriving DecidableEq, Repr

/-- The server and the position of its accept loop. -/
structure System where
  server : ChatServer
  stage : AcceptStage
deriving DecidableEq, Repr

/-- The steps of the server that write the registry. -/
inductive Step where
  | accept (new_client_socket : Int)
  | exchangeKeys (send : SendFn) (recv : RecvResult)
  | startClientReceiver (created : Option Nat)
  | abandon (self : Nat)
  | cleanupClient (self : Nat) (clientSocket : Int) (was_graceful_disconnect : Bool)

/-- A server that `initialize()` has set running on `listen_socket`, with nobody registered. -/
def System.init (listen_socket : Int) : System := ⟨⟨true, listen_socket, []⟩, .idle⟩

/-- One step. A step the accept loop cannot take where it stands changes nothing. -/
def System.step (σ : System) : Step → System
  | .accept new_client_socket =>
    match σ.stage with
    | .idle =>
      if new_client_socket = -1 then σ
      else
        ⟨{ σ.server with m_clients :=
            σ.server.m_clients.assign new_client_socket (newSession new_client_socket) },
         .accepted new_client_socket⟩
    | _ => σ
  | .exchangeKeys send recv =>
    match σ.stage with
    | .accepted fd =>
      let r := exchangeKeys σ.server send recv fd
      ⟨r.2.1, if r.1 then .exchanged fd else .failed fd⟩
    | _ => σ
  | .startClientReceiver created =>
    match σ.stage with
    | .exchanged fd =>
      let r := startClientReceiver σ.server created fd
      ⟨r.2.1, if r.1 then .idle else .failed fd⟩
    | _ => σ
  | .abandon self =>
    match σ.stage with
    | .failed fd => ⟨(cleanupClient σ.server self fd false).1, .idle⟩
    | _ => σ
  | .cleanupClient self clientSocket was_graceful_disconnect =>
    ⟨(cleanupClient σ.server self clientSocket was_graceful_disconnect).1, σ.stage⟩

/-- The system after a sequence of steps. -/
def System.run (σ : System) (steps : List Step) : System := steps.foldl System.step σ

/-- The properties of the registry that every reachable state has: the keys
are ascending (a `std::map`), `-1` is no key, a connected entry holds a key
pair, and connected entries have different user ids. -/
def RegistryInv (m : ClientMap) : Prop :=
  m.Pairwise (fun a b => a.1 < b.1) ∧
  (∀ a ∈ m, a.1 ≠ -1) ∧
  (∀ a ∈ m, a.2.connected = true → a.2.public_key.length = 2) ∧
  (∀ a ∈ m, ∀ b ∈ m, a.2.connected = true → b.2.connected = true →
    a.2.user_id = b.2.user_id → a.1 = b.1)

instance (m : ClientMap) : Decidable (RegistryInv m) := by
  unfold RegistryInv; infer_instance

/-! ## Notions used to state the properties -/

/-- The values of a `long long`. -/
def IsInt64 (x : Int) : Prop := INT64_MIN ≤ x ∧ x ≤ INT64_MAX

instance (x : Int) : Decidable (IsInt64 x) := by
  unfold IsInt64; infer_instance

/-- What follows a number in a serialised text: nothing, or a byte that is no digit. -/
def NoDigitAhead (rest : Bytes) : Prop := ∀ c t, rest = c :: t → isdigit c = false

/-- The check on an encrypted byte: it lies in `0..298` and the private key
`{d, n}` decrypts it to `b`. -/
def decryptsTo (d n : Int) (b : Byte) (encrypted : Option Int) : Bool :=
  match encrypted with
  | none => false
  | some c => decide (0 ≤ c ∧ c ≤ 298 ∧ modexp c d n = some (b.val : Int))

/-- The check that the client key pair `{7, 299}`, `{151, 299}` of
`client_linux.cpp` inverts on one byte. -/
def clientKeyInverts (b : Byte) : Bool := decryptsTo 151 299 b (modexp (b.val : Int) 7 299)

/-- Keys strictly ascending: the list is a `std::map`. -/
def ClientMap.Ascending (m : ClientMap) : Prop := m.Pairwise (fun a b => a.1 < b.1)

/-- The session `exchangeKeys` leaves under `clientSocket` when it succeeds. -/
def keyedSession (m : ClientMap) (clientSocket : Int) (scan : KeyScan) : ClientSession :=
  { m.at clientSocket with
    public_key := [scan.client_e, scan.client_n], user_id := handshakeUserId scan }

/-- The registry `exchangeKeys` leaves when it succeeds: its two assignments. -/
def keyedClients (m : ClientMap) (clientSocket : Int) (scan : KeyScan) : ClientMap :=
  (m.assign clientSocket
    { m.at clientSocket with public_key := [scan.client_e, scan.client_n] }).assign clientSocket
    (keyedSession m clientSocket scan)

/-- The registry invariant in terms of `find`. -/
def SessionInv (m : ClientMap) : Prop :=
  m.Ascending ∧ m.find (-1) = none ∧
  (∀ k c, m.find k = some c → c.connected = true → c.public_key.length = 2) ∧
  (∀ k1 k2 c1 c2, m.find k1 = some c1 → m.find k2 = some c2 →
    c1.connected = true → c2.connected = true → c1.user_id = c2.user_id → k1 = k2)

/-- What the accept loop knows about the connection it is serving. -/
def StageInv (m : ClientMap) : AcceptStage → Prop
  | .idle => True
  | .accepted fd => fd ≠ -1
  | .exchanged fd => fd ≠ -1 ∧ ∀ c, m.find fd = some c →
      c.public_key.length = 2 ∧
      ∀ k2 c2, k2 ≠ fd → m.find k2 = some c2 → c2.connected = true → c2.user_id ≠ c.user_id
  | .failed _ => True

/-- The invariant of the transition system. -/
def SystemInv (σ : System) : Prop :=
  SessionInv σ.server.m_clients ∧ StageInv σ.server.m_clients σ.stage

/-! ## The sessions of the scenarios -/

/-- A connected session of user `"alice"` on socket 4, with the client key of `client_linux.cpp`. -/
def aliceSession : ClientSession := ⟨4, [7, 299], 1, lit "alice", true⟩

/-- A connected session of user `"bob"` on socket 5. -/
def bobSession : ClientSession := ⟨5, [7, 299], 2, lit "bob", true⟩

/-- A connected session of user `"dave"` on socket 6. -/
def daveSession : ClientSession := ⟨6, [7, 299], 3, lit "dave", true⟩

/-- A running server that listens on socket 3, with alice and bob connected. -/
def twoClients : ChatServer := ⟨true, 3, [(4, aliceSession), (5, bobSession)]⟩

/-- A running server with three connected clients. -/
def threeClients : ChatServer := ⟨true, 3, [(4, aliceSession), (5, bobSession), (6, daveSession)]⟩

/-- A network on which every `send` succeeds. -/
def sendOk : SendFn := fun _ _ => 1

/-- The chat frame of the message `"bob/hello"`, encrypted under the server's public key. -/
def frameBobHello : Bytes := lit "319 42 319 149 168 271 109 109 42"

/-- The chat frame of the message `"carol/hi"`, encrypted under the server's public key. -/
def frameCarolHi : Bytes := lit "131 241 190 42 109 149 168 22"

/-! ## Notions for the handshake, the routing and the key invariant -/

/-- The check on an encrypted byte: the private key `{d, n}` decrypts it to `b`. -/
def invertsTo (d n : Int) (b : Byte) (encrypted : Option Int) : Bool :=
  match encrypted with
  | none => false
  | some c => decide (modexp c d n = some (b.val : Int))

/-- The check that the server key pair `{5, 323}`, `{173, 323}` inverts on one byte. -/
def serverKeyInverts (b : Byte) : Bool := invertsTo 173 323 b (modexp (b.val : Int) 5 323)

/-- The branch of `handleReceivedMessage` a decrypted message takes. -/
inductive MessageKind where
  | exit
  | direct (recipient_id message_content : Bytes)
  | broadcast
deriving DecidableEq, Repr

/-- The tests `handleReceivedMessage` makes on `decrypted_message`, in order:
equality with `"exit"`, then `find('/')` with the split and the trim. -/
def messageKind (decrypted_message : Bytes) : MessageKind :=
  if decrypted_message = lit "exit" then .exit
  else if decrypted_message.contains slash then
    .direct (trim (decrypted_message.takeWhile (fun c => c != slash)))
      ((decrypted_message.dropWhile (fun c => c != slash)).tail)
  else .broadcast

/-- A server where user `"bob"` has exchanged keys on socket 5 but is not connected. -/
def bobPending : ChatServer :=
  ⟨true, 3, [(4, aliceSession), (5, { bobSession with connected := false })]⟩

/-- A network on which every `send` on socket 5 fails and every other `send` succeeds. -/
def sendFailsOn5 : SendFn := fun fd _ => if fd = 5 then -1 else 1

/-- The encryption of `"[DM from alice]: hello"` under the client public key `{7, 299}`. -/
def dmAliceHello : List Int :=
  [91, 68, 12, 280, 106, 114, 84, 112, 280, 293, 225, 170, 5, 257, 24, 85, 280, 39, 257, 225, 225, 84]

/-- The value of a string of decimal digits. -/
def digitsValue (ds : Bytes) : Nat := ds.foldl (fun a c => a * 10 + (c.val - 48)) 0

/-- The text `t` is a decimal integer of value `x`: an optional sign `-` or
`+`, then one or more decimal digits. -/
def IsDecimal (t : Bytes) (x : Int) : Prop :=
  ∃ sg ds, t = sg ++ ds ∧ (sg = [] ∨ sg = [(45 : Byte)] ∨ sg = [(43 : Byte)]) ∧ ds ≠ [] ∧
    (∀ c ∈ ds, isdigit c = true) ∧ x = signedValue (sg == [(45 : Byte)]) (digitsValue ds)

/-- The text starts with two decimal integers: optional white space, a decimal
integer, optional white space, and a second decimal integer that is not a
continuation of the digits of the first. -/
def StartsWithTwoIntegers (text : Bytes) : Prop :=
  ∃ ws0 t1 ws1 t2 rest e n, text = ws0 ++ (t1 ++ (ws1 ++ (t2 ++ rest))) ∧
    (∀ c ∈ ws0, isspace c = true) ∧ (∀ c ∈ ws1, isspace c = true) ∧
    IsDecimal t1 e ∧ IsDecimal t2 n ∧ NoDigitAhead (ws1 ++ (t2 ++ rest))

/-- A running server with alice and bob connected and the placeholder of a new connection on socket 6. -/
def accepted6 : ChatServer :=
  ⟨true, 3, [(4, aliceSession), (5, bobSession), (6, newSession 6)]⟩

/-- The handshake frames accepted so far, newest first: each successful
`exchangeKeys` adds the socket and the text it received. -/
abbrev HandshakeLog := List (Int × Bytes)

/-- The text received in the latest successful handshake on a socket. -/
def HandshakeLog.last : HandshakeLog → Int → Option Bytes
  | [], _ => none
  | (k1, text) :: rest, k => if k1 = k then some text else HandshakeLog.last rest k

/-- The log after one step of the system. -/
def System.stepLog (σ : System) (log : HandshakeLog) : Step → HandshakeLog
  | .exchangeKeys send recv =>
    match σ.stage with
    | .accepted fd =>
      if (exchangeKeys σ.server send recv fd).1 then (fd, recv.text) :: log else log
    | _ => log
  | _ => log

/-- The system and the log of handshakes after a sequence of steps. -/
def System.runLog (σ : System) (log : HandshakeLog) : List Step → System × HandshakeLog
  | [] => (σ, log)
  | st :: rest => System.runLog (σ.step st) (σ.stepLog log st) rest

/-- The exact products `result * base` and `base * base` that the loop of
`modexp` forms, in the order it forms them, before they are stored in a
`long long`; the control flow is that of `modexpLoop`. -/
def modexpLoopProducts : Nat → Int → Int → Int → Int → List Int
  | 0, _, _, _, _ => []
  | fuel + 1, result, base, exp, mod =>
    if exp > 0 then
      (if exp % 2 = 1 then [result * base] else []) ++
      match (if exp % 2 = 1 then cmod (wrap64 (result * base)) mod else some result) with
      | none => []
      | some result =>
        (base * base) ::
        match cmod (wrap64 (base * base)) mod with
        | none => []
        | some base => modexpLoopProducts fuel result base (exp / 2) mod
    else []

/-- The exact products formed by a call `modexp(base, exp, mod)`. -/
def modexpProducts (base exp mod : Int) : List Int :=
  match cmod base mod with
  | none => []
  | some base => modexpLoopProducts exp.toNat 1 base exp mod

/-! ## server_linux.cpp: the receive loop and the accept loop as a whole -/

/-- The `while (server->m_running)` loop of `clientReceiverThreadFunc` over the
results of its successive `recv` calls. The result holds the server, the calls
made, the value of `graceful_disconnect` once the loop is left (`none` while
the thread still waits in `recv`) and the `recv` results never read. -/
def receiverLoop (send : SendFn) (clientSocket : Int) :
    ChatServer → List RecvResult → Option (ChatServer × List SysCall × Option Bool × List RecvResult)
  | s, [] => if !s.m_running then some (s, [], some false, []) else some (s, [], none, [])
  | s, recv :: rest =>
    if !s.m_running then some (s, [], some false, recv :: rest)
    else
      match receiverIteration s send clientSocket recv with
      | none => none
      | some (s1, calls, LoopStep.again) =>
        (receiverLoop send clientSocket s1 rest).map fun r => (r.1, calls ++ r.2.1, r.2.2.1, r.2.2.2)
      | some (s1, calls, LoopStep.leave graceful_disconnect) =>
        some (s1, calls, some graceful_disconnect, rest)

/-- `ChatServer::clientReceiverThreadFunc`, run by the thread `self`: the
receive loop, then `cleanupClient` once the loop is left. The result holds the
server, the calls made, whether the thread has exited, and the `recv` results
never read. -/
def clientReceiverThreadFunc (s : ChatServer) (send : SendFn) (self : Nat) (clientSocket : Int)
    (reads : List RecvResult) : Option (ChatServer × List SysCall × Bool × List RecvResult) :=
  (receiverLoop send clientSocket s reads).map fun r =>
    match r.2.2.1 with
    | none => (r.1, r.2.1, false, r.2.2.2)
    | some graceful_disconnect =>
      let cleaned := cleanupClient r.1 self clientSocket graceful_disconnect
      (cleaned.1, r.2.1 ++ cleaned.2, true, r.2.2.2)

/-- What one pass of the `while (m_running)` loop of `acceptClientsLoop` meets
when `select` returns. -/
inductive SelectResult where
  /-- `stopServer()` has run in the signal handler while `select` waited. -/
  | shutdownRequested
  /-- `activity == 0`: the one second timeout. -/
  | timeout
  /-- `activity < 0` with `errno == EINTR`. -/
  | interrupted
  /-- `activity < 0` with another `errno`. -/
  | failed
  /-- `activity > 0`: `accept` returns `new_client_socket`; the other fields
  are what the handshake and the worker start of that connection meet. -/
  | ready (new_client_socket : Int) (send : SendFn) (recv : RecvResult) (created : Option Nat)

/-- `ChatServer::acceptClientsLoop()`, run by the thread `self`, over the
successive results of `select`. The result holds the server, the calls made and
whether the loop has been left. -/
def acceptClientsLoop (self : Nat) : ChatServer → List SelectResult → ChatServer × List SysCall × Bool
  | s, [] => (s, [], !s.m_running)
  | s, activity :: rest =>
    if !s.m_running then (s, [], true)
    else
      match activity with
      | .shutdownRequested =>
        let stopped := stopServer s self
        (stopped.1, stopped.2, true)
      | .timeout => acceptClientsLoop self s rest
      | .interrupted => acceptClientsLoop self s rest
      | .failed => ({ s with m_running := false }, [], true)
      | .ready new_client_socket send recv created =>
        let r := acceptClient s send recv created self new_client_socket
        let r2 := acceptClientsLoop self r.1 rest
        (r2.1, r.2 ++ r2.2.1, r2.2.2)

/-- `ChatServer::run()`, run by the thread `self`. The result holds the server,
the calls made and whether `run` has returned. -/
def run (s : ChatServer) (self : Nat) (activities : List SelectResult) :
    ChatServer × List SysCall × Bool :=
  if !s.m_running then (s, [], true)
  else
    let r := acceptClientsLoop self s activities
    if !r.2.2 then r
    else if r.1.m_server_socket ≠ -1 then
      let stopped := stopServer r.1 self
      (stopped.1, r.2.1 ++ stopped.2, true)
    else r

/-! ## server_linux.cpp: the mutex around the registry -/

/-- What an operation does to `m_clients` and to `m_clients_mutex`, in program
order: the constructor and the destructor of a `PosixMutexLock`, and a read or
a write of the map. -/
inductive MutexEvent where
  | lock
  | unlock
  | read
  | write
deriving DecidableEq, Repr

/-- The mutex events of `cleanupClient(clientSocket, was_graceful_disconnect)`:
the first locked block finds the entry and, when it is there, marks it and
erases it; the second locked block lists the remaining users when
`user_id_to_clean` has been set. -/
def cleanupClientEvents (s : ChatServer) (clientSocket : Int) (was_graceful_disconnect : Bool) :
    List MutexEvent :=
  match s.m_clients.find clientSocket with
  | none => [.lock, .read, .unlock]
  | some session =>
    [.lock, .read, .write, .write, .unlock] ++
    (if session.connected || !was_graceful_disconnect then [.lock, .read, .unlock] else [])

/-- The mutex events of the `for (int sock : client_sockets_to_clean)` loop. -/
def cleanupEachEvents (self : Nat) : ChatServer → List Int → List MutexEvent
  | _, [] => []
  | s, sock :: rest =>
    cleanupClientEvents s sock false ++ cleanupEachEvents self (cleanupClient s self sock false).1 rest

/-- The mutex events of `cleanupAllClients()`: the locked block that copies the
keys, the calls of `cleanupClient`, and the final `m_clients.clear()`. -/
def cleanupAllClientsEvents (s : ChatServer) (self : Nat) : List MutexEvent :=
  [.lock, .read, .unlock] ++
  cleanupEachEvents self s (s.m_clients.map (fun client_pair => client_pair.1)) ++ [.write]

/-- The mutex events of `stopServer()`. -/
def stopServerEvents (s : ChatServer) (self : Nat) : List MutexEvent :=
  if !s.m_running then []
  else cleanupAllClientsEvents { s with m_running := false, m_server_socket := -1 } self

/-- Whether every read and write of the map in a sequence of events happens
while the mutex is held; `held` tells whether it is held at the start. -/
def allGuarded : Bool → List MutexEvent → Bool
  | _, [] => true
  | _, .lock :: rest => allGuarded true rest
  | _, .unlock :: rest => allGuarded false rest
  | held, .read :: rest => held && allGuarded held rest
  | held, .write :: rest => held && allGuarded held rest

/-! ## Notions for the deserialisation -/

/-- A decimal integer that fits a `long long` can be read at the start of `s`:
optional white space, the decimal text `t` of value `x`, and the unread `rest`,
which does not continue the digits of `t`. -/
def ReadsInteger (s : Bytes) (x : Int) (rest : Bytes) : Prop :=
  ∃ ws t, s = ws ++ (t ++ rest) ∧ (∀ c ∈ ws, isspace c = true) ∧ IsDecimal t x ∧
    NoDigitAhead rest ∧ IsInt64 x

/-- The integers read from the start of `s` up to the first position where no
integer can be read. -/
inductive ReadsIntegers : Bytes → List Int → Prop where
  | stop (s : Bytes) : (∀ x rest, ¬ ReadsInteger s x rest) → ReadsIntegers s []
  | read (s : Bytes) (x : Int) (rest : Bytes) (xs : List Int) :
    ReadsInteger s x rest → ReadsIntegers rest xs → ReadsIntegers s (x :: xs)

/-- The frames handed to `handleReceivedMessage` one after the other. -/
def handleEach (send : SendFn) (clientSocket : Int) :
    ChatServer → List Bytes → Option (ChatServer × List SysCall)
  | s, [] => some (s, [])
  | s, frame :: rest =>
    (handleReceivedMessage s send clientSocket frame).bind fun r =>
      (handleEach send clientSocket r.1 rest).map fun r2 => (r2.1, r.2 ++ r2.2)

/-- The frame of the direct message `bob/hello` followed by a token that is not a number. -/
def frameBobHelloThenText : Bytes := lit "319 42 319 149 168 271 109 109 42 ab"

/-! ## Notions for the revised handshake and routing claims -/

/-- The text starts with the decimal integers `e` and `n`, separated by white
space (white space may also come first); `rest` is what follows the digits of
`n`. -/
def StartsWithKey (text : Bytes) (e n : Int) (rest : Bytes) : Prop :=
  ∃ ws0 te ws1 tn, text = ws0 ++ (te ++ (ws1 ++ (tn ++ rest))) ∧
    (∀ c ∈ ws0, isspace c = true) ∧ (∀ c ∈ ws1, isspace c = true) ∧ ws1 ≠ [] ∧
    IsDecimal te e ∧ IsDecimal tn n ∧ NoDigitAhead rest

/-- The next white-space delimited token of a text: leading white space is
skipped, the token runs up to the next white space. -/
def nextToken (rest : Bytes) : Bytes :=
  (rest.dropWhile isspace).takeWhile (fun b => !isspace b)

/-- The byte is one of space, tab, carriage return and line feed. -/
def IsBlank (c : Byte) : Prop := c = 32 ∨ c = 9 ∨ c = 13 ∨ c = 10

/-- A running server with alice connected and, on socket 5, bob between the
`pthread_create` of `startClientReceiver` and the assignment of `connected`:
his handshake is recorded and his worker runs, the flag is still `false`. -/
def bobStarting : ChatServer :=
  ⟨true, 3, [(4, aliceSession), (5, ⟨5, [7, 299], 0, lit "bob", false⟩)]⟩

/-- A network on which every `send` on socket 4 fails and every other `send` succeeds. -/
def sendFailsOn4 : SendFn := fun fd _ => if fd = 4 then -1 else 1

/-- The frame of the direct message `alice/hi`. -/
def frameAliceHi : Bytes := lit "241 109 22 131 271 149 168 22"

/-- The frame of the direct message `bob/hello` with a vertical tab in front. -/
def frameVtBobHello : Bytes := lit "197 319 42 319 149 168 271 109 109 42"

/-- The encryption of `"[DM from bob]: hi"` under the client public key `{7, 299}`. -/
def dmBobHi : List Int :=
  [91, 68, 12, 280, 106, 114, 84, 112, 280, 279, 84, 279, 24, 85, 280, 39, 170]

/-- The encryption under `{7, 299}` of the error text for the recipient id
made of a vertical tab and `bob`. -/
def errVtBobAbsent : List Int :=
  [69, 114, 114, 84, 114, 85, 280, 110, 184, 257, 114, 280, 156, 145, 279, 84, 279, 156, 280, 98,
   84, 116, 280, 106, 84, 13, 98, 35, 280, 84, 114, 280, 98, 84, 116, 280, 5, 84, 98, 98, 257, 5,
   116, 257, 35, 253]

end RsaChat

namespace IpClass

/-! ## ip_class/ipClass.c -/

/-- `determineClassByDecimal(firstOctet)`. -/
def determineClassByDecimal (firstOctet : Int) : Char :=
  if firstOctet ≥ 1 ∧ firstOctet ≤ 126 then 'A'
  else if firstOctet ≥ 128 ∧ firstOctet ≤ 191 then 'B'
  else if firstOctet ≥ 192 ∧ firstOctet ≤ 223 then 'C'
  else if firstOctet ≥ 224 ∧ firstOctet ≤ 239 then 'D'
  else if firstOctet ≥ 240 ∧ firstOctet ≤ 255 then 'E'
  else 'X'

/-- `determineClassByBitwise(firstOctet)`. -/
def determineClassByBitwise (firstOctet : Int) : Char :=
  if Int.land firstOctet 0x80 = 0 then 'A'
  else if Int.land firstOctet 0xC0 = 0x80 then 'B'
  else if Int.land firstOctet 0xE0 = 0xC0 then 'C'
  else if Int.land firstOctet 0xF0 = 0xE0 then 'D'
  else if Int.land firstOctet 0xF8 = 0xF0 then 'E'
  else 'X'

end IpClass

namespace RsaChat

/-! # Lemmas

## Decimal text -/

theorem digitChar_val (m : Nat) (h : m < 10) : (digitChar m).val = 48 + m := by
  unfold digitChar
  simp [Fin.ofNat]
  omega

theorem isdigit_digitChar (m : Nat) (h : m < 10) : isdigit (digitChar m) = true := by
  simp [isdigit, digitChar_val m h]
  omega

theorem isspace_of_isdigit (c : Byte) (h : isdigit c = true) : isspace c = false := by
  simp [isdigit, isspace] at *
  omega

theorem readDigits_natToDecAux (rest : Bytes) (fuel : Nat) :
    ∀ (n : Nat) (acc : Bytes), n < fuel →
      ∃ k : Nat, ∀ a : Nat,
        readDigits (natToDecAux fuel n acc ++ rest) a = readDigits (acc ++ rest) (a * 10 ^ k + n) := by
  induction fuel with
  | zero => intro n acc h; omega
  | succ fuel ih =>
    intro n acc h
    unfold natToDecAux
    have hd : n % 10 < 10 := Nat.mod_lt _ (by decide)
    by_cases h0 : n / 10 = 0
    · refine ⟨1, fun a => ?_⟩
      simp only [h0, if_true, List.cons_append]
      rw [readDigits]
      simp only [isdigit_digitChar _ hd, if_true, digitChar_val _ hd]
      congr 1
      omega
    · simp only [h0, if_false]
      obtain ⟨k, hk⟩ := ih (n / 10) (digitChar (n % 10) :: acc) (by omega)
      refine ⟨k + 1, fun a => ?_⟩
      rw [hk a, List.cons_append, readDigits]
      simp only [isdigit_digitChar _ hd, if_true, digitChar_val _ hd]
      congr 1
      have := Nat.div_add_mod n 10
      rw [pow_succ]
      have e : 48 + n % 10 - 48 = n % 10 := by omega
      rw [e]
      nlinarith [Nat.div_add_mod n 10]

/-- A decimal representation starts with a digit. -/
theorem natToDecAux_head (fuel : Nat) :
    ∀ (n : Nat) (acc : Bytes), ∃ d t, natToDecAux (fuel + 1) n acc = d :: t ∧ isdigit d = true := by
  induction fuel with
  | zero =>
    intro n acc
    have hd : n % 10 < 10 := Nat.mod_lt _ (by decide)
    unfold natToDecAux
    by_cases h0 : n / 10 = 0
    · exact ⟨digitChar (n % 10), acc, by rw [if_pos h0], isdigit_digitChar _ hd⟩
    · refine ⟨digitChar (n % 10), acc, ?_, isdigit_digitChar _ hd⟩
      rw [if_neg h0, natToDecAux]
  | succ fuel ih =>
    intro n acc
    have hd : n % 10 < 10 := Nat.mod_lt _ (by decide)
    unfold natToDecAux
    by_cases h0 : n / 10 = 0
    · exact ⟨digitChar (n % 10), acc, by rw [if_pos h0], isdigit_digitChar _ hd⟩
    · rw [if_neg h0]
      exact ih _ _

theorem natToDec_head (n : Nat) : ∃ d t, natToDec n = d :: t ∧ isdigit d = true :=
  natToDecAux_head n n []

theorem readDigits_stop (rest : Bytes) (h : NoDigitAhead rest) (a : Nat) :
    readDigits rest a = (a, rest) := by
  cases rest with
  | nil => rfl
  | cons c t => simp [readDigits, h c t rfl]

theorem readDigits_natToDec (n : Nat) (rest : Bytes) (h : NoDigitAhead rest) :
    readDigits (natToDec n ++ rest) 0 = (n, rest) := by
  obtain ⟨k, hk⟩ := readDigits_natToDecAux rest (n + 1) n [] (by omega)
  unfold natToDec
  rw [hk 0]
  simpa using readDigits_stop rest h n

theorem scanInt_natToDec (n : Nat) (rest : Bytes) (h : NoDigitAhead rest) :
    scanInt (natToDec n ++ rest) = some (false, n, rest) := by
  obtain ⟨d, t, hdt, hd⟩ := natToDec_head n
  have h45 : d ≠ 45 := by rintro rfl; exact absurd hd (by decide)
  have h43 : d ≠ 43 := by rintro rfl; exact absurd hd (by decide)
  have hr := readDigits_natToDec n rest h
  unfold scanInt
  rw [hdt] at hr ⊢
  simp only [List.cons_append] at hr ⊢
  simp [h45, h43, hd, hr]

theorem scanInt_neg_natToDec (n : Nat) (rest : Bytes) (h : NoDigitAhead rest) :
    scanInt ((45 : Byte) :: natToDec n ++ rest) = some (true, n, rest) := by
  obtain ⟨d, t, hdt, hd⟩ := natToDec_head n
  have hr := readDigits_natToDec n rest h
  unfold scanInt
  rw [hdt] at hr ⊢
  simp only [List.cons_append] at hr ⊢
  simp [hd, hr]

theorem showInt_head (x : Int) : ∃ d t, showInt x = d :: t ∧ isspace d = false := by
  unfold showInt
  by_cases hx : x < 0
  · exact ⟨45, natToDec (-x).toNat, by simp [hx], by decide⟩
  · obtain ⟨d, t, hdt, hd⟩ := natToDec_head x.toNat
    exact ⟨d, t, by simp [hx, hdt], isspace_of_isdigit d hd⟩

theorem scanInt_showInt (x : Int) (rest : Bytes) (h : NoDigitAhead rest) :
    ∃ neg v, scanInt (showInt x ++ rest) = some (neg, v, rest) ∧ signedValue neg v = x := by
  unfold showInt
  by_cases hx : x < 0
  · refine ⟨true, (-x).toNat, ?_, ?_⟩
    · simp only [hx, if_true]
      exact scanInt_neg_natToDec _ rest h
    · simp [signedValue]; omega
  · refine ⟨false, x.toNat, ?_, ?_⟩
    · simp only [hx, if_false]
      exact scanInt_natToDec _ rest h
    · simp [signedValue]; omega

theorem dropWhile_isspace_append (ws s : Bytes) (hws : ∀ c ∈ ws, isspace c = true) :
    (ws ++ s).dropWhile isspace = s.dropWhile isspace := by
  induction ws with
  | nil => rfl
  | cons c t ih =>
    have hc := hws c (List.mem_cons_self _ _)
    simp only [List.cons_append, List.dropWhile_cons, hc, if_true]
    exact ih (fun c hc => hws c (List.mem_cons_of_mem _ hc))

theorem extractInt_showInt (x : Int) (hx : IsInt64 x) (ws rest : Bytes)
    (hws : ∀ c ∈ ws, isspace c = true) (h : NoDigitAhead rest) :
    extractInt (ws ++ (showInt x ++ rest)) = some (x, rest) := by
  obtain ⟨d, t, hdt, hd⟩ := showInt_head x
  obtain ⟨neg, v, hscan, hval⟩ := scanInt_showInt x rest h
  have hdrop : (ws ++ (showInt x ++ rest)).dropWhile isspace = showInt x ++ rest := by
    rw [dropWhile_isspace_append ws _ hws, hdt]
    simp [List.dropWhile_cons, hd]
  unfold extractInt
  rw [hdrop, hscan]
  simp only [hval]
  exact if_pos hx


theorem deserializeLoop_nil (fuel : Nat) : deserializeLoop fuel [] = [] := by
  cases fuel <;> rfl

theorem noDigitAhead_nil : NoDigitAhead [] := by
  intro c t h; cases h

theorem noDigitAhead_space (t : Bytes) : NoDigitAhead ((32 : Byte) :: t) := by
  intro c t2 h
  cases h
  decide

theorem showInt_length_pos (x : Int) : 0 < (showInt x).length := by
  obtain ⟨d, t, hdt, _⟩ := showInt_head x
  simp [hdt]

theorem length_le_serialize (v : List Int) : v.length ≤ (serialize_ciphertext v).length := by
  induction v with
  | nil => simp
  | cons x t ih =>
    cases t with
    | nil =>
      have := showInt_length_pos x
      simpa [serialize_ciphertext] using this
    | cons y rest =>
      have := showInt_length_pos x
      simp only [serialize_ciphertext, List.length_append, List.length_cons] at ih ⊢
      omega

theorem deserializeLoop_serialize (v : List Int) :
    (∀ x ∈ v, IsInt64 x) → ∀ (fuel : Nat), v.length ≤ fuel →
      ∀ ws : Bytes, (∀ c ∈ ws, isspace c = true) →
        deserializeLoop fuel (ws ++ serialize_ciphertext v) = v := by
  induction v with
  | nil =>
    intro _ fuel _ ws hws
    cases fuel with
    | zero => rfl
    | succ fuel =>
      have hdrop : (ws ++ ([] : Bytes)).dropWhile isspace = [] := by
        rw [dropWhile_isspace_append ws _ hws]; rfl
      have he : extractInt (ws ++ ([] : Bytes)) = none := by
        unfold extractInt
        rw [hdrop]
        rfl
      simp only [serialize_ciphertext, deserializeLoop, he]
  | cons x t ih =>
    intro hv fuel hfuel ws hws
    cases fuel with
    | zero => simp at hfuel
    | succ fuel =>
      have hx : IsInt64 x := hv x (List.mem_cons_self _ _)
      have ht : ∀ y ∈ t, IsInt64 y := fun y hy => hv y (List.mem_cons_of_mem _ hy)
      cases t with
      | nil =>
        have he := extractInt_showInt x hx ws [] hws noDigitAhead_nil
        simp only [List.append_nil] at he
        simp only [serialize_ciphertext, deserializeLoop, he, deserializeLoop_nil]
      | cons y rest =>
        have he := extractInt_showInt x hx ws ((32 : Byte) :: serialize_ciphertext (y :: rest)) hws
          (noDigitAhead_space _)
        have hrec := ih ht fuel (by simpa using hfuel) [32] (by intro c hc; simp at hc; subst hc; decide)
        simp only [serialize_ciphertext, deserializeLoop, he]
        simp only [List.singleton_append] at hrec
        rw [hrec]

theorem deserialize_serialize (v : List Int) (hv : ∀ x ∈ v, IsInt64 x) :
    deserialize_ciphertext (serialize_ciphertext v) = v := by
  cases v with
  | nil => rfl
  | cons x t =>
    have hlen := length_le_serialize (x :: t)
    have hne : (serialize_ciphertext (x :: t)).isEmpty = false := by
      cases h : serialize_ciphertext (x :: t) with
      | nil => rw [h] at hlen; simp at hlen
      | cons _ _ => rfl
    unfold deserialize_ciphertext
    rw [hne]
    have := deserializeLoop_serialize (x :: t) hv _ hlen [] (by simp)
    simpa using this


/-! ## The client key pair -/

set_option maxRecDepth 100000 in
theorem clientKeyInverts_all : ∀ b : Byte, clientKeyInverts b = true := by
  decide

theorem decryptedChar_byte (b : Byte) : decryptedChar (b.val : Int) = b := by
  unfold decryptedChar
  have h := b.isLt
  rw [if_neg (by omega)]
  apply Fin.ext
  simp [Fin.ofNat]

theorem decryptsTo_spec (d n : Int) (b : Byte) (encrypted : Option Int)
    (h : decryptsTo d n b encrypted = true) :
    ∃ c, encrypted = some c ∧ IsInt64 c ∧ modexp c d n = some (b.val : Int) := by
  cases encrypted with
  | none => cases h
  | some c =>
    have h2 : 0 ≤ c ∧ c ≤ 298 ∧ modexp c d n = some (b.val : Int) := of_decide_eq_true h
    refine ⟨c, rfl, ⟨?_, ?_⟩, h2.2.2⟩
    · unfold INT64_MIN; omega
    · unfold INT64_MAX; omega

theorem modexp_client (b : Byte) :
    ∃ c, modexp (b.val : Int) 7 299 = some c ∧ IsInt64 c ∧ modexp c 151 299 = some (b.val : Int) :=
  decryptsTo_spec 151 299 b _ (clientKeyInverts_all b)

theorem encrypt_pair (msg : Bytes) (e n : Int) (t : List Int) :
    encrypt msg (e :: n :: t) = encryptLoop e n msg := rfl

theorem decrypt_pair (cipher : List Int) (d n : Int) (t : List Int) :
    decrypt cipher (d :: n :: t) = decryptLoop d n cipher := rfl

/-- Encryption under the client public key followed by decryption under the
client private key gives the message back; the encrypted values are small. -/
theorem encrypt_decrypt_client (msg : Bytes) :
    ∃ ct, encrypt msg [7, 299] = some ct ∧ (∀ x ∈ ct, IsInt64 x) ∧
      decrypt ct [151, 299] = some msg := by
  induction msg with
  | nil => exact ⟨[], rfl, by simp, rfl⟩
  | cons b rest ih =>
    obtain ⟨ct, henc, hrange, hdec⟩ := ih
    obtain ⟨c, hc, hcr, hcd⟩ := modexp_client b
    refine ⟨c :: ct, ?_, ?_, ?_⟩
    · rw [encrypt_pair] at henc ⊢
      simp only [encryptLoop, hc, henc, Option.some_bind]
    · intro x hx
      rcases List.mem_cons.mp hx with hx | hx
      · subst hx; exact hcr
      · exact hrange x hx
    · rw [decrypt_pair] at hdec ⊢
      simp only [decryptLoop, hcd, hdec, Option.some_bind, decryptedChar_byte]


/-! ## The registry as a map -/

theorem ClientMap.find_mem (m : ClientMap) (k : Int) (v : ClientSession) :
    m.find k = some v → (k, v) ∈ m := by
  induction m with
  | nil => intro h; cases h
  | cons p rest ih =>
    obtain ⟨k1, v1⟩ := p
    intro h
    unfold ClientMap.find at h
    by_cases hk : k1 = k
    · rw [if_pos hk] at h
      cases h
      subst hk
      exact List.mem_cons_self _ _
    · rw [if_neg hk] at h
      exact List.mem_cons_of_mem _ (ih h)

theorem ClientMap.find_of_mem (m : ClientMap) (hm : m.Ascending) (k : Int) (v : ClientSession) :
    (k, v) ∈ m → m.find k = some v := by
  induction m with
  | nil => intro h; cases h
  | cons p rest ih =>
    obtain ⟨k1, v1⟩ := p
    intro h
    have hm2 := List.pairwise_cons.mp hm
    unfold ClientMap.find
    rcases List.mem_cons.mp h with h1 | h1
    · cases h1
      rw [if_pos rfl]
    · have hlt : k1 < k := hm2.1 (k, v) h1
      rw [if_neg (by omega)]
      exact ih hm2.2 h1

theorem ClientMap.find_isSome_of_mem (m : ClientMap) (p : Int × ClientSession) :
    p ∈ m → (m.find p.1).isSome = true := by
  induction m with
  | nil => intro h; cases h
  | cons q rest ih =>
    obtain ⟨k1, v1⟩ := q
    intro h
    unfold ClientMap.find
    by_cases hk : k1 = p.1
    · rw [if_pos hk]; rfl
    · rw [if_neg hk]
      rcases List.mem_cons.mp h with h1 | h1
      · subst h1; exact absurd rfl hk
      · exact ih h1

theorem ClientMap.find_assign (m : ClientMap) (k : Int) (v : ClientSession) (k2 : Int) :
    (m.assign k v).find k2 = if k2 = k then some v else m.find k2 := by
  induction m with
  | nil =>
    simp only [ClientMap.assign, ClientMap.find]
    by_cases h : k2 = k
    · subst h; simp
    · rw [if_neg h, if_neg (Ne.symm h)]
  | cons p rest ih =>
    obtain ⟨k1, v1⟩ := p
    unfold ClientMap.assign
    by_cases h1 : k1 = k
    · subst h1
      rw [if_pos rfl]
      simp only [ClientMap.find]
      by_cases h : k2 = k1
      · subst h; simp
      · rw [if_neg h, if_neg (Ne.symm h), if_neg (Ne.symm h)]
    · rw [if_neg h1]
      by_cases h2 : k < k1
      · rw [if_pos h2]
        by_cases h : k2 = k
        · subst h; simp [ClientMap.find]
        · rw [if_neg h]
          conv_lhs => rw [ClientMap.find]
          rw [if_neg (Ne.symm h)]
      · rw [if_neg h2]
        conv_lhs => rw [ClientMap.find]
        rw [ih]
        by_cases h : k2 = k
        · subst h
          rw [if_neg h1, if_pos rfl, if_pos rfl]
        · rw [if_neg h, if_neg h]
          rw [ClientMap.find]

theorem ClientMap.find_erase (m : ClientMap) (k k2 : Int) :
    (m.erase k).find k2 = if k2 = k then none else m.find k2 := by
  induction m with
  | nil => simp [ClientMap.erase, ClientMap.find]
  | cons p rest ih =>
    obtain ⟨k1, v1⟩ := p
    unfold ClientMap.erase at ih ⊢
    by_cases h1 : k1 = k
    · subst h1
      simp only [List.filter_cons, bne_self_eq_false, Bool.false_eq_true, if_false]
      rw [ih]
      by_cases h : k2 = k1
      · rw [if_pos h, if_pos h]
      · rw [if_neg h, if_neg h, ClientMap.find, if_neg (Ne.symm h)]
    · have hb : ((k1, v1).1 != k) = true := by simpa using h1
      simp only [List.filter_cons, hb, if_true]
      rw [ClientMap.find, ih]
      by_cases h : k2 = k
      · subst h
        rw [if_neg h1, if_pos rfl, if_pos rfl]
      · rw [if_neg h, if_neg h, ClientMap.find]

theorem ClientMap.erase_assign (m : ClientMap) (k : Int) (v : ClientSession) :
    (m.assign k v).erase k = m.erase k := by
  induction m with
  | nil => simp [ClientMap.assign, ClientMap.erase]
  | cons p rest ih =>
    obtain ⟨k1, v1⟩ := p
    unfold ClientMap.assign
    by_cases h1 : k1 = k
    · subst h1
      simp [ClientMap.erase, List.filter_cons]
    · rw [if_neg h1]
      by_cases h2 : k < k1
      · rw [if_pos h2]
        simp [ClientMap.erase, List.filter_cons]
      · rw [if_neg h2]
        unfold ClientMap.erase at ih ⊢
        simp only [List.filter_cons]
        rw [ih]

theorem ClientMap.erase_of_find_none (m : ClientMap) (k : Int) :
    m.find k = none → m.erase k = m := by
  induction m with
  | nil => intro _; rfl
  | cons p rest ih =>
    obtain ⟨k1, v1⟩ := p
    intro h
    unfold ClientMap.find at h
    by_cases h1 : k1 = k
    · rw [if_pos h1] at h; cases h
    · rw [if_neg h1] at h
      have hb : ((k1, v1).1 != k) = true := by simpa using h1
      unfold ClientMap.erase at ih ⊢
      simp only [List.filter_cons, hb, if_true]
      rw [ih h]

theorem ClientMap.mem_erase (m : ClientMap) (k : Int) (p : Int × ClientSession) :
    p ∈ m.erase k ↔ p ∈ m ∧ p.1 ≠ k := by
  simp [ClientMap.erase, List.mem_filter]

theorem ClientMap.ascending_erase (m : ClientMap) (k : Int) (hm : m.Ascending) :
    (m.erase k).Ascending :=
  List.Pairwise.sublist (List.filter_sublist _) hm

theorem ClientMap.mem_assign (m : ClientMap) (k : Int) (v : ClientSession)
    (p : Int × ClientSession) : p ∈ m.assign k v → p = (k, v) ∨ (p ∈ m ∧ p.1 ≠ k) ∨ (p ∈ m ∧ ¬ m.Ascending) := by
  induction m with
  | nil => intro h; left; simpa [ClientMap.assign] using h
  | cons q rest ih =>
    obtain ⟨k1, v1⟩ := q
    unfold ClientMap.assign
    by_cases h1 : k1 = k
    · subst h1
      rw [if_pos rfl]
      intro h
      rcases List.mem_cons.mp h with h | h
      · left; exact h
      · by_cases hasc : ClientMap.Ascending ((k1, v1) :: rest)
        · right; left
          have hlt := (List.pairwise_cons.mp hasc).1 p h
          exact ⟨List.mem_cons_of_mem _ h, by simp at hlt; omega⟩
        · right; right
          exact ⟨List.mem_cons_of_mem _ h, hasc⟩
    · rw [if_neg h1]
      by_cases h2 : k < k1
      · rw [if_pos h2]
        intro h
        rcases List.mem_cons.mp h with h | h
        · left; exact h
        · by_cases hasc : ClientMap.Ascending ((k1, v1) :: rest)
          · right; left
            refine ⟨h, ?_⟩
            rcases List.mem_cons.mp h with h | h
            · subst h; exact h1
            · have hlt := (List.pairwise_cons.mp hasc).1 p h
              simp at hlt; omega
          · right; right; exact ⟨h, hasc⟩
      · rw [if_neg h2]
        intro h
        rcases List.mem_cons.mp h with h | h
        · right; left; subst h; exact ⟨List.mem_cons_self _ _, h1⟩
        · rcases ih h with h | ⟨h, hk⟩ | ⟨h, hk⟩
          · left; exact h
          · right; left; exact ⟨List.mem_cons_of_mem _ h, hk⟩
          · right; right
            exact ⟨List.mem_cons_of_mem _ h, fun hasc => hk (List.pairwise_cons.mp hasc).2⟩

theorem ClientMap.ascending_assign (m : ClientMap) (k : Int) (v : ClientSession) (hm : m.Ascending) :
    (m.assign k v).Ascending := by
  induction m with
  | nil => simp [ClientMap.assign, ClientMap.Ascending]
  | cons q rest ih =>
    obtain ⟨k1, v1⟩ := q
    have hm2 := List.pairwise_cons.mp hm
    unfold ClientMap.assign
    by_cases h1 : k1 = k
    · subst h1
      rw [if_pos rfl]
      exact List.pairwise_cons.mpr ⟨hm2.1, hm2.2⟩
    · rw [if_neg h1]
      by_cases h2 : k < k1
      · rw [if_pos h2]
        refine List.pairwise_cons.mpr ⟨?_, hm⟩
        intro p hp
        rcases List.mem_cons.mp hp with hp | hp
        · subst hp; exact h2
        · have := hm2.1 p hp
          simp only at this ⊢
          omega
      · rw [if_neg h2]
        refine List.pairwise_cons.mpr ⟨?_, ih hm2.2⟩
        intro p hp
        rcases ClientMap.mem_assign rest k v p hp with hp | ⟨hp, _⟩ | ⟨hp, _⟩
        · subst hp; simp only; omega
        · exact hm2.1 p hp
        · exact hm2.1 p hp


/-! ## Handshake, worker start and teardown on the registry -/

theorem userConnected_eq_false (m : ClientMap) (u : Bytes) :
    userConnected m u = false ↔ ∀ p ∈ m, ¬ (p.2.connected = true ∧ p.2.user_id = u) := by
  unfold userConnected
  rw [← Bool.not_eq_true, List.any_eq_true]
  constructor
  · intro h p hp hc
    exact h ⟨p, hp, by simp [hc.1, hc.2]⟩
  · rintro h ⟨p, hp, hc⟩
    simp only [Bool.and_eq_true, beq_iff_eq] at hc
    exact h p hp hc

theorem userConnected_eq_true (m : ClientMap) (u : Bytes) :
    userConnected m u = true ↔ ∃ p ∈ m, p.2.connected = true ∧ p.2.user_id = u := by
  unfold userConnected
  rw [List.any_eq_true]
  constructor
  · rintro ⟨p, hp, hc⟩
    simp only [Bool.and_eq_true, beq_iff_eq] at hc
    exact ⟨p, hp, hc⟩
  · rintro ⟨p, hp, hc⟩
    exact ⟨p, hp, by simp [hc.1, hc.2]⟩

theorem exchangeKeys_false (s : ChatServer) (send : SendFn) (recv : RecvResult) (fd : Int) :
    (exchangeKeys s send recv fd).1 = false → (exchangeKeys s send recv fd).2.1 = s := by
  unfold exchangeKeys
  dsimp only
  intro h
  split_ifs at h ⊢ <;> rfl

theorem exchangeKeys_true (s : ChatServer) (send : SendFn) (recv : RecvResult) (fd : Int) :
    (exchangeKeys s send recv fd).1 = true →
      userConnected s.m_clients (handshakeUserId (sscanfKey recv.text)) = false ∧
      (exchangeKeys s send recv fd).2.1 =
        { s with m_clients := keyedClients s.m_clients fd (sscanfKey recv.text) } := by
  unfold exchangeKeys
  dsimp only
  intro h
  split_ifs at h ⊢ with h1 h2 h3 h4
  refine ⟨by simpa using h4, ?_⟩
  simp only [keyedClients, keyedSession, ClientMap.at, ClientMap.find_assign, if_true,
    Option.getD_some]

theorem exchangeKeys_find (s : ChatServer) (send : SendFn) (recv : RecvResult) (fd : Int)
    (h : (exchangeKeys s send recv fd).1 = true) (k : Int) :
    (exchangeKeys s send recv fd).2.1.m_clients.find k =
      if k = fd then some (keyedSession s.m_clients fd (sscanfKey recv.text))
      else s.m_clients.find k := by
  rw [(exchangeKeys_true s send recv fd h).2]
  simp only [keyedClients, ClientMap.find_assign]
  by_cases hk : k = fd
  · rw [if_pos hk, if_pos hk]
  · rw [if_neg hk, if_neg hk, if_neg hk]

theorem exchangeKeys_ascending (s : ChatServer) (send : SendFn) (recv : RecvResult) (fd : Int)
    (hm : s.m_clients.Ascending) : (exchangeKeys s send recv fd).2.1.m_clients.Ascending := by
  cases h : (exchangeKeys s send recv fd).1 with
  | false => rw [exchangeKeys_false s send recv fd h]; exact hm
  | true =>
    rw [(exchangeKeys_true s send recv fd h).2]
    unfold keyedClients
    exact ClientMap.ascending_assign _ _ _ (ClientMap.ascending_assign _ _ _ hm)

theorem startClientReceiver_false (s : ChatServer) (created : Option Nat) (fd : Int) :
    (startClientReceiver s created fd).1 = false → (startClientReceiver s created fd).2.1 = s := by
  unfold startClientReceiver
  intro h
  cases created with
  | none => rfl
  | some t =>
    cases hf : s.m_clients.find fd with
    | none => simp [hf]
    | some c => simp [hf] at h

theorem startClientReceiver_true (s : ChatServer) (created : Option Nat) (fd : Int) :
    (startClientReceiver s created fd).1 = true →
      ∃ t c, s.m_clients.find fd = some c ∧
        (startClientReceiver s created fd).2.1 =
          { s with m_clients := s.m_clients.assign fd { c with thread := t, connected := true } } := by
  unfold startClientReceiver
  intro h
  cases created with
  | none => simp at h
  | some t =>
    cases hf : s.m_clients.find fd with
    | none => simp [hf] at h
    | some c => exact ⟨t, c, rfl, by simp⟩

theorem cleanupClient_clients (s : ChatServer) (self : Nat) (fd : Int) (g : Bool) :
    (cleanupClient s self fd g).1 = { s with m_clients := s.m_clients.erase fd } := by
  unfold cleanupClient
  cases hf : s.m_clients.find fd with
  | none => simp [ClientMap.erase_of_find_none _ _ hf]
  | some c => rfl


/-! ## Invariants of the reachable states -/

theorem registryInv_of_sessionInv (m : ClientMap) (h : SessionInv m) : RegistryInv m := by
  obtain ⟨hasc, hneg, hkey, huniq⟩ := h
  refine ⟨hasc, ?_, ?_, ?_⟩
  · intro a ha hk
    have := ClientMap.find_of_mem m hasc a.1 a.2 ha
    rw [hk, hneg] at this
    cases this
  · intro a ha hc
    exact hkey a.1 a.2 (ClientMap.find_of_mem m hasc a.1 a.2 ha) hc
  · intro a ha b hb hca hcb hu
    exact huniq a.1 b.1 a.2 b.2 (ClientMap.find_of_mem m hasc a.1 a.2 ha)
      (ClientMap.find_of_mem m hasc b.1 b.2 hb) hca hcb hu

theorem sessionInv_erase (m : ClientMap) (k : Int) (h : SessionInv m) : SessionInv (m.erase k) := by
  obtain ⟨hasc, hneg, hkey, huniq⟩ := h
  refine ⟨ClientMap.ascending_erase m k hasc, ?_, ?_, ?_⟩
  · rw [ClientMap.find_erase]; split_ifs <;> simp [hneg]
  · intro k1 c h1
    rw [ClientMap.find_erase] at h1
    split_ifs at h1
    exact hkey k1 c h1
  · intro k1 k2 c1 c2 h1 h2
    rw [ClientMap.find_erase] at h1 h2
    split_ifs at h1 h2
    exact huniq k1 k2 c1 c2 h1 h2

theorem stageInv_erase (m : ClientMap) (k : Int) (stage : AcceptStage) (h : StageInv m stage) :
    StageInv (m.erase k) stage := by
  cases stage with
  | idle => trivial
  | accepted fd => exact h
  | failed fd => trivial
  | exchanged fd =>
    refine ⟨h.1, ?_⟩
    intro c hc
    rw [ClientMap.find_erase] at hc
    split_ifs at hc
    obtain ⟨hlen, hother⟩ := h.2 c hc
    refine ⟨hlen, ?_⟩
    intro k2 c2 hk2 h2
    rw [ClientMap.find_erase] at h2
    split_ifs at h2
    exact hother k2 c2 hk2 h2

theorem sessionInv_accept (m : ClientMap) (fd : Int) (hfd : fd ≠ -1) (h : SessionInv m) :
    SessionInv (m.assign fd (newSession fd)) := by
  obtain ⟨hasc, hneg, hkey, huniq⟩ := h
  refine ⟨ClientMap.ascending_assign m fd _ hasc, ?_, ?_, ?_⟩
  · rw [ClientMap.find_assign, if_neg (Ne.symm hfd)]; exact hneg
  · intro k c h1 hc
    rw [ClientMap.find_assign] at h1
    split_ifs at h1
    · cases h1; cases hc
    · exact hkey k c h1 hc
  · intro k1 k2 c1 c2 h1 h2 hc1 hc2
    rw [ClientMap.find_assign] at h1 h2
    split_ifs at h1 h2
    · cases h1; cases hc1
    · cases h1; cases hc1
    · cases h2; cases hc2
    · exact huniq k1 k2 c1 c2 h1 h2 hc1 hc2

theorem systemInv_exchangeKeys (s : ChatServer) (send : SendFn) (recv : RecvResult) (fd : Int)
    (hfd : fd ≠ -1) (h : SessionInv s.m_clients) :
    SystemInv ⟨(exchangeKeys s send recv fd).2.1,
      if (exchangeKeys s send recv fd).1 then .exchanged fd else .failed fd⟩ := by
  cases hr : (exchangeKeys s send recv fd).1 with
  | false =>
    rw [exchangeKeys_false s send recv fd hr]
    exact ⟨h, trivial⟩
  | true =>
    obtain ⟨hasc, hneg, hkey, huniq⟩ := h
    have hfind := exchangeKeys_find s send recv fd hr
    have hdup := (userConnected_eq_false _ _).mp (exchangeKeys_true s send recv fd hr).1
    have hasc2 := exchangeKeys_ascending s send recv fd hasc
    have hfresh : ∀ k2 c2, s.m_clients.find k2 = some c2 → c2.connected = true →
        c2.user_id ≠ handshakeUserId (sscanfKey recv.text) := by
      intro k2 c2 h2 hc2 hu
      exact hdup (k2, c2) (ClientMap.find_mem _ _ _ h2) ⟨hc2, hu⟩
    refine ⟨⟨hasc2, ?_, ?_, ?_⟩, ?_⟩
    · rw [hfind, if_neg (Ne.symm hfd)]; exact hneg
    · intro k c h1 hc
      rw [hfind] at h1
      split_ifs at h1
      · cases h1; rfl
      · exact hkey k c h1 hc
    · intro k1 k2 c1 c2 h1 h2 hc1 hc2 hu
      rw [hfind] at h1 h2
      split_ifs at h1 h2 with e1 e2 e2
      · rw [e1, e2]
      · cases h1
        exact absurd hu.symm (hfresh k2 c2 h2 hc2)
      · cases h2
        exact absurd hu (hfresh k1 c1 h1 hc1)
      · exact huniq k1 k2 c1 c2 h1 h2 hc1 hc2 hu
    · refine ⟨hfd, ?_⟩
      intro c hc
      rw [hfind, if_pos rfl] at hc
      cases hc
      refine ⟨rfl, ?_⟩
      intro k2 c2 hk2 h2 hc2
      rw [hfind, if_neg hk2] at h2
      exact hfresh k2 c2 h2 hc2

theorem systemInv_startClientReceiver (s : ChatServer) (created : Option Nat) (fd : Int)
    (h : SessionInv s.m_clients) (hst : StageInv s.m_clients (.exchanged fd)) :
    SystemInv ⟨(startClientReceiver s created fd).2.1,
      if (startClientReceiver s created fd).1 then .idle else .failed fd⟩ := by
  cases hr : (startClientReceiver s created fd).1 with
  | false =>
    rw [startClientReceiver_false s created fd hr]
    exact ⟨h, trivial⟩
  | true =>
    obtain ⟨t, c, hc, heq⟩ := startClientReceiver_true s created fd hr
    obtain ⟨hasc, hneg, hkey, huniq⟩ := h
    obtain ⟨hfd, hst⟩ := hst
    obtain ⟨hlen, hother⟩ := hst c hc
    rw [heq]
    refine ⟨⟨ClientMap.ascending_assign _ _ _ hasc, ?_, ?_, ?_⟩, trivial⟩
    · show (s.m_clients.assign fd _).find (-1) = none
      rw [ClientMap.find_assign, if_neg (Ne.symm hfd)]; exact hneg
    · intro k c1 h1 hc1
      change (s.m_clients.assign fd _).find k = some c1 at h1
      rw [ClientMap.find_assign] at h1
      split_ifs at h1
      · cases h1; exact hlen
      · exact hkey k c1 h1 hc1
    · intro k1 k2 c1 c2 h1 h2 hc1 hc2 hu
      change (s.m_clients.assign fd _).find k1 = some c1 at h1
      change (s.m_clients.assign fd _).find k2 = some c2 at h2
      rw [ClientMap.find_assign] at h1 h2
      split_ifs at h1 h2 with e1 e2 e2
      · rw [e1, e2]
      · cases h1
        exact absurd hu.symm (hother k2 c2 e2 h2 hc2)
      · cases h2
        exact absurd hu (hother k1 c1 e1 h1 hc1)
      · exact huniq k1 k2 c1 c2 h1 h2 hc1 hc2 hu

theorem systemInv_step (σ : System) (st : Step) (h : SystemInv σ) : SystemInv (σ.step st) := by
  obtain ⟨server, stage⟩ := σ
  obtain ⟨hs, hg⟩ := h
  cases st with
  | accept fd =>
    cases stage with
    | idle =>
      simp only [System.step]
      split_ifs with hfd
      · exact ⟨hs, hg⟩
      · exact ⟨sessionInv_accept _ fd hfd hs, hfd⟩
    | accepted _ => exact ⟨hs, hg⟩
    | exchanged _ => exact ⟨hs, hg⟩
    | failed _ => exact ⟨hs, hg⟩
  | exchangeKeys send recv =>
    cases stage with
    | accepted fd => exact systemInv_exchangeKeys server send recv fd hg hs
    | idle => exact ⟨hs, hg⟩
    | exchanged _ => exact ⟨hs, hg⟩
    | failed _ => exact ⟨hs, hg⟩
  | startClientReceiver created =>
    cases stage with
    | exchanged fd => exact systemInv_startClientReceiver server created fd hs hg
    | idle => exact ⟨hs, hg⟩
    | accepted _ => exact ⟨hs, hg⟩
    | failed _ => exact ⟨hs, hg⟩
  | abandon self =>
    cases stage with
    | failed fd =>
      simp only [System.step, cleanupClient_clients]
      exact ⟨sessionInv_erase _ fd hs, trivial⟩
    | idle => exact ⟨hs, hg⟩
    | accepted _ => exact ⟨hs, hg⟩
    | exchanged _ => exact ⟨hs, hg⟩
  | cleanupClient self fd g =>
    simp only [System.step, cleanupClient_clients]
    exact ⟨sessionInv_erase _ fd hs, stageInv_erase _ fd stage hg⟩

theorem systemInv_run (steps : List Step) : ∀ σ : System, SystemInv σ → SystemInv (σ.run steps) := by
  induction steps with
  | nil => intro σ h; exact h
  | cons st rest ih =>
    intro σ h
    exact ih (σ.step st) (systemInv_step σ st h)

theorem systemInv_init (listen_socket : Int) : SystemInv (System.init listen_socket) := by
  refine ⟨⟨List.Pairwise.nil, rfl, ?_, ?_⟩, trivial⟩
  · intro k c h; cases h
  · intro k1 k2 c1 c2 h; cases h

/-- Every state the server reaches from the empty registry has the registry invariant. -/
theorem registryInv_reachable (listen_socket : Int) (steps : List Step) :
    RegistryInv ((System.init listen_socket).run steps).server.m_clients :=
  registryInv_of_sessionInv _ (systemInv_run steps _ (systemInv_init listen_socket)).1


/-! ## Definedness of encryption -/

theorem cmod_some (a b : Int) (hb : b ≠ 0) (hb1 : b ≠ -1) : cmod a b = some (Int.tmod a b) := by
  unfold cmod
  rw [if_neg]
  rintro (h | ⟨_, h⟩)
  · exact hb h
  · exact hb1 h

theorem modexpLoop_isSome (mod : Int) (hb : mod ≠ 0) (hb1 : mod ≠ -1) (fuel : Nat) :
    ∀ result base exp : Int, (modexpLoop fuel result base exp mod).isSome = true := by
  induction fuel with
  | zero => intro _ _ _; rfl
  | succ fuel ih =>
    intro result base exp
    unfold modexpLoop
    by_cases he : exp > 0
    · rw [if_pos he]
      by_cases ho : exp % 2 = 1
      · rw [if_pos ho]
        simp only [cmod_some _ _ hb hb1, Option.some_bind]
        exact ih _ _ _
      · rw [if_neg ho]
        simp only [cmod_some _ _ hb hb1, Option.some_bind]
        exact ih _ _ _
    · rw [if_neg he]; rfl

theorem modexpLoop_isSome_neg_one (fuel : Nat) :
    ∀ result exp : Int, (modexpLoop fuel result 0 exp (-1)).isSome = true := by
  induction fuel with
  | zero => intro _ _; rfl
  | succ fuel ih =>
    intro result exp
    unfold modexpLoop
    have h0 : cmod (wrap64 (0 * 0)) (-1) = some 0 := by decide
    have h1 : cmod (wrap64 (result * 0)) (-1) = some 0 := by
      rw [mul_zero]; decide
    by_cases he : exp > 0
    · rw [if_pos he]
      by_cases ho : exp % 2 = 1
      · rw [if_pos ho, h1, h0]
        exact ih _ _
      · rw [if_neg ho, h0]
        exact ih _ _
    · rw [if_neg he]; rfl

theorem modexp_isSome (base exp mod : Int) (hbase : base ≠ INT64_MIN) (hmod : mod ≠ 0) :
    (modexp base exp mod).isSome = true := by
  unfold modexp
  by_cases h1 : mod = -1
  · subst h1
    have : cmod base (-1) = some 0 := by
      unfold cmod
      rw [if_neg (by rintro (h | ⟨h, _⟩); exact absurd h (by decide); exact hbase h)]
      simp [Int.tmod_neg, Int.tmod_one]
    rw [this]
    exact modexpLoop_isSome_neg_one _ _ _
  · rw [cmod_some _ _ hmod h1]
    exact modexpLoop_isSome mod hmod h1 _ _ _ _

theorem encryptLoop_isSome (e n : Int) (hn : n ≠ 0) (msg : Bytes) :
    (encryptLoop e n msg).isSome = true := by
  induction msg with
  | nil => rfl
  | cons ch rest ih =>
    unfold encryptLoop
    have hb : ((ch.val : Nat) : Int) ≠ INT64_MIN := by
      unfold INT64_MIN; omega
    obtain ⟨c, hc⟩ := Option.isSome_iff_exists.mp (modexp_isSome (ch.val : Int) e n hb hn)
    obtain ⟨cs, hcs⟩ := Option.isSome_iff_exists.mp ih
    rw [hc, hcs]
    rfl

/-- Encryption has a value unless the modulus of the key is zero. -/
theorem encrypt_isSome (msg : Bytes) (pub_key : List Int) (h : pub_key.getD 1 1 ≠ 0) :
    (encrypt msg pub_key).isSome = true := by
  unfold encrypt
  match pub_key, h with
  | [], _ => rfl
  | [_], _ => rfl
  | e :: n :: _, h => exact encryptLoop_isSome e n (by simpa using h) msg


/-! ## Routing -/

theorem findRecipient_some (m : ClientMap) (r : Bytes) (k : Int) (key : List Int) :
    findRecipient m r = some (k, key) →
      ∃ v, (k, v) ∈ m ∧ v.user_id = r ∧ v.connected = true ∧ v.public_key = key := by
  induction m with
  | nil => intro h; cases h
  | cons p rest ih =>
    obtain ⟨k1, v1⟩ := p
    unfold findRecipient
    by_cases hc : (v1.user_id == r && v1.connected) = true
    · rw [if_pos hc]
      intro h
      cases h
      simp only [Bool.and_eq_true, beq_iff_eq] at hc
      exact ⟨v1, List.mem_cons_self _ _, hc.1, hc.2, rfl⟩
    · rw [if_neg hc]
      intro h
      obtain ⟨v, hv, h2⟩ := ih h
      exact ⟨v, List.mem_cons_of_mem _ hv, h2⟩

theorem findRecipient_none (m : ClientMap) (r : Bytes) :
    findRecipient m r = none ↔ ∀ p ∈ m, ¬ (p.2.connected = true ∧ p.2.user_id = r) := by
  induction m with
  | nil => simp [findRecipient]
  | cons p rest ih =>
    obtain ⟨k1, v1⟩ := p
    unfold findRecipient
    by_cases hc : (v1.user_id == r && v1.connected) = true
    · rw [if_pos hc]
      simp only [Bool.and_eq_true, beq_iff_eq] at hc
      constructor
      · intro h; cases h
      · intro h
        exact absurd ⟨hc.2, hc.1⟩ (h (k1, v1) (List.mem_cons_self _ _))
    · rw [if_neg hc, ih]
      simp only [Bool.and_eq_true, beq_iff_eq] at hc
      constructor
      · intro h p hp
        rcases List.mem_cons.mp hp with hp | hp
        · subst hp; exact fun hx => hc ⟨hx.2, hx.1⟩
        · exact h p hp
      · intro h p hp
        exact h p (List.mem_cons_of_mem _ hp)

/-- In a registry with the invariant, the scan finds the one connected entry of the user. -/
theorem findRecipient_of_mem (m : ClientMap) (hinv : RegistryInv m) (k : Int) (v : ClientSession)
    (hmem : (k, v) ∈ m) (hconn : v.connected = true) :
    findRecipient m v.user_id = some (k, v.public_key) := by
  obtain ⟨hasc, _, _, huniq⟩ := hinv
  cases hf : findRecipient m v.user_id with
  | none =>
    exact absurd ⟨hconn, rfl⟩ ((findRecipient_none m v.user_id).mp hf (k, v) hmem)
  | some found =>
    obtain ⟨k2, key⟩ := found
    obtain ⟨v2, hmem2, hu2, hc2, hkey2⟩ := findRecipient_some m v.user_id k2 key hf
    have hk : k2 = k := huniq (k2, v2) hmem2 (k, v) hmem hc2 hconn hu2
    subst hk
    have h1 := ClientMap.find_of_mem m hasc k2 v hmem
    have h2 := ClientMap.find_of_mem m hasc k2 v2 hmem2
    rw [h1] at h2
    cases h2
    rw [hkey2]

theorem takeWhile_ne_slash (rcpt body : Bytes) (h : slash ∉ rcpt) :
    (rcpt ++ slash :: body).takeWhile (fun c => c != slash) = rcpt := by
  induction rcpt with
  | nil => simp [List.takeWhile]
  | cons c t ih =>
    have hc : (c != slash) = true := by
      simp only [bne_iff_ne, ne_eq]
      rintro rfl
      exact h (List.mem_cons_self _ _)
    simp only [List.cons_append, List.takeWhile_cons, hc, if_true]
    rw [ih (fun hx => h (List.mem_cons_of_mem _ hx))]

theorem dropWhile_ne_slash (rcpt body : Bytes) (h : slash ∉ rcpt) :
    (rcpt ++ slash :: body).dropWhile (fun c => c != slash) = slash :: body := by
  induction rcpt with
  | nil => simp [List.dropWhile]
  | cons c t ih =>
    have hc : (c != slash) = true := by
      simp only [bne_iff_ne, ne_eq]
      rintro rfl
      exact h (List.mem_cons_self _ _)
    simp only [List.cons_append, List.dropWhile_cons, hc, if_true]
    exact ih (fun hx => h (List.mem_cons_of_mem _ hx))

theorem ne_exit_of_slash (rcpt body : Bytes) : rcpt ++ slash :: body ≠ lit "exit" := by
  intro h
  have h1 : slash ∈ rcpt ++ slash :: body := by simp
  rw [h] at h1
  revert h1
  decide

/-- A frame that decrypts to `rcpt/body` is handed to `forwardMessageToClient`. -/
theorem handleReceivedMessage_direct (s : ChatServer) (send : SendFn) (clientSocket : Int)
    (received rcpt body : Bytes)
    (hdec : decrypt (deserialize_ciphertext received) m_server_private_key = some (rcpt ++ slash :: body))
    (hrcpt : slash ∉ rcpt) :
    handleReceivedMessage s send clientSocket received =
      (forwardMessageToClient s send (trim rcpt) (senderIdOf s.m_clients clientSocket) body
        clientSocket).map fun r => (s, r.2) := by
  have hne : (deserialize_ciphertext received).isEmpty = false := by
    cases hd : deserialize_ciphertext received with
    | nil =>
      rw [hd] at hdec
      simp [decrypt, m_server_private_key, decryptLoop] at hdec
    | cons _ _ => rfl
  have hcontains : (rcpt ++ slash :: body).contains slash = true := by simp
  unfold handleReceivedMessage
  simp only [hne, hdec, Option.some_bind, Bool.false_eq_true, if_false,
    if_neg (ne_exit_of_slash rcpt body), hcontains, if_true,
    takeWhile_ne_slash rcpt body hrcpt, dropWhile_ne_slash rcpt body hrcpt, List.tail_cons]

theorem forwardMessageToClient_found (s : ChatServer) (send : SendFn)
    (recipient_id sender_id message : Bytes) (senderSocket k : Int) (key : List Int)
    (hfound : findRecipient s.m_clients recipient_id = some (k, key))
    (hk : k ≠ -1) (hkey : key ≠ [])
    (hsend : ∀ ct, encrypt (lit "[DM from " ++ sender_id ++ lit "]: " ++ message) key = some ct →
      0 < send k (serialize_ciphertext ct)) :
    forwardMessageToClient s send recipient_id sender_id message senderSocket =
      (encrypt (lit "[DM from " ++ sender_id ++ lit "]: " ++ message) key).map
        fun ct => (true, [SysCall.send k (serialize_ciphertext ct)]) := by
  have hempty : key.isEmpty = false := by
    cases key with
    | nil => exact absurd rfl hkey
    | cons _ _ => rfl
  unfold forwardMessageToClient
  simp only [hfound, hk, hempty, false_or, Bool.false_eq_true, if_false]
  cases henc : encrypt (lit "[DM from " ++ sender_id ++ lit "]: " ++ message) key with
  | none => rfl
  | some ct =>
    have := hsend ct henc
    simp only [Option.some_bind, Option.map_some']
    rw [if_neg (by omega)]

theorem sendErrorToClient_connected (s : ChatServer) (send : SendFn) (clientSocket : Int)
    (error_message : Bytes) (session : ClientSession)
    (hfind : s.m_clients.find clientSocket = some session)
    (hconn : session.connected = true) (hkey : session.public_key ≠ []) :
    sendErrorToClient s send clientSocket error_message =
      (encrypt error_message session.public_key).map fun ct =>
        (decide (¬ send clientSocket (serialize_ciphertext ct) ≤ 0),
          [SysCall.send clientSocket (serialize_ciphertext ct)]) := by
  have hempty : session.public_key.isEmpty = false := by
    cases h : session.public_key with
    | nil => exact absurd h hkey
    | cons _ _ => rfl
  unfold sendErrorToClient
  simp only [hfind, hconn, hempty, Bool.not_true, Bool.or_self, Bool.false_eq_true, if_false]
  cases encrypt error_message session.public_key <;> rfl

theorem forwardMessageToClient_absent (s : ChatServer) (send : SendFn)
    (recipient_id sender_id message : Bytes) (senderSocket : Int)
    (habsent : findRecipient s.m_clients recipient_id = none) :
    forwardMessageToClient s send recipient_id sender_id message senderSocket =
      (sendErrorToClient s send senderSocket
        (lit "Error: User '" ++ recipient_id ++ lit "' not found or not connected.")).map
        fun r => (false, r.2) := by
  unfold forwardMessageToClient
  simp only [habsent]


/-! ## Teardown and shutdown -/

theorem cleanupClient_registered (s : ChatServer) (self : Nat) (fd : Int) (g : Bool)
    (hfd : fd ≠ -1) (h : (s.m_clients.find fd).isSome = true) :
    SysCall.shutdown fd ∈ (cleanupClient s self fd g).2 ∧
      SysCall.close fd ∈ (cleanupClient s self fd g).2 := by
  obtain ⟨c, hc⟩ := Option.isSome_iff_exists.mp h
  unfold cleanupClient
  simp [hc, hfd]

theorem cleanupClient_absent (s : ChatServer) (self : Nat) (fd : Int) (g : Bool)
    (h : s.m_clients.find fd = none) : cleanupClient s self fd g = (s, []) := by
  unfold cleanupClient
  rw [h]

theorem cleanupEach_fields (self : Nat) (keys : List Int) :
    ∀ s : ChatServer, (cleanupEach s self keys).1.m_running = s.m_running ∧
      (cleanupEach s self keys).1.m_server_socket = s.m_server_socket := by
  induction keys with
  | nil => intro s; exact ⟨rfl, rfl⟩
  | cons k rest ih =>
    intro s
    have h := ih (cleanupClient s self k false).1
    rw [cleanupClient_clients] at h
    simp only [cleanupEach]
    rw [cleanupClient_clients]
    exact h

theorem cleanupEach_closes (self : Nat) (keys : List Int) :
    ∀ s : ChatServer, ∀ k ∈ keys, k ≠ -1 → (s.m_clients.find k).isSome = true →
      SysCall.shutdown k ∈ (cleanupEach s self keys).2 ∧
        SysCall.close k ∈ (cleanupEach s self keys).2 := by
  induction keys with
  | nil => intro s k hk; cases hk
  | cons k0 rest ih =>
    intro s k hk hne hsome
    simp only [cleanupEach]
    by_cases h0 : k = k0
    · subst h0
      have := cleanupClient_registered s self k false hne hsome
      exact ⟨List.mem_append_left _ this.1, List.mem_append_left _ this.2⟩
    · have hk2 : k ∈ rest := by
        rcases List.mem_cons.mp hk with h | h
        · exact absurd h h0
        · exact h
      have hsome2 : ((cleanupClient s self k0 false).1.m_clients.find k).isSome = true := by
        rw [cleanupClient_clients]
        show ((s.m_clients.erase k0).find k).isSome = true
        rw [ClientMap.find_erase, if_neg h0]
        exact hsome
      have := ih (cleanupClient s self k0 false).1 k hk2 hne hsome2
      exact ⟨List.mem_append_right _ this.1, List.mem_append_right _ this.2⟩

/-- A call that `cleanupEach` makes is a call of `cleanupClient` on one of the sockets. -/
theorem cleanupEach_calls (self : Nat) (keys : List Int) :
    ∀ s : ChatServer, ∀ call ∈ (cleanupEach s self keys).2,
      ∃ s2 : ChatServer, ∃ k ∈ keys, call ∈ (cleanupClient s2 self k false).2 := by
  induction keys with
  | nil => intro s call h; cases h
  | cons k0 rest ih =>
    intro s call h
    simp only [cleanupEach] at h
    rcases List.mem_append.mp h with h | h
    · exact ⟨s, k0, List.mem_cons_self _ _, h⟩
    · obtain ⟨s2, k, hk, hc⟩ := ih _ call h
      exact ⟨s2, k, List.mem_cons_of_mem _ hk, hc⟩

/-- The causes for which `exchangeKeys` returns `false`. -/
theorem exchangeKeys_eq_false_iff (s : ChatServer) (send : SendFn) (recv : RecvResult) (fd : Int) :
    (exchangeKeys s send recv fd).1 = false ↔
      send fd serverKeyMessage ≤ 0 ∨ recv.len ≤ 0 ∨ (sscanfKey recv.text).assigned < 2 ∨
        userConnected s.m_clients (handshakeUserId (sscanfKey recv.text)) = true := by
  unfold exchangeKeys
  dsimp only
  split_ifs with h1 h2 h3 h4
  · simp [h1]
  · simp [h2]
  · simp [h4]
  · simp only [Bool.true_eq_false, false_iff, not_or]
    exact ⟨h1, h2, by omega, h4⟩
  · simp only [true_iff]
    right; right; left; omega

/-- The system calls of `exchangeKeys` are sends on the client's socket. -/
theorem exchangeKeys_calls (s : ChatServer) (send : SendFn) (recv : RecvResult) (fd : Int) :
    ∀ call ∈ (exchangeKeys s send recv fd).2.2, ∃ data, call = SysCall.send fd data := by
  unfold exchangeKeys
  dsimp only
  intro call h
  split_ifs at h
  all_goals
    first
    | exact ⟨_, List.mem_singleton.mp h⟩
    | (rcases List.mem_cons.mp h with h | h
       · exact ⟨_, h⟩
       · exact ⟨_, List.mem_singleton.mp h⟩)


/-! # The claims -/

/-- Claim C1: starting from the empty registry, after every sequence of server
steps (the accept loop's placeholder insert, `exchangeKeys` on any frame,
`startClientReceiver`, its `cleanupClient`, and `cleanupClient` of any id by a
receiver thread) no two entries of `m_clients` are connected under the same
user id. -/
theorem registry_unique_connected_user_id (listen_socket : Int) (steps : List Step) :
    ((System.init listen_socket).run steps).server.m_clients.Pairwise
      (fun a b => ¬ (a.2.connected = true ∧ b.2.connected = true ∧ a.2.user_id = b.2.user_id)) := by
  obtain ⟨hasc, _, _, huniq⟩ := registryInv_reachable listen_socket steps
  refine List.Pairwise.imp_of_mem ?_ hasc
  intro a b ha hb hlt hc
  have := huniq a ha b hb hc.1 hc.2.1 hc.2.2
  omega

/-- Claim C2: in every registry with the invariant of the reachable states, when
a sender with user id `a` sends a frame that decrypts to a direct message
(recipient text before the first `/`, then `body`), some entry is connected
under the recipient id (that text, trimmed) with public key `k`, and the send to
it succeeds, `handleReceivedMessage` makes exactly one system call: the send, on
that recipient's socket, of `serialize_ciphertext(encrypt("[DM from a]: body", k))`;
nothing is sent to the sender or to another connection and the server state is
unchanged. The frame exists whenever the modulus of `k` is not 0. -/
theorem direct_message_delivered_to_recipient (s : ChatServer) (send : SendFn)
    (senderSocket recipientSocket : Int) (sender recipient : ClientSession)
    (received rcpt body : Bytes)
    (hinv : RegistryInv s.m_clients)
    (hdec : decrypt (deserialize_ciphertext received) m_server_private_key =
      some (rcpt ++ slash :: body))
    (hrcpt : slash ∉ rcpt)
    (hsender : s.m_clients.find senderSocket = some sender)
    (hmem : (recipientSocket, recipient) ∈ s.m_clients)
    (hconn : recipient.connected = true)
    (huid : recipient.user_id = trim rcpt)
    (hsend : ∀ ct, encrypt (lit "[DM from " ++ sender.user_id ++ lit "]: " ++ body)
        recipient.public_key = some ct → 0 < send recipientSocket (serialize_ciphertext ct)) :
    handleReceivedMessage s send senderSocket received =
        (encrypt (lit "[DM from " ++ sender.user_id ++ lit "]: " ++ body) recipient.public_key).map
          (fun ct => (s, [SysCall.send recipientSocket (serialize_ciphertext ct)])) ∧
      (recipient.public_key.getD 1 1 ≠ 0 →
        (encrypt (lit "[DM from " ++ sender.user_id ++ lit "]: " ++ body)
          recipient.public_key).isSome = true) := by
  refine ⟨?_, encrypt_isSome _ _⟩
  have hfound := findRecipient_of_mem s.m_clients hinv recipientSocket recipient hmem hconn
  rw [huid] at hfound
  have hk : recipientSocket ≠ -1 := hinv.2.1 (recipientSocket, recipient) hmem
  have hkey : recipient.public_key ≠ [] := by
    intro h
    have := hinv.2.2.1 (recipientSocket, recipient) hmem hconn
    simp only at this
    rw [h] at this
    cases this
  have hid : senderIdOf s.m_clients senderSocket = sender.user_id := by
    unfold senderIdOf; rw [hsender]
  rw [handleReceivedMessage_direct s send senderSocket received rcpt body hdec hrcpt, hid,
    forwardMessageToClient_found s send (trim rcpt) sender.user_id body senderSocket
      recipientSocket recipient.public_key hfound hk hkey hsend]
  cases encrypt (lit "[DM from " ++ sender.user_id ++ lit "]: " ++ body) recipient.public_key <;> rfl

theorem direct_message_delivered_to_recipient_witness :
    handleReceivedMessage twoClients sendOk 4 frameBobHello =
        (encrypt (lit "[DM from " ++ aliceSession.user_id ++ lit "]: " ++ lit "hello")
          bobSession.public_key).map
          (fun ct => (twoClients, [SysCall.send 5 (serialize_ciphertext ct)])) ∧
      (bobSession.public_key.getD 1 1 ≠ 0 →
        (encrypt (lit "[DM from " ++ aliceSession.user_id ++ lit "]: " ++ lit "hello")
          bobSession.public_key).isSome = true) :=
  direct_message_delivered_to_recipient twoClients sendOk 4 5 aliceSession bobSession
    frameBobHello (lit "bob") (lit "hello") (by decide) (by decide) (by decide) (by decide)
    (by decide) rfl (by decide) (fun _ _ => Int.one_pos)

/-- Claim C3 (scenario A): when the recipient registered the client public key
`{7, 299}`, the one frame the server sends for a direct message from a sender
with user id `a` and body `body` (any bytes) is sent on the recipient's socket
and, deserialised with `deserialize_ciphertext` and decrypted with the client
private key `{151, 299}`, is exactly `"[DM from a]: body"`. -/
theorem scenarioA_recipient_reads_direct_message (s : ChatServer) (send : SendFn)
    (senderSocket recipientSocket : Int) (sender recipient : ClientSession)
    (received rcpt body : Bytes)
    (hinv : RegistryInv s.m_clients)
    (hdec : decrypt (deserialize_ciphertext received) m_server_private_key =
      some (rcpt ++ slash :: body))
    (hrcpt : slash ∉ rcpt)
    (hsender : s.m_clients.find senderSocket = some sender)
    (hmem : (recipientSocket, recipient) ∈ s.m_clients)
    (hconn : recipient.connected = true)
    (huid : recipient.user_id = trim rcpt)
    (hkey : recipient.public_key = [7, 299])
    (hsend : ∀ frame, 0 < send recipientSocket frame) :
    ∃ frame, handleReceivedMessage s send senderSocket received =
        some (s, [SysCall.send recipientSocket frame]) ∧
      decrypt (deserialize_ciphertext frame) [151, 299] =
        some (lit "[DM from " ++ sender.user_id ++ lit "]: " ++ body) := by
  obtain ⟨ct, henc, hrange, hback⟩ :=
    encrypt_decrypt_client (lit "[DM from " ++ sender.user_id ++ lit "]: " ++ body)
  have hfound := findRecipient_of_mem s.m_clients hinv recipientSocket recipient hmem hconn
  rw [huid, hkey] at hfound
  have hk : recipientSocket ≠ -1 := hinv.2.1 (recipientSocket, recipient) hmem
  have hid : senderIdOf s.m_clients senderSocket = sender.user_id := by
    unfold senderIdOf; rw [hsender]
  refine ⟨serialize_ciphertext ct, ?_, ?_⟩
  · rw [handleReceivedMessage_direct s send senderSocket received rcpt body hdec hrcpt, hid,
      forwardMessageToClient_found s send (trim rcpt) sender.user_id body senderSocket
        recipientSocket [7, 299] hfound hk (by simp) (fun _ _ => hsend _), henc]
    rfl
  · rw [deserialize_serialize ct hrange]
    exact hback

theorem scenarioA_recipient_reads_direct_message_witness :
    ∃ frame, handleReceivedMessage twoClients sendOk 4 frameBobHello =
        some (twoClients, [SysCall.send 5 frame]) ∧
      decrypt (deserialize_ciphertext frame) [151, 299] = some (lit "[DM from alice]: hello") :=
  scenarioA_recipient_reads_direct_message twoClients sendOk 4 5 aliceSession bobSession
    frameBobHello (lit "bob") (lit "hello") (by decide) (by decide) (by decide) (by decide)
    (by decide) rfl (by decide) rfl (fun _ => Int.one_pos)

/-- Claim C4: for every sequence `v` of 64-bit signed integers (negative values
included), `deserialize_ciphertext(serialize_ciphertext(v)) == v`. -/
theorem deserialize_serialize_roundtrip (v : List Int) (hv : ∀ x ∈ v, IsInt64 x) :
    deserialize_ciphertext (serialize_ciphertext v) = v :=
  deserialize_serialize v hv

theorem deserialize_serialize_roundtrip_witness :
    (∀ x ∈ [0, -1, 319, 9223372036854775807, -9223372036854775808], IsInt64 x) ∧
      deserialize_ciphertext
          (serialize_ciphertext [0, -1, 319, 9223372036854775807, -9223372036854775808]) =
        [0, -1, 319, 9223372036854775807, -9223372036854775808] :=
  ⟨by decide, deserialize_serialize_roundtrip _ (by decide)⟩


/-- Claim C5 (scenario B): when some entry is connected under user id `u` and
the frame a new connection sends in the handshake carries the user id `u`,
`exchangeKeys` returns `false` and leaves the server as it was: the connected
entry is unchanged and the entry of the new connection keeps the user id and
public key it had (both empty for the placeholder). When the key frame was sent
and an answer received, the only further system call is the plain-text notice. -/
theorem scenarioB_duplicate_user_rejected (s : ChatServer) (send : SendFn) (bytes : Bytes)
    (clientSocket : Int) (u : Bytes)
    (hconnected : ∃ p ∈ s.m_clients, p.2.connected = true ∧ p.2.user_id = u)
    (hframe : 2 ≤ (sscanfKey (cstr bytes)).assigned ∧ handshakeUserId (sscanfKey (cstr bytes)) = u) :
    (exchangeKeys s send (.data bytes) clientSocket).1 = false ∧
      (exchangeKeys s send (.data bytes) clientSocket).2.1 = s ∧
      (∀ p ∈ s.m_clients, p ∈ (exchangeKeys s send (.data bytes) clientSocket).2.1.m_clients) ∧
      (∀ c, s.m_clients.find clientSocket = some c →
        (exchangeKeys s send (.data bytes) clientSocket).2.1.m_clients.find clientSocket = some c) ∧
      (0 < send clientSocket serverKeyMessage → 0 < bytes.length →
        (exchangeKeys s send (.data bytes) clientSocket).2.2 =
          [SysCall.send clientSocket serverKeyMessage,
           SysCall.send clientSocket (lit "Error: User ID already in use.")]) := by
  have hdup : userConnected s.m_clients (handshakeUserId (sscanfKey (cstr bytes))) = true := by
    rw [hframe.2]
    exact (userConnected_eq_true s.m_clients u).mpr hconnected
  have hfalse : (exchangeKeys s send (.data bytes) clientSocket).1 = false := by
    cases h : (exchangeKeys s send (.data bytes) clientSocket).1 with
    | false => rfl
    | true =>
      have := (exchangeKeys_true s send (.data bytes) clientSocket h).1
      rw [show (RecvResult.data bytes).text = cstr bytes from rfl, hdup] at this
      cases this
  have hsame := exchangeKeys_false s send (.data bytes) clientSocket hfalse
  refine ⟨hfalse, hsame, ?_, ?_, ?_⟩
  · rw [hsame]; exact fun p hp => hp
  · rw [hsame]; exact fun c hc => hc
  · intro hs hb
    have hlen : ¬ (RecvResult.data bytes).len ≤ 0 := by
      show ¬ ((bytes.length : Int) ≤ 0)
      omega
    unfold exchangeKeys
    dsimp only
    rw [if_neg (by omega), if_neg hlen]
    simp only [RecvResult.text]
    rw [if_pos hframe.1, if_pos hdup]

theorem scenarioB_duplicate_user_rejected_witness :
    (exchangeKeys twoClients sendOk (.data (lit "7 299 alice")) 6).1 = false ∧
      (exchangeKeys twoClients sendOk (.data (lit "7 299 alice")) 6).2.1 = twoClients ∧
      (∀ p ∈ twoClients.m_clients,
        p ∈ (exchangeKeys twoClients sendOk (.data (lit "7 299 alice")) 6).2.1.m_clients) ∧
      (∀ c, twoClients.m_clients.find 6 = some c →
        (exchangeKeys twoClients sendOk (.data (lit "7 299 alice")) 6).2.1.m_clients.find 6 = some c) ∧
      (0 < sendOk 6 serverKeyMessage → 0 < (lit "7 299 alice").length →
        (exchangeKeys twoClients sendOk (.data (lit "7 299 alice")) 6).2.2 =
          [SysCall.send 6 serverKeyMessage,
           SysCall.send 6 (lit "Error: User ID already in use.")]) :=
  scenarioB_duplicate_user_rejected twoClients sendOk (lit "7 299 alice") 6 (lit "alice")
    ⟨(4, aliceSession), by decide, by decide⟩ (by decide)

/-- Claim C6 (scenario C): when a connected sender with a registered public key
sends a frame that decrypts to a direct message (recipient text before the
first `/`, then the body) and no entry is connected under the recipient id `r`
(that text, trimmed), `handleReceivedMessage` makes exactly one system call:
the send, on the sender's own socket, of the serialised encryption under the
sender's public key of the error text `"Error: User 'r' not found or not connected."`;
nothing else is sent and the server state is unchanged. The frame exists
whenever the modulus of the sender's key is not 0. -/
theorem scenarioC_absent_recipient_reported_to_sender (s : ChatServer) (send : SendFn)
    (senderSocket : Int) (sender : ClientSession) (received rcpt body : Bytes)
    (hdec : decrypt (deserialize_ciphertext received) m_server_private_key =
      some (rcpt ++ slash :: body))
    (hrcpt : slash ∉ rcpt)
    (hsender : s.m_clients.find senderSocket = some sender)
    (hconn : sender.connected = true)
    (hkey : sender.public_key ≠ [])
    (habsent : ∀ p ∈ s.m_clients, ¬ (p.2.connected = true ∧ p.2.user_id = trim rcpt)) :
    handleReceivedMessage s send senderSocket received =
        (encrypt (lit "Error: User '" ++ trim rcpt ++ lit "' not found or not connected.")
          sender.public_key).map
          (fun ct => (s, [SysCall.send senderSocket (serialize_ciphertext ct)])) ∧
      (sender.public_key.getD 1 1 ≠ 0 →
        (encrypt (lit "Error: User '" ++ trim rcpt ++ lit "' not found or not connected.")
          sender.public_key).isSome = true) := by
  refine ⟨?_, encrypt_isSome _ _⟩
  have hnone := (findRecipient_none s.m_clients (trim rcpt)).mpr habsent
  rw [handleReceivedMessage_direct s send senderSocket received rcpt body hdec hrcpt,
    forwardMessageToClient_absent s send (trim rcpt) _ body senderSocket hnone,
    sendErrorToClient_connected s send senderSocket _ sender hsender hconn hkey]
  cases encrypt (lit "Error: User '" ++ trim rcpt ++ lit "' not found or not connected.")
    sender.public_key <;> rfl

theorem scenarioC_absent_recipient_reported_to_sender_witness :
    handleReceivedMessage twoClients sendOk 4 frameCarolHi =
        (encrypt (lit "Error: User '" ++ trim (lit "carol") ++ lit "' not found or not connected.")
          aliceSession.public_key).map
          (fun ct => (twoClients, [SysCall.send 4 (serialize_ciphertext ct)])) ∧
      (aliceSession.public_key.getD 1 1 ≠ 0 →
        (encrypt (lit "Error: User '" ++ trim (lit "carol") ++ lit "' not found or not connected.")
          aliceSession.public_key).isSome = true) :=
  scenarioC_absent_recipient_reported_to_sender twoClients sendOk 4 aliceSession frameCarolHi
    (lit "carol") (lit "hi") (by decide) (by decide) (by decide) rfl (by decide) (by decide)

/-- Claim C7 (scenario D): for every received frame whose deserialisation is
empty (the empty frame in particular), `handleReceivedMessage` makes no system
call, so nothing is sent to anyone, and leaves the server, with the sender's
entry, unchanged; the iteration of the receive loop that read the frame goes
back to `recv`. -/
theorem scenarioD_empty_frame_ignored (s : ChatServer) (send : SendFn) (clientSocket : Int)
    (frame : Bytes) (hempty : deserialize_ciphertext frame = []) :
    handleReceivedMessage s send clientSocket frame = some (s, []) ∧
      ∀ bytes, cstr bytes = frame → 0 < bytes.length →
        receiverIteration s send clientSocket (.data bytes) = some (s, [], LoopStep.again) := by
  have h : handleReceivedMessage s send clientSocket frame = some (s, []) := by
    unfold handleReceivedMessage
    simp only [hempty, List.isEmpty_nil, if_true]
  refine ⟨h, ?_⟩
  intro bytes hb hlen
  have hpos : (RecvResult.data bytes).len > 0 := by
    show (bytes.length : Int) > 0
    omega
  unfold receiverIteration
  rw [if_pos hpos, show (RecvResult.data bytes).text = frame from hb, h]
  rfl

theorem scenarioD_empty_frame_ignored_witness :
    deserialize_ciphertext [] = [] ∧
      (handleReceivedMessage twoClients sendOk 4 [] = some (twoClients, []) ∧
        ∀ bytes, cstr bytes = [] → 0 < bytes.length →
          receiverIteration twoClients sendOk 4 (.data bytes) =
            some (twoClients, [], LoopStep.again)) :=
  ⟨rfl, scenarioD_empty_frame_ignored twoClients sendOk 4 [] rfl⟩


/-- Claim C8 (scenario E): for every state of a running server
(`m_running == true`) and any number of registered clients, after `stopServer`
the registry is empty, the server is marked stopped, the listening socket has
been closed, and `shutdown` and `close` have been called on every registered
socket; all calls other than the close of the listening socket are those of
`cleanupClient` on a registered socket. A socket is a descriptor other than
`-1`. -/
theorem scenarioE_stopServer_cleans_everything (s : ChatServer) (self : Nat)
    (hrun : s.m_running = true) :
    (stopServer s self).1.m_clients = [] ∧
      (stopServer s self).1.m_running = false ∧
      (stopServer s self).1.m_server_socket = -1 ∧
      (s.m_server_socket ≠ -1 → SysCall.close s.m_server_socket ∈ (stopServer s self).2) ∧
      (∀ p ∈ s.m_clients, p.1 ≠ -1 →
        SysCall.shutdown p.1 ∈ (stopServer s self).2 ∧ SysCall.close p.1 ∈ (stopServer s self).2) ∧
      (∀ call ∈ (stopServer s self).2, call = SysCall.close s.m_server_socket ∨
        ∃ s2 : ChatServer, ∃ p ∈ s.m_clients, call ∈ (cleanupClient s2 self p.1 false).2) := by
  have hstop : stopServer s self =
      ({ (cleanupEach { m_running := false, m_server_socket := -1, m_clients := s.m_clients } self
            (s.m_clients.map (fun client_pair => client_pair.1))).1 with m_clients := [] },
        (if s.m_server_socket ≠ -1 then [SysCall.close s.m_server_socket] else []) ++
          (cleanupEach { m_running := false, m_server_socket := -1, m_clients := s.m_clients } self
            (s.m_clients.map (fun client_pair => client_pair.1))).2) := by
    unfold stopServer cleanupAllClients
    simp [hrun]
  have hfields := cleanupEach_fields self (s.m_clients.map (fun client_pair => client_pair.1))
    { m_running := false, m_server_socket := -1, m_clients := s.m_clients }
  rw [hstop]
  refine ⟨rfl, hfields.1, hfields.2, ?_, ?_, ?_⟩
  · intro h
    rw [if_pos h]
    exact List.mem_append_left _ (List.mem_singleton_self _)
  · intro p hp hne
    have := cleanupEach_closes self (s.m_clients.map (fun client_pair => client_pair.1))
      { m_running := false, m_server_socket := -1, m_clients := s.m_clients } p.1
      (List.mem_map_of_mem _ hp) hne (ClientMap.find_isSome_of_mem s.m_clients p hp)
    exact ⟨List.mem_append_right _ this.1, List.mem_append_right _ this.2⟩
  · intro call hcall
    rcases List.mem_append.mp hcall with h | h
    · left
      split_ifs at h
      · exact List.mem_singleton.mp h
      · cases h
    · right
      obtain ⟨s2, k, hk, hc⟩ := cleanupEach_calls self _ _ call h
      obtain ⟨p, hp, hpk⟩ := List.mem_map.mp hk
      exact ⟨s2, p, hp, by rw [hpk]; exact hc⟩

theorem scenarioE_stopServer_cleans_everything_witness :
    stopServer threeClients 0 =
        (⟨false, -1, []⟩,
          [SysCall.close 3,
           SysCall.shutdown 4, SysCall.close 4, SysCall.pthread_join 1,
           SysCall.shutdown 5, SysCall.close 5, SysCall.pthread_join 2,
           SysCall.shutdown 6, SysCall.close 6, SysCall.pthread_join 3]) ∧
      ((stopServer threeClients 0).1.m_clients = [] ∧
        (stopServer threeClients 0).1.m_running = false ∧
        (stopServer threeClients 0).1.m_server_socket = -1 ∧
        (threeClients.m_server_socket ≠ -1 →
          SysCall.close threeClients.m_server_socket ∈ (stopServer threeClients 0).2) ∧
        (∀ p ∈ threeClients.m_clients, p.1 ≠ -1 →
          SysCall.shutdown p.1 ∈ (stopServer threeClients 0).2 ∧
            SysCall.close p.1 ∈ (stopServer threeClients 0).2) ∧
        (∀ call ∈ (stopServer threeClients 0).2, call = SysCall.close threeClients.m_server_socket ∨
          ∃ s2 : ChatServer, ∃ p ∈ threeClients.m_clients,
            call ∈ (cleanupClient s2 0 p.1 false).2)) :=
  ⟨by decide, scenarioE_stopServer_cleans_everything threeClients 0 rfl⟩

/-- Claim C9: when the handshake of an accepted connection fails (the key send
fails, `recv` fails or reports the peer closed, the key frame does not parse, or
the user id is already connected), the accept-loop step makes no
`pthread_create` call, so `startClientReceiver` is not called, and when it ends
the registry has no entry for the connection and is otherwise what it was
before the connection was accepted. -/
theorem failed_handshake_leaves_no_entry (s : ChatServer) (send : SendFn) (recv : RecvResult)
    (created : Option Nat) (self : Nat) (new_client_socket : Int)
    (haccepted : new_client_socket ≠ -1)
    (hfail : send new_client_socket serverKeyMessage ≤ 0 ∨ recv.len ≤ 0 ∨
      (sscanfKey recv.text).assigned < 2 ∨
      userConnected (s.m_clients.assign new_client_socket (newSession new_client_socket))
        (handshakeUserId (sscanfKey recv.text)) = true) :
    (∀ fd, SysCall.pthread_create fd ∉ (acceptClient s send recv created self new_client_socket).2) ∧
      (acceptClient s send recv created self new_client_socket).1.m_clients.find new_client_socket =
        none ∧
      (∀ k, k ≠ new_client_socket →
        (acceptClient s send recv created self new_client_socket).1.m_clients.find k =
          s.m_clients.find k) ∧
      (acceptClient s send recv created self new_client_socket).1 =
        { s with m_clients := s.m_clients.erase new_client_socket } := by
  have hfalse := (exchangeKeys_eq_false_iff
    ⟨s.m_running, s.m_server_socket,
      s.m_clients.assign new_client_socket (newSession new_client_socket)⟩
    send recv new_client_socket).mpr hfail
  have hsame := exchangeKeys_false _ send recv new_client_socket hfalse
  have hcalls := exchangeKeys_calls
    ⟨s.m_running, s.m_server_socket,
      s.m_clients.assign new_client_socket (newSession new_client_socket)⟩
    send recv new_client_socket
  have hfind : (s.m_clients.assign new_client_socket (newSession new_client_socket)).find
      new_client_socket = some (newSession new_client_socket) := by
    rw [ClientMap.find_assign, if_pos rfl]
  have hstate : (acceptClient s send recv created self new_client_socket).1 =
      { s with m_clients := s.m_clients.erase new_client_socket } := by
    unfold acceptClient
    rw [if_neg haccepted]
    simp only [hfalse, Bool.false_eq_true, if_false, hsame, cleanupClient_clients,
      ClientMap.erase_assign]
  refine ⟨?_, ?_, ?_, hstate⟩
  · intro fd hmem
    unfold acceptClient at hmem
    rw [if_neg haccepted] at hmem
    simp only [hfalse, Bool.false_eq_true, if_false, hsame] at hmem
    rcases List.mem_append.mp hmem with h | h
    · obtain ⟨data, hd⟩ := hcalls _ h
      cases hd
    · unfold cleanupClient at h
      rw [hfind] at h
      simp [newSession, haccepted] at h
  · rw [hstate]
    show (s.m_clients.erase new_client_socket).find new_client_socket = none
    rw [ClientMap.find_erase, if_pos rfl]
  · intro k hk
    rw [hstate]
    show (s.m_clients.erase new_client_socket).find k = _
    rw [ClientMap.find_erase, if_neg hk]

theorem failed_handshake_leaves_no_entry_witness :
    (∀ fd, SysCall.pthread_create fd ∉
        (acceptClient twoClients sendOk (.data (lit "7 299 alice")) (some 9) 0 6).2) ∧
      (acceptClient twoClients sendOk (.data (lit "7 299 alice")) (some 9) 0 6).1.m_clients.find 6 =
        none ∧
      (∀ k, k ≠ 6 →
        (acceptClient twoClients sendOk (.data (lit "7 299 alice")) (some 9) 0 6).1.m_clients.find k =
          twoClients.m_clients.find k) ∧
      (acceptClient twoClients sendOk (.data (lit "7 299 alice")) (some 9) 0 6).1 =
        { twoClients with m_clients := twoClients.m_clients.erase 6 } :=
  failed_handshake_leaves_no_entry twoClients sendOk (.data (lit "7 299 alice")) (some 9) 0 6
    (by decide) (Or.inr (Or.inr (Or.inr (by decide))))

/-- Claim C10: teardown is idempotent. For every server state and connection
id, a second `cleanupClient(id)` after a first one changes nothing and makes no
system call (it closes nothing), so the registry and the closed sockets are
those of the first call; and `cleanupClient` of an id that is not registered
changes nothing and makes no system call. -/
theorem cleanupClient_idempotent (s : ChatServer) (self1 self2 : Nat) (clientSocket : Int)
    (g1 g2 : Bool) :
    cleanupClient (cleanupClient s self1 clientSocket g1).1 self2 clientSocket g2 =
        ((cleanupClient s self1 clientSocket g1).1, []) ∧
      (s.m_clients.find clientSocket = none → cleanupClient s self1 clientSocket g1 = (s, [])) := by
  refine ⟨?_, cleanupClient_absent s self1 clientSocket g1⟩
  apply cleanupClient_absent
  rw [cleanupClient_clients]
  show (s.m_clients.erase clientSocket).find clientSocket = none
  rw [ClientMap.find_erase, if_pos rfl]

/-! # Lemmas for the handshake scan, the routing branches and the key invariant -/

set_option maxRecDepth 100000 in
theorem serverKeyInverts_all : ∀ b : Byte, serverKeyInverts b = true := by
  decide

theorem invertsTo_spec (d n : Int) (b : Byte) (encrypted : Option Int)
    (h : invertsTo d n b encrypted = true) :
    ∃ c, encrypted = some c ∧ modexp c d n = some (b.val : Int) := by
  cases encrypted with
  | none => cases h
  | some c => exact ⟨c, rfl, of_decide_eq_true h⟩

theorem encryptLoop_decryptLoop_server (msg : Bytes) :
    (encryptLoop 5 323 msg).bind (fun ct => decryptLoop 173 323 ct) = some msg := by
  induction msg with
  | nil => rfl
  | cons b rest ih =>
    obtain ⟨c, hc, hcd⟩ := invertsTo_spec 173 323 b _ (serverKeyInverts_all b)
    cases henc : encryptLoop 5 323 rest with
    | none => rw [henc] at ih; cases ih
    | some ct =>
      rw [henc] at ih
      simp only [Option.some_bind] at ih
      simp only [encryptLoop, hc, henc, Option.some_bind, decryptLoop, hcd, ih, decryptedChar_byte]

/-- What `handleReceivedMessage` does with a frame whose decryption is `m`, by the kind of `m`. -/
theorem handleReceivedMessage_kind (s : ChatServer) (send : SendFn) (clientSocket : Int)
    (received m : Bytes) (hne : deserialize_ciphertext received ≠ [])
    (hdec : decrypt (deserialize_ciphertext received) m_server_private_key = some m) :
    handleReceivedMessage s send clientSocket received =
      match messageKind m with
      | .exit => some (s, [])
      | .direct recipient_id message_content =>
        (forwardMessageToClient s send recipient_id (senderIdOf s.m_clients clientSocket)
          message_content clientSocket).map fun r => (s, r.2)
      | .broadcast => some (s, []) := by
  have hemp : (deserialize_ciphertext received).isEmpty = false := by
    cases hd : deserialize_ciphertext received with
    | nil => exact absurd hd hne
    | cons _ _ => rfl
  unfold handleReceivedMessage messageKind
  simp only [hemp, hdec, Option.some_bind, Bool.false_eq_true, if_false]
  split_ifs <;> rfl

/-! ## The split and the trim of a direct message -/

theorem dropWhile_head_false (p : Byte → Bool) (l : Bytes) (c : Byte)
    (h : (l.dropWhile p).head? = some c) : p c = false := by
  have := List.head?_dropWhile_not p l
  rw [h] at this
  exact this

theorem split_at_first_slash (m : Bytes) (h : slash ∈ m) :
    m = m.takeWhile (fun c => c != slash) ++
        slash :: (m.dropWhile (fun c => c != slash)).tail ∧
      slash ∉ m.takeWhile (fun c => c != slash) := by
  constructor
  · have hsplit := List.takeWhile_append_dropWhile (fun c => c != slash) m
    cases hd : m.dropWhile (fun c => c != slash) with
    | nil =>
      have := List.dropWhile_eq_nil_iff.mp hd slash h
      simp at this
    | cons c t =>
      have hc := dropWhile_head_false (fun c => c != slash) m c (by rw [hd]; rfl)
      have hcs : c = slash := by simpa using hc
      rw [hd, hcs] at hsplit
      simp only [List.tail_cons]
      exact hsplit.symm
  · intro hmem
    have := List.mem_takeWhile_imp hmem
    simp at this

theorem trim_decompose (t : Bytes) :
    ∃ lead trail, t = lead ++ trim t ++ trail ∧
      (∀ c ∈ lead, isTrimChar c = true) ∧ (∀ c ∈ trail, isTrimChar c = true) := by
  refine ⟨t.takeWhile isTrimChar,
    ((t.dropWhile isTrimChar).reverse.takeWhile isTrimChar).reverse, ?_, ?_, ?_⟩
  · have h1 := List.takeWhile_append_dropWhile isTrimChar t
    have h2 := List.takeWhile_append_dropWhile isTrimChar (t.dropWhile isTrimChar).reverse
    have h3 : t.dropWhile isTrimChar =
        ((t.dropWhile isTrimChar).reverse.dropWhile isTrimChar).reverse ++
          ((t.dropWhile isTrimChar).reverse.takeWhile isTrimChar).reverse := by
      rw [← List.reverse_append, h2, List.reverse_reverse]
    unfold trim
    rw [List.append_assoc, ← h3, h1]
  · intro c hc
    exact List.mem_takeWhile_imp hc
  · intro c hc
    exact List.mem_takeWhile_imp (List.mem_reverse.mp hc)

theorem trim_last (t : Bytes) (c : Byte) (h : (trim t).getLast? = some c) :
    isTrimChar c = false := by
  unfold trim at h
  rw [List.getLast?_reverse] at h
  exact dropWhile_head_false isTrimChar _ c h

theorem trim_head (t : Bytes) (c : Byte) (h : (trim t).head? = some c) :
    isTrimChar c = false := by
  have hne : trim t ≠ [] := by
    intro h0; rw [h0] at h; cases h
  have h3 : t.dropWhile isTrimChar =
      trim t ++ ((t.dropWhile isTrimChar).reverse.takeWhile isTrimChar).reverse := by
    have h2 := List.takeWhile_append_dropWhile isTrimChar (t.dropWhile isTrimChar).reverse
    unfold trim
    rw [← List.reverse_append, h2, List.reverse_reverse]
  apply dropWhile_head_false isTrimChar t c
  rw [h3, List.head?_append_of_ne_nil _ hne]
  exact h

theorem decrypt_nil_server : decrypt [] m_server_private_key = some [] := rfl

theorem deserialize_ne_nil_of_decrypt (received m : Bytes) (hm : m ≠ [])
    (hdec : decrypt (deserialize_ciphertext received) m_server_private_key = some m) :
    deserialize_ciphertext received ≠ [] := by
  intro h
  rw [h, decrypt_nil_server] at hdec
  cases hdec
  exact hm rfl

theorem forwardMessageToClient_send_failed (s : ChatServer) (send : SendFn)
    (recipient_id sender_id message : Bytes) (senderSocket k : Int) (key ct : List Int)
    (hfound : findRecipient s.m_clients recipient_id = some (k, key))
    (hk : k ≠ -1) (hkey : key ≠ [])
    (henc : encrypt (lit "[DM from " ++ sender_id ++ lit "]: " ++ message) key = some ct)
    (hsend : send k (serialize_ciphertext ct) ≤ 0) :
    forwardMessageToClient s send recipient_id sender_id message senderSocket =
      (sendErrorToClient s send senderSocket
        (lit "Error: Failed to deliver message to '" ++ recipient_id ++
          lit "'. They may have disconnected.")).map
        fun r => (false, SysCall.send k (serialize_ciphertext ct) :: r.2) := by
  have hempty : key.isEmpty = false := by
    cases key with
    | nil => exact absurd rfl hkey
    | cons _ _ => rfl
  unfold forwardMessageToClient
  simp only [hfound, hk, hempty, false_or, Bool.false_eq_true, if_false, henc, Option.some_bind,
    if_pos hsend]

/-! ## Scanning decimal integers -/

theorem readDigits_digits (ds : Bytes) (hds : ∀ c ∈ ds, isdigit c = true) (rest : Bytes) :
    ∀ a, readDigits (ds ++ rest) a =
      readDigits rest (ds.foldl (fun a c => a * 10 + (c.val - 48)) a) := by
  induction ds with
  | nil => intro a; rfl
  | cons c t ih =>
    intro a
    have hc := hds c (List.mem_cons_self _ _)
    simp only [List.cons_append, readDigits, hc, if_true, List.foldl_cons]
    exact ih (fun c hc => hds c (List.mem_cons_of_mem _ hc)) _

theorem readDigits_inv (s : Bytes) :
    ∀ a, ∃ ds, s = ds ++ (readDigits s a).2 ∧ (∀ c ∈ ds, isdigit c = true) ∧
      NoDigitAhead (readDigits s a).2 ∧
      (readDigits s a).1 = ds.foldl (fun a c => a * 10 + (c.val - 48)) a := by
  induction s with
  | nil => intro a; exact ⟨[], rfl, by simp, noDigitAhead_nil, rfl⟩
  | cons c t ih =>
    intro a
    by_cases hc : isdigit c = true
    · obtain ⟨ds, h1, h2, h3, h4⟩ := ih (a * 10 + (c.val - 48))
      refine ⟨c :: ds, ?_, ?_, ?_, ?_⟩
      · simp only [readDigits, hc, if_true, List.cons_append]
        rw [← h1]
      · intro x hx
        rcases List.mem_cons.mp hx with hx | hx
        · rw [hx]; exact hc
        · exact h2 x hx
      · simp only [readDigits, hc, if_true]; exact h3
      · simp only [readDigits, hc, if_true, List.foldl_cons]; exact h4
    · refine ⟨[], ?_, by simp, ?_, ?_⟩
      · simp only [readDigits, hc, if_false, List.nil_append, Bool.false_eq_true]
      · simp only [readDigits, hc, if_false, Bool.false_eq_true]
        intro c2 t2 h
        cases h
        simpa using hc
      · simp only [readDigits, hc, if_false, List.foldl_nil, Bool.false_eq_true]

theorem scanInt_signed (sg ds rest : Bytes)
    (hsg : sg = [] ∨ sg = [(45 : Byte)] ∨ sg = [(43 : Byte)]) (hne : ds ≠ [])
    (hds : ∀ c ∈ ds, isdigit c = true) :
    scanInt (sg ++ (ds ++ rest)) =
      some (sg == [(45 : Byte)], (readDigits (ds ++ rest) 0).1, (readDigits (ds ++ rest) 0).2) := by
  cases ds with
  | nil => exact absurd rfl hne
  | cons d t =>
    have hd : isdigit d = true := hds d (List.mem_cons_self _ _)
    have h45 : d ≠ 45 := by rintro rfl; exact absurd hd (by decide)
    have h43 : d ≠ 43 := by rintro rfl; exact absurd hd (by decide)
    rcases hsg with h | h | h
    · subst h
      unfold scanInt
      simp [h45, h43, hd]
    · subst h
      unfold scanInt
      simp [hd]
    · subst h
      unfold scanInt
      simp [hd]

theorem scanInt_decimal (t : Bytes) (x : Int) (rest : Bytes) (ht : IsDecimal t x)
    (hrest : NoDigitAhead rest) :
    ∃ neg v, scanInt (t ++ rest) = some (neg, v, rest) ∧ signedValue neg v = x := by
  obtain ⟨sg, ds, rfl, hsg, hne, hds, hx⟩ := ht
  refine ⟨sg == [(45 : Byte)], digitsValue ds, ?_, hx.symm⟩
  rw [List.append_assoc, scanInt_signed sg ds rest hsg hne hds, readDigits_digits ds hds rest 0,
    readDigits_stop rest hrest]
  rfl

theorem scanInt_decimal_isSome (t : Bytes) (x : Int) (rest : Bytes) (ht : IsDecimal t x) :
    (scanInt (t ++ rest)).isSome = true := by
  obtain ⟨sg, ds, rfl, hsg, hne, hds, _⟩ := ht
  rw [List.append_assoc, scanInt_signed sg ds rest hsg hne hds]
  rfl

theorem isDecimal_head (t : Bytes) (x : Int) (ht : IsDecimal t x) :
    ∃ c u, t = c :: u ∧ isspace c = false := by
  obtain ⟨sg, ds, rfl, hsg, hne, hds, _⟩ := ht
  cases ds with
  | nil => exact absurd rfl hne
  | cons d u =>
    have hd : isdigit d = true := hds d (List.mem_cons_self _ _)
    rcases hsg with h | h | h
    · subst h; exact ⟨d, u, rfl, isspace_of_isdigit d hd⟩
    · subst h; exact ⟨45, d :: u, rfl, by decide⟩
    · subst h; exact ⟨43, d :: u, rfl, by decide⟩

theorem dropWhile_isspace_decimal (ws t rest : Bytes) (x : Int)
    (hws : ∀ c ∈ ws, isspace c = true) (ht : IsDecimal t x) :
    (ws ++ (t ++ rest)).dropWhile isspace = t ++ rest := by
  obtain ⟨c, u, rfl, hc⟩ := isDecimal_head t x ht
  rw [dropWhile_isspace_append ws _ hws]
  simp [List.dropWhile_cons, hc]

theorem scanLL_decimal (ws t rest : Bytes) (x : Int) (hws : ∀ c ∈ ws, isspace c = true)
    (ht : IsDecimal t x) (hrest : NoDigitAhead rest) :
    scanLL (ws ++ (t ++ rest)) = some (saturate x, rest) := by
  obtain ⟨neg, v, hscan, hval⟩ := scanInt_decimal t x rest ht hrest
  unfold scanLL
  rw [dropWhile_isspace_decimal ws t rest x hws ht, hscan]
  simp only [hval]

theorem scanLL_decimal_isSome (ws t rest : Bytes) (x : Int) (hws : ∀ c ∈ ws, isspace c = true)
    (ht : IsDecimal t x) : (scanLL (ws ++ (t ++ rest))).isSome = true := by
  have h := scanInt_decimal_isSome t x rest ht
  obtain ⟨r, hr⟩ := Option.isSome_iff_exists.mp h
  unfold scanLL
  rw [dropWhile_isspace_decimal ws t rest x hws ht, hr]
  rfl

theorem saturate_of_isInt64 (x : Int) (hx : IsInt64 x) : saturate x = x := by
  unfold saturate
  rw [if_neg (by have := hx.1; omega), if_neg (by have := hx.2; omega)]

theorem scanInt_inv (s : Bytes) (neg : Bool) (v : Nat) (rest : Bytes)
    (h : scanInt s = some (neg, v, rest)) :
    ∃ t, s = t ++ rest ∧ IsDecimal t (signedValue neg v) ∧ NoDigitAhead rest := by
  unfold scanInt at h
  dsimp only at h
  -- the text after the sign
  generalize hs1 : (if (s.head? == some (45 : Byte) || s.head? == some (43 : Byte)) = true
    then s.tail else s) = s1 at h
  cases s1 with
  | nil => cases h
  | cons c u =>
    simp only at h
    by_cases hc : isdigit c = true
    · rw [if_pos hc] at h
      simp only [Option.some.injEq, Prod.mk.injEq] at h
      obtain ⟨hneg, hv, hrest⟩ := h
      obtain ⟨ds, h1, h2, h3, h4⟩ := readDigits_inv (c :: u) 0
      rw [hrest] at h1 h3
      rw [hv] at h4
      have hne : ds ≠ [] := by
        intro h0
        rw [h0] at h1
        simp only [List.nil_append] at h1
        have := h3 c u h1.symm
        rw [hc] at this
        cases this
      by_cases hsign : (s.head? == some (45 : Byte) || s.head? == some (43 : Byte)) = true
      · rw [if_pos hsign] at hs1
        cases s with
        | nil => simp at hsign
        | cons sc st =>
          simp only [List.tail_cons] at hs1
          simp only [List.head?_cons, Bool.or_eq_true, beq_iff_eq, Option.some.injEq] at hsign hneg
          refine ⟨[sc] ++ ds, ?_, ⟨[sc], ds, rfl, ?_, hne, h2, ?_⟩, h3⟩
          · rw [hs1, h1]; simp
          · rcases hsign with h | h
            · right; left; rw [h]
            · right; right; rw [h]
          · rw [← hneg, h4]
            congr 1
            rcases hsign with h | h
            · subst h; decide
            · subst h; decide
      · rw [if_neg hsign] at hs1
        refine ⟨ds, ?_, ⟨[], ds, rfl, Or.inl rfl, hne, h2, ?_⟩, h3⟩
        · rw [hs1, h1]
        · rw [← hneg, h4]
          simp only [Bool.or_eq_true, not_or] at hsign
          have : (s.head? == some (45 : Byte)) = false := by simpa using hsign.1
          rw [this]
          rfl
    · rw [if_neg hc] at h
      cases h

theorem scanLL_inv (s : Bytes) (x : Int) (r : Bytes) (h : scanLL s = some (x, r)) :
    ∃ ws t v, s = ws ++ (t ++ r) ∧ (∀ c ∈ ws, isspace c = true) ∧ IsDecimal t v ∧
      NoDigitAhead r ∧ x = saturate v := by
  unfold scanLL at h
  cases hscan : scanInt (s.dropWhile isspace) with
  | none => rw [hscan] at h; cases h
  | some res =>
    obtain ⟨neg, v, rest⟩ := res
    rw [hscan] at h
    simp only [Option.some.injEq, Prod.mk.injEq] at h
    obtain ⟨t, ht, hdec, hno⟩ := scanInt_inv _ neg v rest hscan
    rw [h.2] at ht hno
    refine ⟨s.takeWhile isspace, t, signedValue neg v, ?_, ?_, hdec, hno, h.1.symm⟩
    · rw [← ht, List.takeWhile_append_dropWhile]
    · intro c hc
      exact List.mem_takeWhile_imp hc

/-- The scan assigns both integers exactly when the text starts with two decimal integers. -/
theorem sscanfKey_assigned_iff (text : Bytes) :
    2 ≤ (sscanfKey text).assigned ↔ StartsWithTwoIntegers text := by
  constructor
  · intro h
    unfold sscanfKey at h
    cases h1 : scanLL text with
    | none => rw [h1] at h; simp at h
    | some r1 =>
      obtain ⟨e, rest1⟩ := r1
      rw [h1] at h
      cases h2 : scanLL rest1 with
      | none => simp [h2, KeyScan.assigned] at h
      | some r2 =>
        obtain ⟨n, rest2⟩ := r2
        obtain ⟨ws0, t1, v1, ht1, hws0, hd1, hno1, _⟩ := scanLL_inv text e rest1 h1
        obtain ⟨ws1, t2, v2, ht2, hws1, hd2, _, _⟩ := scanLL_inv rest1 n rest2 h2
        refine ⟨ws0, t1, ws1, t2, rest2, v1, v2, ?_, hws0, hws1, hd1, hd2, ?_⟩
        · rw [ht1, ht2]
        · rw [← ht2]; exact hno1
  · rintro ⟨ws0, t1, ws1, t2, rest, e, n, rfl, hws0, hws1, hd1, hd2, hno⟩
    have h1 := scanLL_decimal ws0 t1 (ws1 ++ (t2 ++ rest)) e hws0 hd1 hno
    obtain ⟨r2, hr2⟩ := Option.isSome_iff_exists.mp (scanLL_decimal_isSome ws1 t2 rest n hws1 hd2)
    obtain ⟨n2, rest2⟩ := r2
    unfold sscanfKey
    rw [h1]
    simp only [hr2]
    split_ifs <;> simp

theorem take_eq_nil_iff_of_pos (t : Bytes) : t.take 255 = [] ↔ t = [] := by
  cases t with
  | nil => simp
  | cons c u => simp

theorem noDigitAhead_of_space (s : Bytes) (h : s = [] ∨ ∃ c t, s = c :: t ∧ isspace c = true) :
    NoDigitAhead s := by
  rcases h with h | ⟨c, t, h, hc⟩
  · rw [h]; exact noDigitAhead_nil
  · intro c2 t2 h2
    rw [h] at h2
    cases h2
    cases hd : isdigit c with
    | false => rfl
    | true => rw [isspace_of_isdigit c hd] at hc; cases hc

/-- The scan of a frame made of two white-space separated decimal integers and a rest. -/
theorem sscanfKey_frame (ws0 te ws1 tn rest : Bytes) (e n : Int)
    (hws0 : ∀ c ∈ ws0, isspace c = true) (hws1 : ∀ c ∈ ws1, isspace c = true) (hsep : ws1 ≠ [])
    (he : IsDecimal te e) (hn : IsDecimal tn n) (hrest : NoDigitAhead rest) :
    sscanfKey (ws0 ++ (te ++ (ws1 ++ (tn ++ rest)))) =
      if (scanToken rest).isEmpty then ⟨2, saturate e, saturate n, []⟩
      else ⟨3, saturate e, saturate n, scanToken rest⟩ := by
  have hno : NoDigitAhead (ws1 ++ (tn ++ rest)) := by
    cases ws1 with
    | nil => exact absurd rfl hsep
    | cons c t =>
      exact noDigitAhead_of_space _ (Or.inr ⟨c, _, rfl, hws1 c (List.mem_cons_self _ _)⟩)
  unfold sscanfKey
  rw [scanLL_decimal ws0 te _ e hws0 he hno]
  simp only [scanLL_decimal ws1 tn rest n hws1 hn hrest]

theorem ClientMap.mem_assign_of_ne (m : ClientMap) (k : Int) (v : ClientSession)
    (p : Int × ClientSession) (hp : p ∈ m) (hk : p.1 ≠ k) : p ∈ m.assign k v := by
  induction m with
  | nil => cases hp
  | cons q rest ih =>
    obtain ⟨k1, v1⟩ := q
    unfold ClientMap.assign
    by_cases h1 : k1 = k
    · rw [if_pos h1]
      rcases List.mem_cons.mp hp with h | h
      · subst h; exact absurd h1 hk
      · exact List.mem_cons_of_mem _ h
    · rw [if_neg h1]
      by_cases h2 : k < k1
      · rw [if_pos h2]; exact List.mem_cons_of_mem _ hp
      · rw [if_neg h2]
        rcases List.mem_cons.mp hp with h | h
        · subst h; exact List.mem_cons_self _ _
        · exact List.mem_cons_of_mem _ (ih h)

theorem ClientMap.mem_assign_ne_iff (m : ClientMap) (k : Int) (v : ClientSession)
    (p : Int × ClientSession) (hk : p.1 ≠ k) : p ∈ m.assign k v ↔ p ∈ m := by
  constructor
  · intro h
    rcases ClientMap.mem_assign m k v p h with h | ⟨h, _⟩ | ⟨h, _⟩
    · subst h; exact absurd rfl hk
    · exact h
    · exact h
  · intro h
    exact ClientMap.mem_assign_of_ne m k v p h hk

/-- A step that leaves an entry connected found it connected, unless it is `startClientReceiver`. -/
theorem connected_set_by_startClientReceiver (σ : System) (st : Step) (k : Int) (c : ClientSession)
    (hfind : (σ.step st).server.m_clients.find k = some c) (hconn : c.connected = true) :
    (∃ c0, σ.server.m_clients.find k = some c0 ∧ c0.connected = true) ∨
      ∃ created, st = Step.startClientReceiver created := by
  obtain ⟨server, stage⟩ := σ
  cases st with
  | startClientReceiver created => exact Or.inr ⟨created, rfl⟩
  | accept fd =>
    left
    cases stage with
    | idle =>
      simp only [System.step] at hfind
      split_ifs at hfind with hfd
      · exact ⟨c, hfind, hconn⟩
      · change (server.m_clients.assign fd (newSession fd)).find k = some c at hfind
        rw [ClientMap.find_assign] at hfind
        split_ifs at hfind
        · cases hfind; cases hconn
        · exact ⟨c, hfind, hconn⟩
    | accepted _ => exact ⟨c, hfind, hconn⟩
    | exchanged _ => exact ⟨c, hfind, hconn⟩
    | failed _ => exact ⟨c, hfind, hconn⟩
  | exchangeKeys send recv =>
    left
    cases stage with
    | accepted fd =>
      change (exchangeKeys server send recv fd).2.1.m_clients.find k = some c at hfind
      cases hr : (exchangeKeys server send recv fd).1 with
      | false =>
        rw [exchangeKeys_false server send recv fd hr] at hfind
        exact ⟨c, hfind, hconn⟩
      | true =>
        rw [exchangeKeys_find server send recv fd hr] at hfind
        split_ifs at hfind with hk
        · cases hfind
          subst hk
          have hc : (server.m_clients.at k).connected = true := hconn
          unfold ClientMap.at at hc
          cases hf : server.m_clients.find k with
          | none => rw [hf] at hc; cases hc
          | some c0 =>
            rw [hf] at hc
            exact ⟨c0, rfl, hc⟩
        · exact ⟨c, hfind, hconn⟩
    | idle => exact ⟨c, hfind, hconn⟩
    | exchanged _ => exact ⟨c, hfind, hconn⟩
    | failed _ => exact ⟨c, hfind, hconn⟩
  | abandon self =>
    left
    cases stage with
    | failed fd =>
      simp only [System.step, cleanupClient_clients] at hfind
      change (server.m_clients.erase fd).find k = some c at hfind
      rw [ClientMap.find_erase] at hfind
      split_ifs at hfind
      exact ⟨c, hfind, hconn⟩
    | idle => exact ⟨c, hfind, hconn⟩
    | accepted _ => exact ⟨c, hfind, hconn⟩
    | exchanged _ => exact ⟨c, hfind, hconn⟩
  | cleanupClient self fd g =>
    left
    simp only [System.step, cleanupClient_clients] at hfind
    change (server.m_clients.erase fd).find k = some c at hfind
    rw [ClientMap.find_erase] at hfind
    split_ifs at hfind
    exact ⟨c, hfind, hconn⟩

theorem saturate_eq_clamp (x : Int) : saturate x = max INT64_MIN (min INT64_MAX x) := by
  unfold saturate INT64_MIN INT64_MAX
  rw [max_def, min_def]
  split_ifs <;> omega

theorem handshakeUserId_token (rest : Bytes) (e n : Int) :
    handshakeUserId (if (scanToken rest).isEmpty then ⟨2, e, n, []⟩ else ⟨3, e, n, scanToken rest⟩) =
      if nextToken rest = [] then lit "(unknown)" else (nextToken rest).take 255 := by
  have hst : scanToken rest = (nextToken rest).take 255 := rfl
  by_cases ht : nextToken rest = []
  · rw [if_pos ht]
    have : scanToken rest = [] := by rw [hst, ht]; rfl
    rw [this]
    rfl
  · rw [if_neg ht]
    have h255 : scanToken rest ≠ [] := by
      rw [hst]
      exact fun h => ht ((take_eq_nil_iff_of_pos _).mp h)
    cases hx : scanToken rest with
    | nil => exact absurd hx h255
    | cons c t =>
      rw [← hst, hx]
      simp [handshakeUserId]

set_option maxRecDepth 100000 in
theorem startsWithKey_overlong :
    StartsWithKey (lit "99999999999999999999 5 zed") 99999999999999999999 5 (lit " zed") :=
  ⟨[], lit "99999999999999999999", lit " ", lit "5", by decide, by decide, by decide, by decide,
    ⟨[], lit "99999999999999999999", rfl, Or.inl rfl, by decide, by decide, by decide⟩,
    ⟨[], lit "5", rfl, Or.inl rfl, by decide, by decide, by decide⟩,
    noDigitAhead_space _⟩

/-- Claim C11 (counterexample): the handshake frame `"99999999999999999999 5 zed"`
starts with the decimal integers `e = 99999999999999999999` and `n = 5`;
`exchangeKeys` succeeds on it and records the public key
`[9223372036854775807, 5]`, which is not `[e, n]`. -/
theorem handshake_overlong_integer_clamped :
    StartsWithKey (lit "99999999999999999999 5 zed") 99999999999999999999 5 (lit " zed") ∧
      (exchangeKeys accepted6 sendOk (RecvResult.data (lit "99999999999999999999 5 zed")) 6).1 = true ∧
      ((exchangeKeys accepted6 sendOk (RecvResult.data (lit "99999999999999999999 5 zed"))
          6).2.1.m_clients.find 6).map (fun c => (c.public_key, c.user_id)) =
        some ([9223372036854775807, 5], lit "zed") ∧
      ([9223372036854775807, 5] : List Int) ≠ [99999999999999999999, 5] := by
  refine ⟨startsWithKey_overlong, by decide, by decide, by decide⟩

/-- Claim C11 (amended): for every client handshake frame that starts with two
white-space separated decimal integers `e` and `n`, a successful `exchangeKeys`
records the public key `[e', n']`, where `e'` and `n'` are `e` and `n` clamped
to the range of a `long long` (so `[e, n]` when both fit), and, as `user_id`,
the next white-space delimited token after `n`, cut to 255 bytes; when there
is no such token the recorded `user_id` is `"(unknown)"`. -/
theorem handshake_records_clamped_key_and_user (s : ChatServer) (send : SendFn) (bytes : Bytes)
    (clientSocket : Int) (e n : Int) (rest : Bytes)
    (hframe : StartsWithKey (cstr bytes) e n rest)
    (hok : (exchangeKeys s send (.data bytes) clientSocket).1 = true) :
    ∃ c, (exchangeKeys s send (.data bytes) clientSocket).2.1.m_clients.find clientSocket = some c ∧
      c.public_key = [max INT64_MIN (min INT64_MAX e), max INT64_MIN (min INT64_MAX n)] ∧
      (IsInt64 e → IsInt64 n → c.public_key = [e, n]) ∧
      c.user_id = if nextToken rest = [] then lit "(unknown)" else (nextToken rest).take 255 := by
  obtain ⟨ws0, te, ws1, tn, hf, hws0, hws1, hsep, he, hn, hrest⟩ := hframe
  have hscan := sscanfKey_frame ws0 te ws1 tn rest e n hws0 hws1 hsep he hn hrest
  rw [← hf] at hscan
  have hfind := exchangeKeys_find s send (.data bytes) clientSocket hok clientSocket
  rw [if_pos rfl, show (RecvResult.data bytes).text = cstr bytes from rfl] at hfind
  have hkey : [(sscanfKey (cstr bytes)).client_e, (sscanfKey (cstr bytes)).client_n] =
      [saturate e, saturate n] := by
    rw [hscan]
    split_ifs <;> rfl
  refine ⟨_, hfind, ?_, ?_, ?_⟩
  · show [(sscanfKey (cstr bytes)).client_e, (sscanfKey (cstr bytes)).client_n] = _
    rw [hkey, saturate_eq_clamp, saturate_eq_clamp]
  · intro hie hin
    show [(sscanfKey (cstr bytes)).client_e, (sscanfKey (cstr bytes)).client_n] = _
    rw [hkey, saturate_of_isInt64 e hie, saturate_of_isInt64 n hin]
  · show handshakeUserId (sscanfKey (cstr bytes)) = _
    rw [hscan]
    exact handshakeUserId_token rest _ _

set_option maxRecDepth 100000 in
theorem handshake_records_clamped_key_and_user_witness :
    (∃ c, (exchangeKeys accepted6 sendOk (.data (lit "7 299abc")) 6).2.1.m_clients.find 6 = some c ∧
      c.public_key = [max INT64_MIN (min INT64_MAX 7), max INT64_MIN (min INT64_MAX 299)] ∧
      (IsInt64 7 → IsInt64 299 → c.public_key = [7, 299]) ∧
      c.user_id = if nextToken (lit "abc") = [] then lit "(unknown)"
        else (nextToken (lit "abc")).take 255) ∧
      (exchangeKeys accepted6 sendOk (.data (lit "7 299abc")) 6).2.1.m_clients.find 6 =
        some ⟨6, [7, 299], 0, lit "abc", false⟩ ∧
      (exchangeKeys accepted6 sendOk (.data (lit "7 299")) 6).2.1.m_clients.find 6 =
        some ⟨6, [7, 299], 0, lit "(unknown)", false⟩ :=
  ⟨handshake_records_clamped_key_and_user accepted6 sendOk (lit "7 299abc") 6 7 299 (lit "abc")
    ⟨[], lit "7", lit " ", lit "299", by decide, by decide, by decide, by decide,
      ⟨[], lit "7", rfl, Or.inl rfl, by decide, by decide, by decide⟩,
      ⟨[], lit "299", rfl, Or.inl rfl, by decide, by decide, by decide⟩,
      by intro c t h; cases h; decide⟩
    (by decide), by decide, by decide⟩

/-- Claim C12: when the connection has its placeholder entry and `exchangeKeys`
succeeds, the entry of the connection has `public_key == [e, n]` and the parsed
user id, with `connected` still `false`, and every other entry (and the rest of
the server) is unchanged. `startClientReceiver` then sets `connected` to `true`,
and it is the only step of the server after which an entry is connected that
was not connected before. -/
theorem exchangeKeys_fills_placeholder (s : ChatServer) (send : SendFn) (recv : RecvResult)
    (clientSocket : Int)
    (hplaceholder : s.m_clients.find clientSocket = some (newSession clientSocket))
    (hok : (exchangeKeys s send recv clientSocket).1 = true) :
    (exchangeKeys s send recv clientSocket).2.1.m_clients.find clientSocket =
        some ⟨clientSocket, [(sscanfKey recv.text).client_e, (sscanfKey recv.text).client_n], 0,
          handshakeUserId (sscanfKey recv.text), false⟩ ∧
      (∀ k, k ≠ clientSocket →
        (exchangeKeys s send recv clientSocket).2.1.m_clients.find k = s.m_clients.find k) ∧
      (∀ p : Int × ClientSession, p.1 ≠ clientSocket →
        (p ∈ (exchangeKeys s send recv clientSocket).2.1.m_clients ↔ p ∈ s.m_clients)) ∧
      (exchangeKeys s send recv clientSocket).2.1.m_running = s.m_running ∧
      (exchangeKeys s send recv clientSocket).2.1.m_server_socket = s.m_server_socket ∧
      (∀ t, (startClientReceiver (exchangeKeys s send recv clientSocket).2.1 (some t)
          clientSocket).2.1.m_clients.find clientSocket =
        some ⟨clientSocket, [(sscanfKey recv.text).client_e, (sscanfKey recv.text).client_n], t,
          handshakeUserId (sscanfKey recv.text), true⟩) ∧
      (∀ (σ : System) (st : Step) (k : Int) (c : ClientSession),
        (σ.step st).server.m_clients.find k = some c → c.connected = true →
          (∃ c0, σ.server.m_clients.find k = some c0 ∧ c0.connected = true) ∨
            ∃ created, st = Step.startClientReceiver created) := by
  have hfind := exchangeKeys_find s send recv clientSocket hok
  have hstate := (exchangeKeys_true s send recv clientSocket hok).2
  have hat : s.m_clients.at clientSocket = newSession clientSocket := by
    unfold ClientMap.at; rw [hplaceholder]; rfl
  have hentry : (exchangeKeys s send recv clientSocket).2.1.m_clients.find clientSocket =
      some ⟨clientSocket, [(sscanfKey recv.text).client_e, (sscanfKey recv.text).client_n], 0,
        handshakeUserId (sscanfKey recv.text), false⟩ := by
    rw [hfind, if_pos rfl]
    unfold keyedSession
    rw [hat]
    rfl
  refine ⟨hentry, ?_, ?_, ?_, ?_, ?_, connected_set_by_startClientReceiver⟩
  · intro k hk
    rw [hfind, if_neg hk]
  · intro p hp
    rw [hstate]
    show p ∈ keyedClients s.m_clients clientSocket (sscanfKey recv.text) ↔ p ∈ s.m_clients
    unfold keyedClients
    rw [ClientMap.mem_assign_ne_iff _ _ _ p hp, ClientMap.mem_assign_ne_iff _ _ _ p hp]
  · rw [hstate]
  · rw [hstate]
  · intro t
    unfold startClientReceiver
    simp only [hentry]
    show (ClientMap.assign _ clientSocket _).find clientSocket = _
    rw [ClientMap.find_assign, if_pos rfl]

theorem exchangeKeys_fills_placeholder_witness :
    (exchangeKeys accepted6 sendOk (.data (lit "7 299 carol")) 6).2.1.m_clients =
      [(4, aliceSession), (5, bobSession), (6, ⟨6, [7, 299], 0, lit "carol", false⟩)] ∧
    (startClientReceiver (exchangeKeys accepted6 sendOk (.data (lit "7 299 carol")) 6).2.1
        (some 9) 6).2.1.m_clients =
      [(4, aliceSession), (5, bobSession), (6, ⟨6, [7, 299], 9, lit "carol", true⟩)] ∧
    (∀ k, k ≠ 6 → (exchangeKeys accepted6 sendOk (.data (lit "7 299 carol")) 6).2.1.m_clients.find k =
      accepted6.m_clients.find k) :=
  ⟨by decide, by decide,
    (exchangeKeys_fills_placeholder accepted6 sendOk (.data (lit "7 299 carol")) 6
      (by decide) (by decide)).2.1⟩

/-- Claim C13: when the send of the server key and the receive succeed and no
connected entry has the user id of the frame, `exchangeKeys` fails exactly when
the received text does not start with two decimal integers (the parse error);
it then leaves the server state, with the placeholder and every other entry,
unchanged, and its only system call is the send of the server key. -/
theorem exchangeKeys_parse_error_iff (s : ChatServer) (send : SendFn) (bytes : Bytes)
    (clientSocket : Int)
    (hsend : 0 < send clientSocket serverKeyMessage)
    (hrecv : 0 < bytes.length)
    (hnodup : 2 ≤ (sscanfKey (cstr bytes)).assigned →
      userConnected s.m_clients (handshakeUserId (sscanfKey (cstr bytes))) = false) :
    ((exchangeKeys s send (.data bytes) clientSocket).1 = false ↔
        ¬ StartsWithTwoIntegers (cstr bytes)) ∧
      ((exchangeKeys s send (.data bytes) clientSocket).1 = false →
        (exchangeKeys s send (.data bytes) clientSocket).2.1 = s ∧
        (exchangeKeys s send (.data bytes) clientSocket).2.2 =
          [SysCall.send clientSocket serverKeyMessage]) := by
  have hlen : ¬ (RecvResult.data bytes).len ≤ 0 := by
    show ¬ ((bytes.length : Int) ≤ 0)
    omega
  have hiff : (exchangeKeys s send (.data bytes) clientSocket).1 = false ↔
      ¬ StartsWithTwoIntegers (cstr bytes) := by
    rw [exchangeKeys_eq_false_iff, ← sscanfKey_assigned_iff]
    show _ ∨ _ ∨ (sscanfKey (cstr bytes)).assigned < 2 ∨
      userConnected s.m_clients (handshakeUserId (sscanfKey (cstr bytes))) = true ↔ _
    constructor
    · rintro (h | h | h | h)
      · omega
      · exact absurd h hlen
      · omega
      · intro h2
        rw [hnodup h2] at h
        cases h
    · intro h
      right; right; left; omega
  refine ⟨hiff, ?_⟩
  intro hfalse
  refine ⟨exchangeKeys_false s send (.data bytes) clientSocket hfalse, ?_⟩
  have hparse : ¬ 2 ≤ (sscanfKey (cstr bytes)).assigned := by
    rw [sscanfKey_assigned_iff]; exact hiff.mp hfalse
  unfold exchangeKeys
  dsimp only
  rw [if_neg (by omega), if_neg hlen]
  simp only [RecvResult.text]
  rw [if_neg hparse]

theorem exchangeKeys_parse_error_iff_witness :
    ((exchangeKeys accepted6 sendOk (.data (lit "hello 7 299")) 6).1 = false ↔
        ¬ StartsWithTwoIntegers (cstr (lit "hello 7 299"))) ∧
      ((exchangeKeys accepted6 sendOk (.data (lit "hello 7 299")) 6).1 = false →
        (exchangeKeys accepted6 sendOk (.data (lit "hello 7 299")) 6).2.1 = accepted6 ∧
        (exchangeKeys accepted6 sendOk (.data (lit "hello 7 299")) 6).2.2 =
          [SysCall.send 6 serverKeyMessage]) :=
  exchangeKeys_parse_error_iff accepted6 sendOk (lit "hello 7 299") 6 (by decide) (by decide)
    (by decide)

/-- Claim C14: when the decrypted message is exactly `"exit"`,
`handleReceivedMessage` makes no system call (no send to anyone, no `shutdown`
or `close` of the sender's socket) and leaves the server state unchanged. The
exit branch is taken for that message only: `"Exit"` and `"exit "` take the
broadcast branch and `"exit/x"` is a direct message to `"exit"`. -/
theorem exit_message_only_logged (s : ChatServer) (send : SendFn) (clientSocket : Int)
    (received : Bytes)
    (hdec : decrypt (deserialize_ciphertext received) m_server_private_key = some (lit "exit")) :
    handleReceivedMessage s send clientSocket received = some (s, []) ∧
      (∀ m, messageKind m = MessageKind.exit ↔ m = lit "exit") ∧
      messageKind (lit "Exit") = MessageKind.broadcast ∧
      messageKind (lit "exit ") = MessageKind.broadcast ∧
      messageKind (lit "exit/x") = MessageKind.direct (lit "exit") (lit "x") := by
  refine ⟨?_, ?_, by decide, by decide, by decide⟩
  · rw [handleReceivedMessage_kind s send clientSocket received (lit "exit")
      (deserialize_ne_nil_of_decrypt received _ (by decide) hdec) hdec]
    rfl
  · intro m
    unfold messageKind
    constructor
    · intro h
      split_ifs at h with h1
      exact h1
    · intro h
      rw [if_pos h]

theorem exit_message_only_logged_witness :
    handleReceivedMessage twoClients sendOk 4 (lit "271 290 22 165") = some (twoClients, []) ∧
      (∀ m, messageKind m = MessageKind.exit ↔ m = lit "exit") ∧
      messageKind (lit "Exit") = MessageKind.broadcast ∧
      messageKind (lit "exit ") = MessageKind.broadcast ∧
      messageKind (lit "exit/x") = MessageKind.direct (lit "exit") (lit "x") :=
  exit_message_only_logged twoClients sendOk 4 (lit "271 290 22 165") (by decide)

/-! ## What the trim removes -/

set_option maxRecDepth 100000 in
theorem isTrimChar_iff_all : ∀ c : Byte,
    (isTrimChar c = true ↔ (c = 32 ∨ c = 9 ∨ c = 13 ∨ c = 10)) := by
  decide

theorem isTrimChar_iff (c : Byte) : isTrimChar c = true ↔ IsBlank c :=
  isTrimChar_iff_all c

theorem isTrimChar_false_iff (c : Byte) : isTrimChar c = false ↔ ¬ IsBlank c := by
  rw [← isTrimChar_iff]
  cases isTrimChar c <;> simp

set_option maxRecDepth 100000 in
theorem frameVtBobHello_handled :
    decrypt (deserialize_ciphertext frameVtBobHello) m_server_private_key =
        some ((11 : Byte) :: lit "bob/hello") ∧
      handleReceivedMessage twoClients sendOk 4 frameVtBobHello =
        some (twoClients, [SysCall.send 4 (serialize_ciphertext errVtBobAbsent)]) := by
  decide

/-- Claim C15 (counterexample): the decrypted message made of a vertical tab
and `bob/hello` contains `'/'` and is not `"exit"`; the vertical tab is white
space, yet it is not removed: the recipient id handed to the lookup is the
vertical tab followed by `bob`, so the connected user `bob` is not found and
alice gets the error reply instead of bob the message. -/
theorem vertical_tab_not_trimmed :
    isspace 11 = true ∧
      decrypt (deserialize_ciphertext frameVtBobHello) m_server_private_key =
        some ((11 : Byte) :: lit "bob/hello") ∧
      messageKind ((11 : Byte) :: lit "bob/hello") =
        MessageKind.direct ((11 : Byte) :: lit "bob") (lit "hello") ∧
      (11 : Byte) :: lit "bob" ≠ lit "bob" ∧
      findRecipient twoClients.m_clients (lit "bob") = some (5, [7, 299]) ∧
      findRecipient twoClients.m_clients ((11 : Byte) :: lit "bob") = none ∧
      handleReceivedMessage twoClients sendOk 4 frameVtBobHello =
        some (twoClients, [SysCall.send 4 (serialize_ciphertext errVtBobAbsent)]) := by
  refine ⟨by decide, frameVtBobHello_handled.1, by decide, by decide, by decide, by decide,
    frameVtBobHello_handled.2⟩

/-- Claim C15 (amended): for every decrypted message `m` other than `"exit"`
that contains `'/'`, written `m == pre + "/" + body` with no `'/'` in `pre`,
the recipient id used for the lookup is `pre` with all leading and trailing
spaces, tabs, carriage returns and line feeds removed, and no other byte
removed (other white space, such as a vertical tab or a form feed, stays), and
the body is everything after that first `'/'`, unchanged. Every message that
contains `'/'` has exactly this form and is not `"exit"`. -/
theorem direct_message_split_trims_blanks (s : ChatServer) (send : SendFn) (clientSocket : Int)
    (received pre body : Bytes)
    (hdec : decrypt (deserialize_ciphertext received) m_server_private_key =
      some (pre ++ slash :: body))
    (hpre : slash ∉ pre) :
    pre ++ slash :: body ≠ lit "exit" ∧
      messageKind (pre ++ slash :: body) = MessageKind.direct (trim pre) body ∧
      handleReceivedMessage s send clientSocket received =
        (forwardMessageToClient s send (trim pre) (senderIdOf s.m_clients clientSocket) body
          clientSocket).map (fun r => (s, r.2)) ∧
      (∃ lead trail, pre = lead ++ trim pre ++ trail ∧
        (∀ c ∈ lead, IsBlank c) ∧ (∀ c ∈ trail, IsBlank c)) ∧
      (∀ c, (trim pre).head? = some c → ¬ IsBlank c) ∧
      (∀ c, (trim pre).getLast? = some c → ¬ IsBlank c) ∧
      (∀ m : Bytes, slash ∈ m →
        m ≠ lit "exit" ∧ ∃ pre2 body2, m = pre2 ++ slash :: body2 ∧ slash ∉ pre2) := by
  have hslash : slash ∈ pre ++ slash :: body := by simp
  obtain ⟨hsplit, hpre2⟩ := split_at_first_slash (pre ++ slash :: body) hslash
  have htake : (pre ++ slash :: body).takeWhile (fun c => c != slash) = pre := by
    rw [List.takeWhile_append_of_pos (fun c hc => by
      have : c ≠ slash := fun h => hpre (h ▸ hc)
      simpa using this)]
    simp [List.takeWhile_cons]
  have hdrop : ((pre ++ slash :: body).dropWhile (fun c => c != slash)).tail = body := by
    rw [List.dropWhile_append_of_pos (fun c hc => by
      have : c ≠ slash := fun h => hpre (h ▸ hc)
      simpa using this)]
    simp [List.dropWhile_cons]
  have hexit : pre ++ slash :: body ≠ lit "exit" := ne_exit_of_slash _ _
  have hkind : messageKind (pre ++ slash :: body) = MessageKind.direct (trim pre) body := by
    unfold messageKind
    rw [if_neg hexit, if_pos (by simp), htake, hdrop]
  obtain ⟨lead, trail, htrim, hlead, htrail⟩ := trim_decompose pre
  refine ⟨hexit, hkind, handleReceivedMessage_direct s send clientSocket received pre body hdec hpre,
    ⟨lead, trail, htrim, fun c hc => (isTrimChar_iff c).mp (hlead c hc),
      fun c hc => (isTrimChar_iff c).mp (htrail c hc)⟩,
    fun c hc => (isTrimChar_false_iff c).mp (trim_head pre c hc),
    fun c hc => (isTrimChar_false_iff c).mp (trim_last pre c hc), ?_⟩
  intro m hm
  obtain ⟨h1, h2⟩ := split_at_first_slash m hm
  refine ⟨?_, _, _, h1, h2⟩
  rw [h1]
  exact ne_exit_of_slash _ _

set_option maxRecDepth 100000 in
theorem direct_message_split_trims_blanks_witness :
    decrypt (deserialize_ciphertext (lit "223 319 42 319 223 149 241 149 319 223"))
        m_server_private_key = some (lit " bob " ++ slash :: lit "a/b ") ∧
      trim (lit " bob ") = lit "bob" ∧
      trim ((12 : Byte) :: lit "bob\t") = (12 : Byte) :: lit "bob" ∧
      handleReceivedMessage twoClients sendOk 4 (lit "223 319 42 319 223 149 241 149 319 223") =
        (forwardMessageToClient twoClients sendOk (lit "bob") (lit "alice") (lit "a/b ") 4).map
          (fun r => (twoClients, r.2)) ∧
      (lit " bob " ++ slash :: lit "a/b " ≠ lit "exit" ∧
      messageKind (lit " bob " ++ slash :: lit "a/b ") =
        MessageKind.direct (trim (lit " bob ")) (lit "a/b ") ∧
      handleReceivedMessage twoClients sendOk 4 (lit "223 319 42 319 223 149 241 149 319 223") =
        (forwardMessageToClient twoClients sendOk (trim (lit " bob "))
          (senderIdOf twoClients.m_clients 4) (lit "a/b ") 4).map (fun r => (twoClients, r.2)) ∧
      (∃ lead trail, lit " bob " = lead ++ trim (lit " bob ") ++ trail ∧
        (∀ c ∈ lead, IsBlank c) ∧ (∀ c ∈ trail, IsBlank c)) ∧
      (∀ c, (trim (lit " bob ")).head? = some c → ¬ IsBlank c) ∧
      (∀ c, (trim (lit " bob ")).getLast? = some c → ¬ IsBlank c) ∧
      (∀ m : Bytes, slash ∈ m →
        m ≠ lit "exit" ∧ ∃ pre2 body2, m = pre2 ++ slash :: body2 ∧ slash ∉ pre2)) :=
  ⟨by decide, by decide, by decide, by decide,
    direct_message_split_trims_blanks twoClients sendOk 4
      (lit "223 319 42 319 223 149 241 149 319 223") (lit " bob ") (lit "a/b ")
      (by decide) (by decide)⟩

/-- Claim C16: for every decrypted message that contains no `'/'`,
`handleReceivedMessage` makes no system call, so no frame is sent to the sender
or to any other connection, and leaves the server state unchanged. -/
theorem message_without_slash_dropped (s : ChatServer) (send : SendFn) (clientSocket : Int)
    (received m : Bytes)
    (hdec : decrypt (deserialize_ciphertext received) m_server_private_key = some m)
    (hslash : slash ∉ m) :
    handleReceivedMessage s send clientSocket received = some (s, []) := by
  by_cases hne : deserialize_ciphertext received = []
  · unfold handleReceivedMessage
    simp only [hne, List.isEmpty_nil, if_true]
  · rw [handleReceivedMessage_kind s send clientSocket received m hne hdec]
    unfold messageKind
    split_ifs with h1 h2
    · rfl
    · exact absurd (by simpa using h2) hslash
    · rfl

theorem message_without_slash_dropped_witness :
    decrypt (deserialize_ciphertext (lit "168 271 109 109 42 223 241 109 109"))
        m_server_private_key = some (lit "hello all") ∧
      handleReceivedMessage twoClients sendOk 4 (lit "168 271 109 109 42 223 241 109 109") =
        some (twoClients, []) :=
  ⟨by decide, message_without_slash_dropped twoClients sendOk 4
    (lit "168 271 109 109 42 223 241 109 109") (lit "hello all") (by decide) (by decide)⟩

/-! ## The error reply and the sender's own entry -/

theorem sendErrorToClient_unconnected (s : ChatServer) (send : SendFn) (clientSocket : Int)
    (error_message : Bytes)
    (h : ∀ session, s.m_clients.find clientSocket = some session → session.connected = false) :
    sendErrorToClient s send clientSocket error_message = some (false, []) := by
  unfold sendErrorToClient
  cases hf : s.m_clients.find clientSocket with
  | none => rfl
  | some session =>
    simp only [h session hf, Bool.not_false, Bool.true_or, if_true]

theorem connected_key_ne_nil (m : ClientMap) (hinv : RegistryInv m) (k : Int) (c : ClientSession)
    (hfind : m.find k = some c) (hconn : c.connected = true) : c.public_key ≠ [] := by
  intro h
  have := hinv.2.2.1 (k, c) (ClientMap.find_mem _ _ _ hfind) hconn
  simp only at this
  rw [h] at this
  cases this

set_option maxRecDepth 100000 in
theorem bobStarting_facts :
    (exchangeKeys ⟨true, 3, [(4, aliceSession), (5, newSession 5)]⟩ sendOk
        (RecvResult.data (lit "7 299 bob")) 5).2.1 = bobStarting ∧
      RegistryInv bobStarting.m_clients ∧
      decrypt (deserialize_ciphertext frameCarolHi) m_server_private_key = some (lit "carol/hi") ∧
      handleReceivedMessage bobStarting sendOk 5 frameCarolHi = some (bobStarting, []) ∧
      decrypt (deserialize_ciphertext frameAliceHi) m_server_private_key = some (lit "alice/hi") ∧
      forwardMessageToClient bobStarting sendFailsOn4 (lit "alice") (lit "bob") (lit "hi") 5 =
        some (false, [SysCall.send 4 (serialize_ciphertext dmBobHi)]) ∧
      handleReceivedMessage bobStarting sendFailsOn4 5 frameAliceHi =
        some (bobStarting, [SysCall.send 4 (serialize_ciphertext dmBobHi)]) := by
  refine ⟨by decide, by decide, by decide, by decide, by decide, by decide, by decide⟩

/-- Claim C17 (counterexample): in the registry reached when bob's handshake
on socket 5 is recorded and his worker runs while `connected` is still
`false`, no entry has the user id `carol`, so every entry with that id is
unconnected. The direct message `carol/hi` that the worker of socket 5 handles
is treated as recipient absent, but the sender gets no error reply: no call is
made at all. -/
theorem unconnected_sender_gets_no_reply :
    (exchangeKeys ⟨true, 3, [(4, aliceSession), (5, newSession 5)]⟩ sendOk
        (RecvResult.data (lit "7 299 bob")) 5).2.1 = bobStarting ∧
      RegistryInv bobStarting.m_clients ∧
      (∀ p ∈ bobStarting.m_clients, p.2.user_id = lit "carol" → p.2.connected = false) ∧
      findRecipient bobStarting.m_clients (lit "carol") = none ∧
      decrypt (deserialize_ciphertext frameCarolHi) m_server_private_key = some (lit "carol/hi") ∧
      handleReceivedMessage bobStarting sendOk 5 frameCarolHi = some (bobStarting, []) := by
  refine ⟨bobStarting_facts.1, bobStarting_facts.2.1, by decide, by decide,
    bobStarting_facts.2.2.1, bobStarting_facts.2.2.2.1⟩

/-- Claim C17 (amended): the recipient lookup only matches entries with
`connected == true`: for every registry (with the invariant of the reachable
states) in which each entry with user id `r` has `connected == false`, the
lookup of `r` finds nothing and a direct message to `r` is handled as recipient
absent, so nothing is sent on any of those entries' sockets. The sender gets
the one error reply when its own entry is connected; when the sender has no
connected entry, no call is made at all. -/
theorem lookup_matches_connected_entries_only (s : ChatServer) (send : SendFn)
    (senderSocket : Int) (received rcpt body : Bytes)
    (hinv : RegistryInv s.m_clients)
    (hdec : decrypt (deserialize_ciphertext received) m_server_private_key =
      some (rcpt ++ slash :: body))
    (hrcpt : slash ∉ rcpt)
    (hdisconnected : ∀ p ∈ s.m_clients, p.2.user_id = trim rcpt → p.2.connected = false) :
    findRecipient s.m_clients (trim rcpt) = none ∧
      (∀ sender, s.m_clients.find senderSocket = some sender → sender.connected = true →
        handleReceivedMessage s send senderSocket received =
          (encrypt (lit "Error: User '" ++ trim rcpt ++ lit "' not found or not connected.")
            sender.public_key).map
            (fun ct => (s, [SysCall.send senderSocket (serialize_ciphertext ct)]))) ∧
      ((∀ sender, s.m_clients.find senderSocket = some sender → sender.connected = false) →
        handleReceivedMessage s send senderSocket received = some (s, [])) ∧
      (∀ r, handleReceivedMessage s send senderSocket received = some r →
        ∀ p ∈ s.m_clients, p.2.user_id = trim rcpt →
          ∀ call ∈ r.2, call ≠ SysCall.shutdown p.1 ∧ call ≠ SysCall.close p.1 ∧
            ∀ data, call ≠ SysCall.send p.1 data) := by
  have hnone : findRecipient s.m_clients (trim rcpt) = none := by
    rw [findRecipient_none]
    intro p hp hc
    have := hdisconnected p hp hc.2
    rw [hc.1] at this
    cases this
  have hhandle : handleReceivedMessage s send senderSocket received =
      (sendErrorToClient s send senderSocket
        (lit "Error: User '" ++ trim rcpt ++ lit "' not found or not connected.")).map
        (fun r => (s, r.2)) := by
    rw [handleReceivedMessage_direct s send senderSocket received rcpt body hdec hrcpt,
      forwardMessageToClient_absent s send (trim rcpt) _ body senderSocket hnone]
    cases sendErrorToClient s send senderSocket
      (lit "Error: User '" ++ trim rcpt ++ lit "' not found or not connected.") <;> rfl
  have hconnected : ∀ sender, s.m_clients.find senderSocket = some sender →
      sender.connected = true →
      handleReceivedMessage s send senderSocket received =
        (encrypt (lit "Error: User '" ++ trim rcpt ++ lit "' not found or not connected.")
          sender.public_key).map
          (fun ct => (s, [SysCall.send senderSocket (serialize_ciphertext ct)])) := by
    intro sender hsender hconn
    rw [hhandle, sendErrorToClient_connected s send senderSocket _ sender hsender hconn
      (connected_key_ne_nil _ hinv senderSocket sender hsender hconn)]
    cases encrypt (lit "Error: User '" ++ trim rcpt ++ lit "' not found or not connected.")
      sender.public_key <;> rfl
  have hunconnected : (∀ sender, s.m_clients.find senderSocket = some sender →
      sender.connected = false) →
      handleReceivedMessage s send senderSocket received = some (s, []) := by
    intro h
    rw [hhandle, sendErrorToClient_unconnected s send senderSocket _ h]
    rfl
  refine ⟨hnone, hconnected, hunconnected, ?_⟩
  intro r hr p hp hu call hcall
  by_cases hs : ∃ sender, s.m_clients.find senderSocket = some sender ∧ sender.connected = true
  · obtain ⟨sender, hsender, hconn⟩ := hs
    have hne : p.1 ≠ senderSocket := by
      intro heq
      have hfind := ClientMap.find_of_mem s.m_clients hinv.1 p.1 p.2 hp
      rw [heq, hsender] at hfind
      cases hfind
      have := hdisconnected p hp hu
      rw [hconn] at this
      cases this
    rw [hconnected sender hsender hconn] at hr
    cases henc : encrypt (lit "Error: User '" ++ trim rcpt ++ lit "' not found or not connected.")
        sender.public_key with
    | none => rw [henc] at hr; cases hr
    | some ct =>
      rw [henc] at hr
      simp only [Option.map_some', Option.some.injEq] at hr
      subst hr
      simp only [List.mem_singleton] at hcall
      subst hcall
      refine ⟨by simp, by simp, ?_⟩
      intro data h
      cases h
      exact hne rfl
  · have hall : ∀ sender, s.m_clients.find senderSocket = some sender →
        sender.connected = false := by
      intro sender hsender
      cases hc : sender.connected with
      | false => rfl
      | true => exact absurd ⟨sender, hsender, hc⟩ hs
    rw [hunconnected hall] at hr
    simp only [Option.some.injEq] at hr
    subst hr
    cases hcall

set_option maxRecDepth 100000 in
theorem lookup_matches_connected_entries_only_witness :
    RegistryInv bobPending.m_clients ∧
      (∀ p ∈ bobPending.m_clients, p.2.user_id = trim (lit "bob") → p.2.connected = false) ∧
      handleReceivedMessage bobPending sendOk 4 frameBobHello =
        (encrypt (lit "Error: User 'bob' not found or not connected.") [7, 299]).map
          (fun ct => (bobPending, [SysCall.send 4 (serialize_ciphertext ct)])) ∧
      handleReceivedMessage bobPending sendOk 5 frameBobHello = some (bobPending, []) ∧
      (findRecipient bobPending.m_clients (trim (lit "bob")) = none ∧
      (∀ sender, bobPending.m_clients.find 4 = some sender → sender.connected = true →
        handleReceivedMessage bobPending sendOk 4 frameBobHello =
          (encrypt (lit "Error: User '" ++ trim (lit "bob") ++ lit "' not found or not connected.")
            sender.public_key).map
            (fun ct => (bobPending, [SysCall.send 4 (serialize_ciphertext ct)]))) ∧
      ((∀ sender, bobPending.m_clients.find 4 = some sender → sender.connected = false) →
        handleReceivedMessage bobPending sendOk 4 frameBobHello = some (bobPending, [])) ∧
      (∀ r, handleReceivedMessage bobPending sendOk 4 frameBobHello = some r →
        ∀ p ∈ bobPending.m_clients, p.2.user_id = trim (lit "bob") →
          ∀ call ∈ r.2, call ≠ SysCall.shutdown p.1 ∧ call ≠ SysCall.close p.1 ∧
            ∀ data, call ≠ SysCall.send p.1 data)) :=
  ⟨by decide, by decide, by decide, by decide,
    lookup_matches_connected_entries_only bobPending sendOk 4 frameBobHello (lit "bob")
      (lit "hello") (by decide) (by decide) (by decide) (by decide)⟩

/-- Claim C18 (counterexample): bob's worker on socket 5 runs while his entry
is still unconnected and handles the direct message `alice/hi`; alice is found
and the send to her socket fails. `forwardMessageToClient` returns `false`
after that one failed send: no error reply is sent on the sender's socket. -/
theorem failed_delivery_unreported_to_unconnected_sender :
    (exchangeKeys ⟨true, 3, [(4, aliceSession), (5, newSession 5)]⟩ sendOk
        (RecvResult.data (lit "7 299 bob")) 5).2.1 = bobStarting ∧
      decrypt (deserialize_ciphertext frameAliceHi) m_server_private_key = some (lit "alice/hi") ∧
      findRecipient bobStarting.m_clients (lit "alice") = some (4, [7, 299]) ∧
      sendFailsOn4 4 (serialize_ciphertext dmBobHi) ≤ 0 ∧
      forwardMessageToClient bobStarting sendFailsOn4 (lit "alice") (lit "bob") (lit "hi") 5 =
        some (false, [SysCall.send 4 (serialize_ciphertext dmBobHi)]) ∧
      handleReceivedMessage bobStarting sendFailsOn4 5 frameAliceHi =
        some (bobStarting, [SysCall.send 4 (serialize_ciphertext dmBobHi)]) := by
  refine ⟨bobStarting_facts.1, bobStarting_facts.2.2.2.2.1, by decide, by decide,
    bobStarting_facts.2.2.2.2.2.1, bobStarting_facts.2.2.2.2.2.2⟩

/-- Claim C18 (amended): for every direct message whose recipient is found but
whose send to the recipient fails (`send` returns `<= 0`),
`forwardMessageToClient` returns `false` and the registry is unchanged: no
entry is removed or marked disconnected by the routing step. When the sender's
own entry is connected, exactly one error reply `"Error: Failed to deliver
message to 'r'. They may have disconnected."`, encrypted under the sender's
public key, is sent on the sender's socket after the failed send; when the
sender has no connected entry, the failed send is the only call and no reply
is sent. -/
theorem failed_delivery_reported_to_connected_sender (s : ChatServer) (send : SendFn)
    (senderSocket recipientSocket : Int) (recipient : ClientSession)
    (received rcpt body : Bytes) (ct : List Int)
    (hinv : RegistryInv s.m_clients)
    (hdec : decrypt (deserialize_ciphertext received) m_server_private_key =
      some (rcpt ++ slash :: body))
    (hrcpt : slash ∉ rcpt)
    (hmem : (recipientSocket, recipient) ∈ s.m_clients)
    (hconn : recipient.connected = true)
    (huid : recipient.user_id = trim rcpt)
    (henc : encrypt (lit "[DM from " ++ senderIdOf s.m_clients senderSocket ++ lit "]: " ++ body)
      recipient.public_key = some ct)
    (hsend : send recipientSocket (serialize_ciphertext ct) ≤ 0) :
    (∀ sender, s.m_clients.find senderSocket = some sender → sender.connected = true →
        forwardMessageToClient s send (trim rcpt) (senderIdOf s.m_clients senderSocket) body
            senderSocket =
          (encrypt (lit "Error: Failed to deliver message to '" ++ trim rcpt ++
              lit "'. They may have disconnected.") sender.public_key).map
            (fun reply => (false, [SysCall.send recipientSocket (serialize_ciphertext ct),
              SysCall.send senderSocket (serialize_ciphertext reply)])) ∧
        handleReceivedMessage s send senderSocket received =
          (encrypt (lit "Error: Failed to deliver message to '" ++ trim rcpt ++
              lit "'. They may have disconnected.") sender.public_key).map
            (fun reply => (s, [SysCall.send recipientSocket (serialize_ciphertext ct),
              SysCall.send senderSocket (serialize_ciphertext reply)])) ∧
        (sender.public_key.getD 1 1 ≠ 0 →
          (encrypt (lit "Error: Failed to deliver message to '" ++ trim rcpt ++
              lit "'. They may have disconnected.") sender.public_key).isSome = true)) ∧
      ((∀ sender, s.m_clients.find senderSocket = some sender → sender.connected = false) →
        forwardMessageToClient s send (trim rcpt) (senderIdOf s.m_clients senderSocket) body
            senderSocket =
          some (false, [SysCall.send recipientSocket (serialize_ciphertext ct)]) ∧
        handleReceivedMessage s send senderSocket received =
          some (s, [SysCall.send recipientSocket (serialize_ciphertext ct)])) := by
  have hfound := findRecipient_of_mem s.m_clients hinv recipientSocket recipient hmem hconn
  rw [huid] at hfound
  have hk : recipientSocket ≠ -1 := hinv.2.1 (recipientSocket, recipient) hmem
  have hkey : recipient.public_key ≠ [] := by
    intro h
    have := hinv.2.2.1 (recipientSocket, recipient) hmem hconn
    simp only at this
    rw [h] at this
    cases this
  have hfwd := forwardMessageToClient_send_failed s send (trim rcpt)
    (senderIdOf s.m_clients senderSocket) body senderSocket recipientSocket recipient.public_key ct
    hfound hk hkey henc hsend
  have hhandle := handleReceivedMessage_direct s send senderSocket received rcpt body hdec hrcpt
  constructor
  · intro sender hsender hsconn
    have hskey := connected_key_ne_nil _ hinv senderSocket sender hsender hsconn
    have hf2 : forwardMessageToClient s send (trim rcpt) (senderIdOf s.m_clients senderSocket) body
        senderSocket =
        (encrypt (lit "Error: Failed to deliver message to '" ++ trim rcpt ++
            lit "'. They may have disconnected.") sender.public_key).map
          (fun reply => (false, [SysCall.send recipientSocket (serialize_ciphertext ct),
            SysCall.send senderSocket (serialize_ciphertext reply)])) := by
      rw [hfwd, sendErrorToClient_connected s send senderSocket _ sender hsender hsconn hskey]
      cases encrypt (lit "Error: Failed to deliver message to '" ++ trim rcpt ++
        lit "'. They may have disconnected.") sender.public_key <;> rfl
    refine ⟨hf2, ?_, encrypt_isSome _ _⟩
    rw [hhandle, hf2]
    cases encrypt (lit "Error: Failed to deliver message to '" ++ trim rcpt ++
      lit "'. They may have disconnected.") sender.public_key <;> rfl
  · intro hun
    have hf2 : forwardMessageToClient s send (trim rcpt) (senderIdOf s.m_clients senderSocket) body
        senderSocket = some (false, [SysCall.send recipientSocket (serialize_ciphertext ct)]) := by
      rw [hfwd, sendErrorToClient_unconnected s send senderSocket _ hun]
      rfl
    refine ⟨hf2, ?_⟩
    rw [hhandle, hf2]
    rfl

set_option maxRecDepth 100000 in
theorem failed_delivery_reported_to_connected_sender_witness :
    forwardMessageToClient twoClients sendFailsOn5 (lit "bob") (lit "alice") (lit "hello") 4 =
        (encrypt (lit "Error: Failed to deliver message to 'bob'. They may have disconnected.")
          [7, 299]).map
          (fun reply => (false, [SysCall.send 5 (serialize_ciphertext dmAliceHello),
            SysCall.send 4 (serialize_ciphertext reply)])) ∧
      (∀ sender, twoClients.m_clients.find 4 = some sender → sender.connected = true →
        forwardMessageToClient twoClients sendFailsOn5 (trim (lit "bob"))
            (senderIdOf twoClients.m_clients 4) (lit "hello") 4 =
          (encrypt (lit "Error: Failed to deliver message to '" ++ trim (lit "bob") ++
              lit "'. They may have disconnected.") sender.public_key).map
            (fun reply => (false, [SysCall.send 5 (serialize_ciphertext dmAliceHello),
              SysCall.send 4 (serialize_ciphertext reply)])) ∧
        handleReceivedMessage twoClients sendFailsOn5 4 frameBobHello =
          (encrypt (lit "Error: Failed to deliver message to '" ++ trim (lit "bob") ++
              lit "'. They may have disconnected.") sender.public_key).map
            (fun reply => (twoClients, [SysCall.send 5 (serialize_ciphertext dmAliceHello),
              SysCall.send 4 (serialize_ciphertext reply)])) ∧
        (sender.public_key.getD 1 1 ≠ 0 →
          (encrypt (lit "Error: Failed to deliver message to '" ++ trim (lit "bob") ++
              lit "'. They may have disconnected.") sender.public_key).isSome = true)) ∧
      ((∀ sender, bobStarting.m_clients.find 5 = some sender → sender.connected = false) →
        forwardMessageToClient bobStarting sendFailsOn4 (trim (lit "alice"))
            (senderIdOf bobStarting.m_clients 5) (lit "hi") 5 =
          some (false, [SysCall.send 4 (serialize_ciphertext dmBobHi)]) ∧
        handleReceivedMessage bobStarting sendFailsOn4 5 frameAliceHi =
          some (bobStarting, [SysCall.send 4 (serialize_ciphertext dmBobHi)])) :=
  ⟨by decide,
    (failed_delivery_reported_to_connected_sender twoClients sendFailsOn5 4 5 bobSession
      frameBobHello (lit "bob") (lit "hello") dmAliceHello (by decide) (by decide) (by decide)
      (by decide) rfl (by decide) (by decide) (by decide)).1,
    (failed_delivery_reported_to_connected_sender bobStarting sendFailsOn4 5 4 aliceSession
      frameAliceHi (lit "alice") (lit "hi") dmBobHi (by decide) (by decide) (by decide)
      (by decide) rfl (by decide) (by decide) (by decide)).2⟩

/-- After accept, a handshake with the frame `"7 299 alice"` and the start of
the receiver, the registry holds the connected session of alice and the log
holds her frame. -/
theorem runLog_alice :
    (System.init 3).runLog []
        [Step.accept 4, Step.exchangeKeys sendOk (.data (lit "7 299 alice")),
          Step.startClientReceiver (some 1)] =
      (⟨⟨true, 3, [(4, aliceSession)]⟩, AcceptStage.idle⟩, [(4, lit "7 299 alice")]) := by
  decide

/-- Claim C20: for every byte string `s` (all byte values 0..255),
`decrypt(encrypt(s, {5, 323}), {173, 323}) == s` for the server key pair, with
`encrypt` and `decrypt` of `rsa_chat.hpp`; both have a value. -/
theorem server_key_pair_roundtrip (s : Bytes) :
    (encrypt s m_server_public_key).bind (fun cipher => decrypt cipher m_server_private_key) =
      some s :=
  encryptLoop_decryptLoop_server s

theorem server_key_pair_roundtrip_witness :
    (encrypt (lit "B") m_server_public_key).bind (fun cipher => decrypt cipher m_server_private_key) =
      some (lit "B") :=
  server_key_pair_roundtrip (lit "B")

/-! # Lemmas for the loops, the mutex, the arithmetic of `modexp` and the deserialisation -/

/-! ## The loops -/

theorem acceptClientsLoop_idle (self : Nat) (s : ChatServer) (pre : List SelectResult)
    (hpre : ∀ a ∈ pre, a = SelectResult.timeout ∨ a = SelectResult.interrupted)
    (rest : List SelectResult) :
    acceptClientsLoop self s (pre ++ rest) = acceptClientsLoop self s rest := by
  induction pre with
  | nil => rfl
  | cons a t ih =>
    have ht : ∀ b ∈ t, b = SelectResult.timeout ∨ b = SelectResult.interrupted :=
      fun b hb => hpre b (List.mem_cons_of_mem _ hb)
    by_cases hrun : s.m_running = true
    · rcases hpre a (List.mem_cons_self _ _) with h | h
      · subst h
        rw [List.cons_append, acceptClientsLoop]
        simp only [hrun, Bool.not_true, Bool.false_eq_true, if_false]
        exact ih ht
      · subst h
        rw [List.cons_append, acceptClientsLoop]
        simp only [hrun, Bool.not_true, Bool.false_eq_true, if_false]
        exact ih ht
    · have hrun2 : s.m_running = false := by simpa using hrun
      have hl : acceptClientsLoop self s (a :: t ++ rest) = (s, [], true) := by
        cases a <;> simp [acceptClientsLoop, hrun2]
      rw [hl]
      cases rest with
      | nil => simp [acceptClientsLoop, hrun2]
      | cons b u => cases b <;> simp [acceptClientsLoop, hrun2]

theorem acceptClientsLoop_failed (self : Nat) (s : ChatServer) (hrun : s.m_running = true)
    (rest : List SelectResult) :
    acceptClientsLoop self s (SelectResult.failed :: rest) =
      (⟨false, s.m_server_socket, s.m_clients⟩, [], true) := by
  rw [acceptClientsLoop]
  simp only [hrun, Bool.not_true, Bool.false_eq_true, if_false]

theorem stopServer_not_running (s : ChatServer) (self : Nat) (h : s.m_running = false) :
    stopServer s self = (s, []) := by
  unfold stopServer
  simp [h]

/-! ## The mutex -/

theorem allGuarded_unlock_write (xs : List MutexEvent) :
    ∀ held, allGuarded held (xs ++ [MutexEvent.unlock, MutexEvent.write]) = false := by
  induction xs with
  | nil => intro held; cases held <;> rfl
  | cons e t ih =>
    intro held
    cases e with
    | lock => exact ih true
    | unlock => exact ih false
    | read =>
      show (held && allGuarded held (t ++ [MutexEvent.unlock, MutexEvent.write])) = false
      rw [ih held, Bool.and_false]
    | write =>
      show (held && allGuarded held (t ++ [MutexEvent.unlock, MutexEvent.write])) = false
      rw [ih held, Bool.and_false]

theorem cleanupClientEvents_ends_unlocked (s : ChatServer) (k : Int) (g : Bool) :
    ∃ pre, cleanupClientEvents s k g = pre ++ [MutexEvent.unlock] := by
  unfold cleanupClientEvents
  cases s.m_clients.find k with
  | none => exact ⟨[.lock, .read], rfl⟩
  | some session =>
    by_cases h : (session.connected || !g) = true
    · exact ⟨[.lock, .read, .write, .write, .unlock, .lock, .read], by simp [h]⟩
    · exact ⟨[.lock, .read, .write, .write], by simp [h]⟩

theorem cleanupEachEvents_ends_unlocked (self : Nat) (keys : List Int) :
    ∀ s : ChatServer, cleanupEachEvents self s keys = [] ∨
      ∃ pre, cleanupEachEvents self s keys = pre ++ [MutexEvent.unlock] := by
  induction keys with
  | nil => intro s; exact Or.inl rfl
  | cons k rest ih =>
    intro s
    right
    obtain ⟨pre, hpre⟩ := cleanupClientEvents_ends_unlocked s k false
    rcases ih (cleanupClient s self k false).1 with h | ⟨pre2, h⟩
    · exact ⟨pre, by rw [cleanupEachEvents, h, List.append_nil, hpre]⟩
    · exact ⟨cleanupClientEvents s k false ++ pre2, by rw [cleanupEachEvents, h, List.append_assoc]⟩

theorem allGuarded_cleanupClientEvents (s : ChatServer) (k : Int) (g : Bool) :
    allGuarded false (cleanupClientEvents s k g) = true := by
  unfold cleanupClientEvents
  cases s.m_clients.find k with
  | none => rfl
  | some session =>
    by_cases h : (session.connected || !g) = true
    · simp only [h, if_true]; rfl
    · simp only [h]; rfl

theorem cleanupAllClientsEvents_unguarded (s : ChatServer) (self : Nat) :
    allGuarded false (cleanupAllClientsEvents s self) = false := by
  unfold cleanupAllClientsEvents
  rcases cleanupEachEvents_ends_unlocked self (s.m_clients.map (fun client_pair => client_pair.1)) s
    with h | ⟨pre, h⟩
  · rw [h]; rfl
  · rw [h]
    have := allGuarded_unlock_write ([MutexEvent.lock, .read, .unlock] ++ pre) false
    simpa [List.append_assoc] using this

theorem stopServer_running_false (s : ChatServer) (self : Nat) :
    (stopServer s self).1.m_running = false := by
  unfold stopServer
  by_cases h : s.m_running = true
  · simp only [h, Bool.not_true, Bool.false_eq_true, if_false]
    unfold cleanupAllClients
    exact (cleanupEach_fields self _ _).1
  · have h2 : s.m_running = false := by simpa using h
    simp [h2]

theorem run_shutdown_requested (s : ChatServer) (self : Nat) (waits rest : List SelectResult)
    (hrun : s.m_running = true)
    (hwaits : ∀ a ∈ waits, a = SelectResult.timeout ∨ a = SelectResult.interrupted) :
    run s self (waits ++ SelectResult.shutdownRequested :: rest) =
      ((stopServer s self).1, (stopServer s self).2, true) := by
  unfold run
  simp only [hrun, Bool.not_true, Bool.false_eq_true, if_false]
  rw [acceptClientsLoop_idle self s waits hwaits, acceptClientsLoop]
  simp only [hrun, Bool.not_true, Bool.false_eq_true, if_false]
  rw [stopServer_not_running _ self (stopServer_running_false s self)]
  by_cases h : (stopServer s self).1.m_server_socket = -1
  · simp [h]
  · simp [h]

/-! ## Exactness of `modexp` -/

theorem wrap64_of_isInt64 (x : Int) (hx : IsInt64 x) : wrap64 x = x := by
  obtain ⟨h1, h2⟩ := hx
  unfold INT64_MIN at h1
  unfold INT64_MAX at h2
  unfold wrap64
  omega

theorem cmod_of_nonneg (a b : Int) (ha : 0 ≤ a) (hb : 0 < b) : cmod a b = some (a % b) := by
  rw [cmod_some a b (by omega) (by omega), Int.tmod_eq_emod ha (by omega)]

theorem mul_le_sq_of_lt (m r b : Int) (hr0 : 0 ≤ r) (hr : r < m) (hb0 : 0 ≤ b) (hb : b < m) :
    0 ≤ r * b ∧ r * b ≤ (m - 1) ^ 2 := by
  constructor
  · exact Int.mul_nonneg hr0 hb0
  · have h1 : r * b ≤ (m - 1) * b := Int.mul_le_mul_of_nonneg_right (by omega) hb0
    have h2 : (m - 1) * b ≤ (m - 1) * (m - 1) := Int.mul_le_mul_of_nonneg_left (by omega) (by omega)
    have h3 : (m - 1) ^ 2 = (m - 1) * (m - 1) := by ring
    omega

theorem isInt64_of_le_sq (m p : Int) (hm : (m - 1) ^ 2 < 2 ^ 63) (h0 : 0 ≤ p) (h : p ≤ (m - 1) ^ 2) :
    IsInt64 p := by
  constructor
  · unfold INT64_MIN; omega
  · unfold INT64_MAX
    have : (2 : Int) ^ 63 = 9223372036854775808 := by norm_num
    omega

theorem pow_toNat_odd (b e : Int) (he : 0 < e) (hodd : e % 2 = 1) :
    b ^ e.toNat = b * (b * b) ^ (e / 2).toNat := by
  have h : e.toNat = 2 * (e / 2).toNat + 1 := by omega
  rw [h, pow_succ, pow_mul, mul_comm]
  congr 1
  ring_nf

theorem pow_toNat_even (b e : Int) (he : 0 < e) (heven : ¬ e % 2 = 1) :
    b ^ e.toNat = (b * b) ^ (e / 2).toNat := by
  have h : e.toNat = 2 * (e / 2).toNat := by omega
  rw [h, pow_mul]
  congr 1
  ring_nf

theorem modexpLoop_exact (m : Int) (hm1 : 1 < m) (hm : (m - 1) ^ 2 < 2 ^ 63) (fuel : Nat) :
    ∀ r b e : Int, 0 ≤ e → e ≤ fuel → 0 ≤ r → r < m → 0 ≤ b → b < m →
      modexpLoop fuel r b e m = some ((r * b ^ e.toNat) % m) ∧
        ∀ p ∈ modexpLoopProducts fuel r b e m, 0 ≤ p ∧ p ≤ (m - 1) ^ 2 := by
  induction fuel with
  | zero =>
    intro r b e he0 he hr0 hr hb0 hb
    have : e = 0 := by omega
    subst this
    refine ⟨?_, fun p hp => by cases hp⟩
    show some r = some ((r * b ^ 0) % m)
    rw [pow_zero, mul_one, Int.emod_eq_of_lt hr0 hr]
  | succ fuel ih =>
    intro r b e he0 he hr0 hr hb0 hb
    have hbb := mul_le_sq_of_lt m b b hb0 hb hb0 hb
    have hwbb : wrap64 (b * b) = b * b := wrap64_of_isInt64 _ (isInt64_of_le_sq m _ hm hbb.1 hbb.2)
    have hcbb : cmod (wrap64 (b * b)) m = some (b * b % m) := by
      rw [hwbb, cmod_of_nonneg _ _ hbb.1 (by omega)]
    have hb1 : 0 ≤ b * b % m ∧ b * b % m < m :=
      ⟨Int.emod_nonneg _ (by omega), Int.emod_lt_of_pos _ (by omega)⟩
    by_cases hpos : e > 0
    · have he2 : 0 ≤ e / 2 ∧ e / 2 ≤ (fuel : Int) := by omega
      by_cases hodd : e % 2 = 1
      · have hrb := mul_le_sq_of_lt m r b hr0 hr hb0 hb
        have hwrb : wrap64 (r * b) = r * b :=
          wrap64_of_isInt64 _ (isInt64_of_le_sq m _ hm hrb.1 hrb.2)
        have hcrb : cmod (wrap64 (r * b)) m = some (r * b % m) := by
          rw [hwrb, cmod_of_nonneg _ _ hrb.1 (by omega)]
        have hr1 : 0 ≤ r * b % m ∧ r * b % m < m :=
          ⟨Int.emod_nonneg _ (by omega), Int.emod_lt_of_pos _ (by omega)⟩
        obtain ⟨ih1, ih2⟩ := ih (r * b % m) (b * b % m) (e / 2) he2.1 he2.2 hr1.1 hr1.2 hb1.1 hb1.2
        constructor
        · unfold modexpLoop
          rw [if_pos hpos, if_pos hodd, hcrb, hcbb]
          simp only [Option.some_bind]
          rw [ih1, pow_toNat_odd b e hpos hodd]
          congr 1
          have h1 : r * b % m ≡ r * b [ZMOD m] := Int.mod_modEq _ _
          have h2 : (b * b % m) ^ (e / 2).toNat ≡ (b * b) ^ (e / 2).toNat [ZMOD m] :=
            (Int.mod_modEq _ _).pow _
          have h3 := h1.mul h2
          have h4 : r * b * (b * b) ^ (e / 2).toNat = r * (b * (b * b) ^ (e / 2).toNat) := by ring
          rw [h4] at h3
          exact h3
        · intro p hp
          unfold modexpLoopProducts at hp
          rw [if_pos hpos, if_pos hodd, if_pos hodd, hcrb] at hp
          simp only [hcbb, List.singleton_append, List.mem_cons] at hp
          rcases hp with hp | hp | hp
          · rw [hp]; exact hrb
          · rw [hp]; exact hbb
          · exact ih2 p hp
      · obtain ⟨ih1, ih2⟩ := ih r (b * b % m) (e / 2) he2.1 he2.2 hr0 hr hb1.1 hb1.2
        constructor
        · unfold modexpLoop
          rw [if_pos hpos, if_neg hodd, hcbb]
          simp only [Option.some_bind]
          rw [ih1, pow_toNat_even b e hpos hodd]
          congr 1
          have h2 : (b * b % m) ^ (e / 2).toNat ≡ (b * b) ^ (e / 2).toNat [ZMOD m] :=
            (Int.mod_modEq _ _).pow _
          exact (Int.ModEq.refl r).mul h2
        · intro p hp
          unfold modexpLoopProducts at hp
          rw [if_pos hpos, if_neg hodd, if_neg hodd] at hp
          simp only [hcbb, List.nil_append, List.mem_cons] at hp
          rcases hp with hp | hp
          · rw [hp]; exact hbb
          · exact ih2 p hp
    · have : e = 0 := by omega
      subst this
      constructor
      · unfold modexpLoop
        rw [if_neg hpos]
        show some r = some ((r * b ^ 0) % m)
        rw [pow_zero, mul_one, Int.emod_eq_of_lt hr0 hr]
      · intro p hp
        unfold modexpLoopProducts at hp
        rw [if_neg hpos] at hp
        cases hp

/-! ## Reading integers from a text -/

theorem extractInt_reads (s : Bytes) (x : Int) (rest : Bytes) (h : ReadsInteger s x rest) :
    extractInt s = some (x, rest) := by
  obtain ⟨ws, t, rfl, hws, ht, hrest, hx⟩ := h
  obtain ⟨neg, v, hscan, hval⟩ := scanInt_decimal t x rest ht hrest
  unfold extractInt
  rw [dropWhile_isspace_decimal ws t rest x hws ht, hscan]
  simp only [hval]
  exact if_pos hx

theorem extractInt_inv (s : Bytes) (x : Int) (rest : Bytes) (h : extractInt s = some (x, rest)) :
    ReadsInteger s x rest := by
  unfold extractInt at h
  cases hscan : scanInt (s.dropWhile isspace) with
  | none => rw [hscan] at h; cases h
  | some res =>
    obtain ⟨neg, v, r⟩ := res
    rw [hscan] at h
    dsimp only at h
    by_cases hr : INT64_MIN ≤ signedValue neg v ∧ signedValue neg v ≤ INT64_MAX
    · rw [if_pos hr] at h
      simp only [Option.some.injEq, Prod.mk.injEq] at h
      obtain ⟨t, ht, hdec, hno⟩ := scanInt_inv _ neg v r hscan
      rw [h.2] at ht hno
      rw [h.1] at hdec hr
      refine ⟨s.takeWhile isspace, t, ?_, ?_, hdec, hno, hr⟩
      · rw [← ht, List.takeWhile_append_dropWhile]
      · intro c hc
        exact List.mem_takeWhile_imp hc
    · rw [if_neg hr] at h
      cases h

theorem extractInt_eq_none_iff (s : Bytes) :
    extractInt s = none ↔ ∀ x rest, ¬ ReadsInteger s x rest := by
  constructor
  · intro h x rest hr
    rw [extractInt_reads s x rest hr] at h
    cases h
  · intro h
    cases he : extractInt s with
    | none => rfl
    | some r => exact absurd (extractInt_inv s r.1 r.2 he) (h r.1 r.2)

theorem readsInteger_length (s : Bytes) (x : Int) (rest : Bytes) (h : ReadsInteger s x rest) :
    rest.length < s.length := by
  obtain ⟨ws, t, rfl, _, ht, _, _⟩ := h
  obtain ⟨c, u, rfl, _⟩ := isDecimal_head t x ht
  simp only [List.length_append, List.length_cons]
  omega

theorem deserializeLoop_reads (fuel : Nat) :
    ∀ s : Bytes, s.length ≤ fuel → ReadsIntegers s (deserializeLoop fuel s) := by
  induction fuel with
  | zero =>
    intro s hs
    have : s = [] := List.length_eq_zero.mp (by omega)
    subst this
    exact ReadsIntegers.stop [] ((extractInt_eq_none_iff []).mp rfl)
  | succ fuel ih =>
    intro s hs
    unfold deserializeLoop
    cases he : extractInt s with
    | none => exact ReadsIntegers.stop s ((extractInt_eq_none_iff s).mp he)
    | some r =>
      obtain ⟨num, rest⟩ := r
      have hr := extractInt_inv s num rest he
      have hl := readsInteger_length s num rest hr
      exact ReadsIntegers.read s num rest _ hr (ih rest (by omega))

theorem readsIntegers_deserializeLoop (s : Bytes) (xs : List Int) (h : ReadsIntegers s xs) :
    ∀ fuel : Nat, s.length ≤ fuel → deserializeLoop fuel s = xs := by
  induction h with
  | stop s hstop =>
    intro fuel _
    cases fuel with
    | zero => rfl
    | succ fuel =>
      unfold deserializeLoop
      rw [(extractInt_eq_none_iff s).mpr hstop]
  | read s x rest xs hread _ ih =>
    intro fuel hfuel
    have hl := readsInteger_length s x rest hread
    cases fuel with
    | zero => omega
    | succ fuel =>
      unfold deserializeLoop
      rw [extractInt_reads s x rest hread]
      simp only
      rw [ih fuel (by omega)]

theorem deserialize_ciphertext_eq_loop (s : Bytes) :
    deserialize_ciphertext s = deserializeLoop s.length s := by
  unfold deserialize_ciphertext
  cases s with
  | nil => rfl
  | cons c t => rfl

theorem readsIntegers_deserialize (s : Bytes) : ReadsIntegers s (deserialize_ciphertext s) := by
  rw [deserialize_ciphertext_eq_loop]
  exact deserializeLoop_reads s.length s (le_refl _)

theorem readsIntegers_unique (s : Bytes) (xs : List Int) (h : ReadsIntegers s xs) :
    xs = deserialize_ciphertext s := by
  rw [deserialize_ciphertext_eq_loop]
  exact (readsIntegers_deserializeLoop s xs h s.length (le_refl _)).symm

theorem readsIntegers_isInt64 (s : Bytes) (xs : List Int) (h : ReadsIntegers s xs) :
    ∀ x ∈ xs, IsInt64 x := by
  induction h with
  | stop s _ => intro x hx; cases hx
  | read s x rest xs hread _ ih =>
    intro y hy
    rcases List.mem_cons.mp hy with hy | hy
    · obtain ⟨_, _, _, _, _, _, hx⟩ := hread
      rw [hy]; exact hx
    · exact ih y hy

theorem deserialize_eq_nil_iff (s : Bytes) :
    deserialize_ciphertext s = [] ↔ ∀ x rest, ¬ ReadsInteger s x rest := by
  constructor
  · intro h x rest hr
    have h2 := readsIntegers_deserialize s
    rw [h] at h2
    cases h2 with
    | stop _ hstop => exact hstop x rest hr
  · intro h
    exact (readsIntegers_unique s [] (ReadsIntegers.stop s h)).symm

theorem deserialize_isInt64 (s : Bytes) : ∀ x ∈ deserialize_ciphertext s, IsInt64 x :=
  readsIntegers_isInt64 s _ (readsIntegers_deserialize s)

theorem deserialize_serialize_deserialize (s : Bytes) :
    deserialize_ciphertext (serialize_ciphertext (deserialize_ciphertext s)) =
      deserialize_ciphertext s :=
  deserialize_serialize _ (deserialize_isInt64 s)

theorem handleReceivedMessage_congr (s : ChatServer) (send : SendFn) (clientSocket : Int)
    (a b : Bytes) (h : deserialize_ciphertext a = deserialize_ciphertext b) :
    handleReceivedMessage s send clientSocket a = handleReceivedMessage s send clientSocket b := by
  unfold handleReceivedMessage
  rw [h]

theorem handleReceivedMessage_of_nil (s : ChatServer) (send : SendFn) (clientSocket : Int)
    (a : Bytes) (h : deserialize_ciphertext a = []) :
    handleReceivedMessage s send clientSocket a = some (s, []) := by
  unfold handleReceivedMessage
  rw [h]
  rfl

theorem handleReceivedMessage_state (s : ChatServer) (send : SendFn) (clientSocket : Int)
    (a : Bytes) (r : ChatServer × List SysCall)
    (h : handleReceivedMessage s send clientSocket a = some r) : r.1 = s := by
  unfold handleReceivedMessage at h
  dsimp only at h
  split_ifs at h with h1
  · cases h; rfl
  · cases hd : decrypt (deserialize_ciphertext a) m_server_private_key with
    | none => rw [hd] at h; cases h
    | some m =>
      rw [hd] at h
      simp only [Option.some_bind] at h
      split_ifs at h
      · cases h; rfl
      · rw [Option.map_eq_some'] at h
        obtain ⟨r2, _, hr2⟩ := h
        rw [← hr2]
      · cases h; rfl

/-! ## The receive loop -/

theorem receiverIteration_data (s : ChatServer) (send : SendFn) (k : Int) (recv : RecvResult)
    (h : 0 < recv.len) :
    receiverIteration s send k recv =
      (handleReceivedMessage s send k recv.text).map fun r => (r.1, r.2, LoopStep.again) := by
  unfold receiverIteration
  rw [if_pos h]

theorem receiverIteration_closed (s : ChatServer) (send : SendFn) (k : Int) (recv : RecvResult)
    (h : recv.len = 0) :
    receiverIteration s send k recv = some (s, [], LoopStep.leave true) := by
  unfold receiverIteration
  rw [if_neg (by omega), if_pos h]

theorem receiverIteration_error (s : ChatServer) (send : SendFn) (k : Int) (recv : RecvResult)
    (h : recv.len < 0) :
    receiverIteration s send k recv = some (s, [], LoopStep.leave false) := by
  unfold receiverIteration
  rw [if_neg (by omega), if_neg (by omega)]

theorem receiverLoop_data (s : ChatServer) (send : SendFn) (k : Int) (recv : RecvResult)
    (rest : List RecvResult) (hrun : s.m_running = true) (h : 0 < recv.len) :
    receiverLoop send k s (recv :: rest) =
      (handleReceivedMessage s send k recv.text).bind fun r =>
        (receiverLoop send k r.1 rest).map fun t => (t.1, r.2 ++ t.2.1, t.2.2.1, t.2.2.2) := by
  rw [receiverLoop]
  simp only [hrun, Bool.not_true, Bool.false_eq_true, if_false]
  rw [receiverIteration_data s send k recv h]
  cases handleReceivedMessage s send k recv.text with
  | none => rfl
  | some r => rfl

theorem receiverLoop_leave (s : ChatServer) (send : SendFn) (k : Int) (recv : RecvResult)
    (rest : List RecvResult) (hrun : s.m_running = true) (h : recv.len ≤ 0) :
    receiverLoop send k s (recv :: rest) = some (s, [], some (decide (recv.len = 0)), rest) := by
  rw [receiverLoop]
  simp only [hrun, Bool.not_true, Bool.false_eq_true, if_false]
  by_cases h0 : recv.len = 0
  · rw [receiverIteration_closed s send k recv h0]
    simp [h0]
  · rw [receiverIteration_error s send k recv (by omega)]
    simp [h0]

theorem receiverLoop_run (send : SendFn) (k : Int) (last : RecvResult) (post : List RecvResult)
    (hlast : last.len ≤ 0) (datas : List RecvResult) :
    ∀ s : ChatServer, s.m_running = true → (∀ d ∈ datas, 0 < d.len) →
      receiverLoop send k s (datas ++ last :: post) =
        (handleEach send k s (datas.map RecvResult.text)).map fun h =>
          (h.1, h.2, some (decide (last.len = 0)), post) := by
  induction datas with
  | nil =>
    intro s hrun _
    exact receiverLoop_leave s send k last post hrun hlast
  | cons d rest ih =>
    intro s hrun hd
    rw [List.cons_append, receiverLoop_data s send k d _ hrun (hd d (List.mem_cons_self _ _))]
    rw [List.map_cons, handleEach]
    cases hh : handleReceivedMessage s send k d.text with
    | none => rfl
    | some r =>
      have hs : r.1 = s := handleReceivedMessage_state s send k d.text r hh
      simp only [Option.some_bind]
      rw [ih r.1 (by rw [hs]; exact hrun) (fun x hx => hd x (List.mem_cons_of_mem _ hx))]
      cases handleEach send k r.1 (rest.map RecvResult.text) with
      | none => rfl
      | some r2 => rfl

theorem handleEach_state (send : SendFn) (k : Int) (frames : List Bytes) :
    ∀ (s : ChatServer) (h : ChatServer × List SysCall),
      handleEach send k s frames = some h → h.1 = s := by
  induction frames with
  | nil =>
    intro s h hh
    simp only [handleEach, Option.some.injEq] at hh
    rw [← hh]
  | cons f rest ih =>
    intro s h hh
    rw [handleEach] at hh
    cases hf : handleReceivedMessage s send k f with
    | none => rw [hf] at hh; cases hh
    | some r =>
      rw [hf] at hh
      simp only [Option.some_bind] at hh
      rw [Option.map_eq_some'] at hh
      obtain ⟨r2, hr2, hr3⟩ := hh
      rw [← hr3]
      show r2.1 = s
      rw [ih r.1 r2 hr2, handleReceivedMessage_state s send k f r hf]

theorem clientReceiverThreadFunc_run (send : SendFn) (self : Nat) (k : Int) (last : RecvResult)
    (post : List RecvResult) (hlast : last.len ≤ 0) (datas : List RecvResult) (s : ChatServer)
    (hrun : s.m_running = true) (hd : ∀ d ∈ datas, 0 < d.len) :
    clientReceiverThreadFunc s send self k (datas ++ last :: post) =
      (handleEach send k s (datas.map RecvResult.text)).map fun h =>
        ((cleanupClient s self k (decide (last.len = 0))).1,
         h.2 ++ (cleanupClient s self k (decide (last.len = 0))).2, true, post) := by
  unfold clientReceiverThreadFunc
  rw [receiverLoop_run send k last post hlast datas s hrun hd]
  cases hh : handleEach send k s (datas.map RecvResult.text) with
  | none => rfl
  | some h =>
    have hs : h.1 = s := handleEach_state send k _ s h hh
    simp only [Option.map_some']
    rw [hs]

/-! # The claims on the loops, the teardown, the arithmetic and the deserialisation -/

/-- Claim C21: `serialize_ciphertext` of the empty sequence is the empty
string. -/
theorem serialize_ciphertext_empty : serialize_ciphertext [] = lit "" := by
  rfl

/-- Claim C22 (counterexample): the frame `"319 42 319 149 168 271 109 109 42 ab"`
contains the token `ab`, which is not a decimal integer, yet it is not dropped:
the integers in front of the token are kept, they decrypt to `bob/hello`, and
`handleReceivedMessage` sends bob the direct message of alice. -/
theorem malformed_frame_still_routed :
    frameBobHelloThenText = frameBobHello ++ lit " ab" ∧
      (∀ x, ¬ IsDecimal (lit "ab") x) ∧
      deserialize_ciphertext frameBobHelloThenText = [319, 42, 319, 149, 168, 271, 109, 109, 42] ∧
      decrypt (deserialize_ciphertext frameBobHelloThenText) m_server_private_key =
        some (lit "bob/hello") ∧
      handleReceivedMessage twoClients sendOk 4 frameBobHelloThenText =
        some (twoClients, [SysCall.send 5 (serialize_ciphertext dmAliceHello)]) ∧
      handleReceivedMessage twoClients sendOk 4 frameBobHelloThenText ≠ some (twoClients, []) := by
  refine ⟨by decide, ?_, by decide, by decide, by decide, by decide⟩
  rintro x ⟨sg, ds, ht, hsg, hne, hds, _⟩
  have hab : lit "ab" = [(97 : Byte), 98] := by decide
  rw [hab] at ht
  rcases hsg with h | h | h
  · subst h
    rw [List.nil_append] at ht
    subst ht
    exact absurd (hds 97 (List.mem_cons_self _ _)) (by decide)
  · subst h
    cases ht
  · subst h
    cases ht

/-- Claim C22 (amended): a chat frame at whose start no decimal integer that
fits a `long long` can be read (for example `"ab 12"`) is dropped:
`handleReceivedMessage` sends no frame to anyone and leaves the server state
unchanged. A frame that starts with integers and then holds a token that is not
a decimal integer (for example `"12 ab"`) is handled exactly as the frame made
of the integers read in front of that token. -/
theorem unreadable_frame_dropped (s : ChatServer) (send : SendFn) (clientSocket : Int)
    (frame : Bytes) :
    ((∀ x rest, ¬ ReadsInteger frame x rest) →
        handleReceivedMessage s send clientSocket frame = some (s, [])) ∧
      handleReceivedMessage s send clientSocket frame =
        handleReceivedMessage s send clientSocket
          (serialize_ciphertext (deserialize_ciphertext frame)) := by
  constructor
  · intro h
    exact handleReceivedMessage_of_nil s send clientSocket frame ((deserialize_eq_nil_iff frame).mpr h)
  · exact handleReceivedMessage_congr s send clientSocket _ _
      (deserialize_serialize_deserialize frame).symm

theorem unreadable_frame_dropped_witness :
    (∀ x rest, ¬ ReadsInteger (lit "ab 12") x rest) ∧
      handleReceivedMessage twoClients sendOk 4 (lit "ab 12") = some (twoClients, []) ∧
      serialize_ciphertext (deserialize_ciphertext (lit "12 ab")) = lit "12" ∧
      handleReceivedMessage twoClients sendOk 4 (lit "12 ab") =
        handleReceivedMessage twoClients sendOk 4
          (serialize_ciphertext (deserialize_ciphertext (lit "12 ab"))) :=
  ⟨(extractInt_eq_none_iff (lit "ab 12")).mp (by decide),
    (unreadable_frame_dropped twoClients sendOk 4 (lit "ab 12")).1
      ((extractInt_eq_none_iff (lit "ab 12")).mp (by decide)),
    by decide,
    (unreadable_frame_dropped twoClients sendOk 4 (lit "12 ab")).2⟩

/-- Claim C23: in the receive loop of `clientReceiverThreadFunc` on a running
server, a read of positive length passes the frame to `handleReceivedMessage`
and goes back to receiving; a read of length zero leaves the loop with
`graceful_disconnect == true`; a read of negative length leaves the loop with
`graceful_disconnect == false`. For any reads of positive length followed by a
read that is not, the thread handles those frames in order, then runs
`cleanupClient` once for the connection with that flag and exits; what the
socket would yield afterwards is never read. -/
theorem receive_loop_dispatch (s : ChatServer) (send : SendFn) (self : Nat) (clientSocket : Int)
    (datas : List RecvResult) (last : RecvResult) (post : List RecvResult)
    (hrun : s.m_running = true) (hdatas : ∀ d ∈ datas, 0 < d.len) (hlast : last.len ≤ 0) :
    (∀ recv rest, 0 < recv.len →
        receiverIteration s send clientSocket recv =
          (handleReceivedMessage s send clientSocket recv.text).map
            (fun r => (r.1, r.2, LoopStep.again)) ∧
        receiverLoop send clientSocket s (recv :: rest) =
          (handleReceivedMessage s send clientSocket recv.text).bind fun r =>
            (receiverLoop send clientSocket r.1 rest).map
              fun t => (t.1, r.2 ++ t.2.1, t.2.2.1, t.2.2.2)) ∧
      (∀ recv rest, recv.len = 0 →
        receiverIteration s send clientSocket recv = some (s, [], LoopStep.leave true) ∧
        receiverLoop send clientSocket s (recv :: rest) = some (s, [], some true, rest)) ∧
      (∀ recv rest, recv.len < 0 →
        receiverIteration s send clientSocket recv = some (s, [], LoopStep.leave false) ∧
        receiverLoop send clientSocket s (recv :: rest) = some (s, [], some false, rest)) ∧
      clientReceiverThreadFunc s send self clientSocket (datas ++ last :: post) =
        (handleEach send clientSocket s (datas.map RecvResult.text)).map fun h =>
          ((cleanupClient s self clientSocket (decide (last.len = 0))).1,
           h.2 ++ (cleanupClient s self clientSocket (decide (last.len = 0))).2, true, post) := by
  refine ⟨?_, ?_, ?_, ?_⟩
  · intro recv rest h
    exact ⟨receiverIteration_data s send clientSocket recv h,
      receiverLoop_data s send clientSocket recv rest hrun h⟩
  · intro recv rest h
    refine ⟨receiverIteration_closed s send clientSocket recv h, ?_⟩
    rw [receiverLoop_leave s send clientSocket recv rest hrun (by omega)]
    simp [h]
  · intro recv rest h
    refine ⟨receiverIteration_error s send clientSocket recv h, ?_⟩
    rw [receiverLoop_leave s send clientSocket recv rest hrun (by omega)]
    have : ¬ recv.len = 0 := by omega
    simp [this]
  · exact clientReceiverThreadFunc_run send self clientSocket last post hlast datas s hrun hdatas

set_option maxRecDepth 100000 in
theorem receive_loop_dispatch_witness :
    twoClients.m_running = true ∧
      (∀ d ∈ [RecvResult.data frameBobHello], 0 < d.len) ∧
      RecvResult.closed.len ≤ 0 ∧
      clientReceiverThreadFunc twoClients sendOk 1 4
          ([RecvResult.data frameBobHello] ++ RecvResult.closed :: [RecvResult.data frameCarolHi]) =
        some (⟨true, 3, [(5, bobSession)]⟩,
          [SysCall.send 5 (serialize_ciphertext dmAliceHello), SysCall.shutdown 4, SysCall.close 4,
           SysCall.pthread_detach 1],
          true, [RecvResult.data frameCarolHi]) :=
  ⟨rfl, by decide, by decide,
    (receive_loop_dispatch twoClients sendOk 1 4 [RecvResult.data frameBobHello] RecvResult.closed
      [RecvResult.data frameCarolHi] rfl (by decide) (by decide)).2.2.2.trans (by decide)⟩

/-- Claim C24: for every registry and every connection id registered in it,
after `cleanupClient(id)` the registry has no entry for `id`, and every other
entry is exactly as it was: the lookup of every other socket gives the same
session (socket, public key, thread, user id and connected flag), and the
entries under other keys are the same before and after. The entry that was
registered for `id` is gone; the running flag and the listening socket are not
touched. -/
theorem cleanupClient_removes_only_its_entry (s : ChatServer) (self : Nat) (id : Int) (g : Bool)
    (c : ClientSession) (hreg : s.m_clients.find id = some c) :
    (cleanupClient s self id g).1.m_clients.find id = none ∧
      (∀ p ∈ (cleanupClient s self id g).1.m_clients, p.1 ≠ id) ∧
      (∀ k, k ≠ id → (cleanupClient s self id g).1.m_clients.find k = s.m_clients.find k) ∧
      (∀ p : Int × ClientSession, p.1 ≠ id →
        (p ∈ (cleanupClient s self id g).1.m_clients ↔ p ∈ s.m_clients)) ∧
      (cleanupClient s self id g).1.m_running = s.m_running ∧
      (cleanupClient s self id g).1.m_server_socket = s.m_server_socket ∧
      ((id, c) ∈ s.m_clients ∧ (id, c) ∉ (cleanupClient s self id g).1.m_clients) := by
  have hc : (cleanupClient s self id g).1.m_clients = s.m_clients.erase id := by
    rw [cleanupClient_clients]
  have hr : (cleanupClient s self id g).1.m_running = s.m_running := by
    rw [cleanupClient_clients]
  have hs : (cleanupClient s self id g).1.m_server_socket = s.m_server_socket := by
    rw [cleanupClient_clients]
  have hmem : (id, c) ∈ s.m_clients := ClientMap.find_mem _ _ _ hreg
  rw [hc]
  refine ⟨?_, ?_, ?_, ?_, hr, hs, ?_⟩
  rotate_right
  · exact ⟨hmem, fun h => ((ClientMap.mem_erase _ _ _).mp h).2 rfl⟩
  · rw [ClientMap.find_erase, if_pos rfl]
  · intro p hp
    exact ((ClientMap.mem_erase _ _ _).mp hp).2
  · intro k hk
    rw [ClientMap.find_erase, if_neg hk]
  · intro p hp
    rw [ClientMap.mem_erase]
    exact ⟨fun h => h.1, fun h => ⟨h, hp⟩⟩

theorem cleanupClient_removes_only_its_entry_witness :
    threeClients.m_clients.find 5 = some bobSession ∧
      ((cleanupClient threeClients 0 5 false).1.m_clients.find 5 = none ∧
      (∀ p ∈ (cleanupClient threeClients 0 5 false).1.m_clients, p.1 ≠ 5) ∧
      (∀ k, k ≠ 5 →
        (cleanupClient threeClients 0 5 false).1.m_clients.find k = threeClients.m_clients.find k) ∧
      (∀ p : Int × ClientSession, p.1 ≠ 5 →
        (p ∈ (cleanupClient threeClients 0 5 false).1.m_clients ↔ p ∈ threeClients.m_clients)) ∧
      (cleanupClient threeClients 0 5 false).1.m_running = threeClients.m_running ∧
      (cleanupClient threeClients 0 5 false).1.m_server_socket = threeClients.m_server_socket ∧
      ((5, bobSession) ∈ threeClients.m_clients ∧
        (5, bobSession) ∉ (cleanupClient threeClients 0 5 false).1.m_clients)) :=
  ⟨by decide, cleanupClient_removes_only_its_entry threeClients 0 5 false bobSession (by decide)⟩

/-- Claim C25 (the code at the failing input): on a running server, when
`select` fails with an error other than `EINTR` (after any number of timeouts
and interrupted waits), the accept loop clears `m_running` and leaves, and
`run()` returns through `stopServer()`, which returns at once because
`m_running` is already false: no call is made, so no socket is closed, the
registry keeps every entry and the listening socket stays open. -/
theorem run_after_select_failure_cleans_nothing (s : ChatServer) (self : Nat)
    (waits rest : List SelectResult) (hrun : s.m_running = true)
    (hwaits : ∀ a ∈ waits, a = SelectResult.timeout ∨ a = SelectResult.interrupted) :
    run s self (waits ++ SelectResult.failed :: rest) =
      (⟨false, s.m_server_socket, s.m_clients⟩, [], true) := by
  unfold run
  simp only [hrun, Bool.not_true, Bool.false_eq_true, if_false]
  rw [acceptClientsLoop_idle self s waits hwaits, acceptClientsLoop_failed self s hrun]
  simp only [Bool.not_true, Bool.false_eq_true, if_false]
  rw [stopServer_not_running _ self rfl]
  by_cases h : s.m_server_socket = -1
  · simp [h]
  · simp [h]

theorem run_after_select_failure_cleans_nothing_witness :
    threeClients.m_running = true ∧
      (∀ a ∈ [SelectResult.timeout], a = SelectResult.timeout ∨ a = SelectResult.interrupted) ∧
      run threeClients 0 ([SelectResult.timeout] ++ SelectResult.failed :: []) =
        (⟨false, 3, [(4, aliceSession), (5, bobSession), (6, daveSession)]⟩, [], true) :=
  ⟨rfl, fun _ ha => Or.inl (List.mem_singleton.mp ha),
    run_after_select_failure_cleans_nothing threeClients 0 [SelectResult.timeout] []
      rfl (fun _ ha => Or.inl (List.mem_singleton.mp ha))⟩

/-- Claim C26 (the code at the failing input): in `stopServer()` on a running
server the shutdown sweep `cleanupAllClients()` writes the registry with
`m_clients.clear()` after its locked block has ended, so not every access of
the sweep is made while the mutex is held; the accesses of `cleanupClient`
itself all are. -/
theorem shutdown_sweep_clears_registry_unlocked (s : ChatServer) (self : Nat)
    (hrun : s.m_running = true) :
    allGuarded false (stopServerEvents s self) = false ∧
      (stopServerEvents s self).getLast? = some MutexEvent.write ∧
      ∀ k g, allGuarded false (cleanupClientEvents s k g) = true := by
  refine ⟨?_, ?_, fun k g => allGuarded_cleanupClientEvents s k g⟩
  · unfold stopServerEvents
    simp only [hrun, Bool.not_true, Bool.false_eq_true, if_false]
    exact cleanupAllClientsEvents_unguarded _ self
  · unfold stopServerEvents cleanupAllClientsEvents
    simp only [hrun, Bool.not_true, Bool.false_eq_true, if_false]
    rw [List.getLast?_append]
    rfl

theorem shutdown_sweep_clears_registry_unlocked_witness :
    threeClients.m_running = true ∧
      (allGuarded false (stopServerEvents threeClients 0) = false ∧
      (stopServerEvents threeClients 0).getLast? = some MutexEvent.write ∧
      ∀ k g, allGuarded false (cleanupClientEvents threeClients k g) = true) :=
  ⟨rfl, shutdown_sweep_clears_registry_unlocked threeClients 0 rfl⟩

/-- Claim C27: for all integers `base >= 0`, `exp >= 0` and `mod > 1` with
`(mod - 1)^2 < 2^63`, `modexp(base, exp, mod)` returns `base^exp mod mod`
computed in exact arithmetic. The loop ends by its own test `exp > 0`: any
number of iterations from `exp` on gives that same value. Every product
`result * base` and `base * base` formed on the way fits a signed 64-bit
integer (storing it changes nothing), and the result lies in `0..mod-1`. -/
theorem modexp_exact (base exp mod : Int) (hbase : 0 ≤ base) (hexp : 0 ≤ exp) (hmod : 1 < mod)
    (hsq : (mod - 1) ^ 2 < 2 ^ 63) :
    modexp base exp mod = some (base ^ exp.toNat % mod) ∧
      (∀ fuel : Nat, exp.toNat ≤ fuel →
        modexpLoop fuel 1 (base % mod) exp mod = some (base ^ exp.toNat % mod)) ∧
      (∀ p ∈ modexpProducts base exp mod, IsInt64 p ∧ wrap64 p = p) ∧
      0 ≤ base ^ exp.toNat % mod ∧ base ^ exp.toNat % mod ≤ mod - 1 := by
  have hc : cmod base mod = some (base % mod) := cmod_of_nonneg base mod hbase (by omega)
  have hb : 0 ≤ base % mod ∧ base % mod < mod :=
    ⟨Int.emod_nonneg _ (by omega), Int.emod_lt_of_pos _ (by omega)⟩
  have hval : (1 * (base % mod) ^ exp.toNat) % mod = base ^ exp.toNat % mod := by
    rw [one_mul]
    exact (Int.mod_modEq base mod).pow _
  have hloop : ∀ fuel : Nat, exp.toNat ≤ fuel →
      modexpLoop fuel 1 (base % mod) exp mod = some (base ^ exp.toNat % mod) := by
    intro fuel hfuel
    rw [(modexpLoop_exact mod hmod hsq fuel 1 (base % mod) exp hexp (by omega) (by omega) hmod
      hb.1 hb.2).1, hval]
  refine ⟨?_, hloop, ?_, Int.emod_nonneg _ (by omega), ?_⟩
  · unfold modexp
    rw [hc]
    exact hloop exp.toNat (le_refl _)
  · intro p hp
    unfold modexpProducts at hp
    rw [hc] at hp
    have hp2 := (modexpLoop_exact mod hmod hsq exp.toNat 1 (base % mod) exp hexp (by omega)
      (by omega) hmod hb.1 hb.2).2 p hp
    have hi := isInt64_of_le_sq mod p hsq hp2.1 hp2.2
    exact ⟨hi, wrap64_of_isInt64 p hi⟩
  · have := Int.emod_lt_of_pos (base ^ exp.toNat) (show (0 : Int) < mod by omega)
    omega

theorem modexp_exact_witness :
    modexp 300 5 323 = some 78 ∧ modexpProducts 300 5 323 = [300, 90000, 42436, 36900, 15129] ∧
      (modexp 300 5 323 = some (300 ^ (5 : Int).toNat % 323) ∧
      (∀ fuel : Nat, (5 : Int).toNat ≤ fuel →
        modexpLoop fuel 1 (300 % 323) 5 323 = some (300 ^ (5 : Int).toNat % 323)) ∧
      (∀ p ∈ modexpProducts 300 5 323, IsInt64 p ∧ wrap64 p = p) ∧
      0 ≤ (300 : Int) ^ (5 : Int).toNat % 323 ∧ (300 : Int) ^ (5 : Int).toNat % 323 ≤ 323 - 1) :=
  ⟨by decide, by decide, modexp_exact 300 5 323 (by decide) (by decide) (by decide) (by decide)⟩

/-- Claim C28 (the code at the failing input): `exchangeKeys` accepts the
handshake frame `"5 0 carol"` and stores the public key `{5, 0}`; once the
worker of that connection has started, the direct message `carol/hi` of alice
makes the server encrypt under that key, where `modexp` evaluates `% 0`: the
encryption, and with it the handling of the frame, has no defined result. -/
theorem zero_modulus_key_accepted :
    (exchangeKeys accepted6 sendOk (RecvResult.data (lit "5 0 carol")) 6).1 = true ∧
      ((exchangeKeys accepted6 sendOk (RecvResult.data (lit "5 0 carol")) 6).2.1.m_clients.find 6).map
        (fun c => c.public_key) = some [5, 0] ∧
      modexp 104 5 0 = none ∧
      encrypt (lit "hi") [5, 0] = none ∧
      handleReceivedMessage
        (startClientReceiver
          (exchangeKeys accepted6 sendOk (RecvResult.data (lit "5 0 carol")) 6).2.1 (some 3) 6).2.1
        sendOk 4 frameCarolHi = none := by
  refine ⟨by decide, by decide, by decide, by decide, by decide⟩

/-- Claim C29: for every string `s`, `deserialize_ciphertext(s)` is exactly the
sequence of integers read from the start of `s` up to the first position where
no decimal integer (fitting a `long long`) can be read, and that sequence is
unique. The integers read before that position are kept: when an integer can
be read at the start, the result is that integer followed by what the rest
yields, whatever the rest holds; the result is empty only when no integer can
be read at the start. -/
theorem deserialize_keeps_leading_integers (s : Bytes) :
    ReadsIntegers s (deserialize_ciphertext s) ∧
      (∀ xs, ReadsIntegers s xs → xs = deserialize_ciphertext s) ∧
      (∀ x rest, ReadsInteger s x rest →
        deserialize_ciphertext s = x :: deserialize_ciphertext rest) ∧
      (deserialize_ciphertext s = [] ↔ ∀ x rest, ¬ ReadsInteger s x rest) ∧
      deserialize_ciphertext (lit "12 ab") = [12] := by
  refine ⟨readsIntegers_deserialize s, readsIntegers_unique s, ?_, deserialize_eq_nil_iff s,
    by decide⟩
  intro x rest h
  exact (readsIntegers_unique s _
    (ReadsIntegers.read s x rest _ h (readsIntegers_deserialize rest))).symm

end RsaChat

namespace IpClass

/-! # The two classifications of `ipClass.c` -/

set_option maxRecDepth 100000 in
theorem octet_letters_match_below_256 : ∀ n : Nat, n < 256 → (1 ≤ n ∧ n ≤ 126) ∨ (128 ≤ n ∧ n ≤ 247) →
    determineClassByDecimal (n : Int) = determineClassByBitwise (n : Int) := by
  decide

/-- Claim C30 (counterexample): the two functions give different letters at the
first octets 0 and 127, where `determineClassByDecimal` returns `X` and
`determineClassByBitwise` returns `A`, and at 248..255, where they return `E`
and `X`; so they do not agree on all of 0..255. -/
theorem classes_differ_on_some_octets :
    determineClassByDecimal 0 = 'X' ∧ determineClassByBitwise 0 = 'A' ∧
      determineClassByDecimal 127 = 'X' ∧ determineClassByBitwise 127 = 'A' ∧
      (∀ o ∈ [248, 249, 250, 251, 252, 253, 254, 255],
        determineClassByDecimal o = 'E' ∧ determineClassByBitwise o = 'X') ∧
      ¬ (∀ firstOctet : Int, 0 ≤ firstOctet → firstOctet ≤ 255 →
          determineClassByDecimal firstOctet = determineClassByBitwise firstOctet) := by
  refine ⟨by decide, by decide, by decide, by decide, by decide, ?_⟩
  intro h
  exact absurd (h 127 (by decide) (by decide)) (by decide)

/-- Claim C30 (amended): for every first octet in 1..126 or in 128..247,
`determineClassByDecimal` and `determineClassByBitwise` return the same class
letter; at the first octets 0 and 127 the decimal ranges give `X` (invalid)
while the bit patterns give `A`. -/
theorem classes_agree (firstOctet : Int) :
    ((1 ≤ firstOctet ∧ firstOctet ≤ 126) ∨ (128 ≤ firstOctet ∧ firstOctet ≤ 247) →
        determineClassByDecimal firstOctet = determineClassByBitwise firstOctet) ∧
      (firstOctet = 0 ∨ firstOctet = 127 →
        determineClassByDecimal firstOctet = 'X' ∧ determineClassByBitwise firstOctet = 'A') := by
  constructor
  · intro h
    have h0 : 0 ≤ firstOctet := by omega
    obtain ⟨n, rfl⟩ := Int.eq_ofNat_of_zero_le h0
    have hn : n < 256 := by omega
    exact octet_letters_match_below_256 n hn (by omega)
  · rintro (h | h)
    · subst h; exact ⟨by decide, by decide⟩
    · subst h; exact ⟨by decide, by decide⟩

theorem classes_agree_witness :
    ((1 ≤ (10 : Int) ∧ (10 : Int) ≤ 126) ∨ (128 ≤ (10 : Int) ∧ (10 : Int) ≤ 247)) ∧
      determineClassByDecimal 10 = determineClassByBitwise 10 ∧
      determineClassByDecimal 10 = 'A' ∧
      (determineClassByDecimal 127 = 'X' ∧ determineClassByBitwise 127 = 'A') :=
  ⟨by decide, (classes_agree 10).1 (by decide), by decide, (classes_agree 127).2 (Or.inr rfl)⟩

end IpClass
